import Mathlib

/-!
Verification of the duplo Bristol-circuit builder (`duplo_builder.py`).

The Python program is shallowly embedded: Python strings become `List Char`,
Python `int` becomes `Int` (with `Nat` where a value is provably a length or
counter), the identity-based wire objects become an arena of natural-number
handles owned by each `Circuit` (allocation hands out `nextWire` and bumps
it), Python's `set` of wires becomes a `Finset Nat`, dict-like mappings become
association lists where a later (consed-on) binding shadows an earlier one,
and every operation that can raise a Python exception returns `Except String`.
-/

set_option autoImplicit false

namespace Duplo

/-- Python strings are modelled as lists of characters. -/
abbrev Str := List Char

/-- Handle into a circuit's wire arena; stands for one Python `Circuit.Wire`
object (identity only, no payload). -/
abbrev Wire := Nat

/-! ## Python string and integer primitives -/

/-- The characters Python's `str.split()` / `str.strip()` treat as whitespace. -/
def isPySpace (c : Char) : Bool :=
  c == ' ' || c == '\t' || c == '\n' || c == '\r' || c == Char.ofNat 11 || c == Char.ofNat 12

/-- Decimal digit test, as used by `int(...)` parsing. -/
def isDigitCh (c : Char) : Bool :=
  '0' ≤ c && c ≤ '9'

/-- The decimal digit characters (argument is taken mod 10 by the callers). -/
def digitChar : Nat → Char
  | 0 => '0' | 1 => '1' | 2 => '2' | 3 => '3' | 4 => '4'
  | 5 => '5' | 6 => '6' | 7 => '7' | 8 => '8' | _ => '9'

/-- Little-endian decimal digits of `n`, with explicit fuel so the recursion is
structural (callers supply fuel at least `n`). -/
def natDigitsAux : Nat → Nat → List Char
  | 0, _ => []
  | fuel + 1, n => if n = 0 then [] else digitChar (n % 10) :: natDigitsAux fuel (n / 10)

/-- `str(n)` for a nonnegative Python int. -/
def renderNat (n : Nat) : Str :=
  if n = 0 then ['0'] else (natDigitsAux n n).reverse

/-- `str(i)` for a Python int. -/
def renderInt (i : Int) : Str :=
  if i < 0 then '-' :: renderNat (-i).toNat else renderNat i.toNat

/-- `s.strip()`. -/
def pyStrip (s : Str) : Str :=
  ((s.dropWhile isPySpace).reverse.dropWhile isPySpace).reverse

/-- Numeric value of a string of decimal digits. -/
def digitsVal (s : Str) : Nat :=
  s.foldl (fun a c => 10 * a + (c.toNat - 48)) 0

/-- Worker for `pyInt`, applied to the stripped string. -/
def pyIntAux : Str → Option Int
  | [] => none
  | c :: ds =>
    if c = '-' then
      if ds ≠ [] ∧ ds.all isDigitCh then some (-(digitsVal ds : Int)) else none
    else if c = '+' then
      if ds ≠ [] ∧ ds.all isDigitCh then some ((digitsVal ds : Int)) else none
    else
      if (c :: ds).all isDigitCh then some ((digitsVal (c :: ds) : Int)) else none

/-- `int(s)` for base 10: optional surrounding whitespace, optional sign,
then a nonempty run of digits; anything else raises `ValueError` (`none`). -/
def pyInt (s : Str) : Option Int :=
  pyIntAux (pyStrip s)

/-- Split a character list at every occurrence of `sep`; models how a text
file decomposes into lines at `'\n'` (each line without its terminator).
The result is always nonempty, so taking head and tail of the recursive
result loses nothing. -/
def splitChar (sep : Char) : Str → List Str
  | [] => [[]]
  | x :: xs =>
    let r := splitChar sep xs
    if x = sep then [] :: r else (x :: r.headI) :: r.tail

/-- Accumulator-based worker for `splitWs`; `acc` holds the current token
reversed. -/
def splitWsAux : Str → Str → List Str
  | [], acc => if acc = [] then [] else [acc.reverse]
  | c :: cs, acc =>
    if isPySpace c then
      if acc = [] then splitWsAux cs [] else acc.reverse :: splitWsAux cs []
    else splitWsAux cs (c :: acc)

/-- `s.split()`: split on runs of whitespace, discarding empty tokens. -/
def splitWs (s : Str) : List Str :=
  splitWsAux s []

/-- `sep.join(parts)`. -/
def joinSep (sep : Str) : List Str → Str
  | [] => []
  | [x] => x
  | x :: xs => x ++ sep ++ joinSep sep xs

/-- `name.rsplit("::", 1)` when `"::"` occurs in `name`: split at the LAST
occurrence of `"::"`; `none` when `"::"` does not occur. -/
def rsplitColons : Str → Option (Str × Str)
  | [] => none
  | c :: rest =>
    match rsplitColons rest with
    | some (pre, suf) => some (c :: pre, suf)
    | none => if c = ':' ∧ rest.head? = some ':' then some ([], rest.tail) else none

/-! ## The circuit data model -/

/-- One gate record: operation token, ordered input wires, single output wire
(Python class `Gate`). -/
structure Gate where
  operation : Str
  input_wires : List Wire
  output_wire : Wire
deriving DecidableEq

/-- The circuit: wire arena (`nextWire` is the allocator cursor; `wires` is
the identity set `self.wires`), the name registry `self.wires_by_name`
(later-consed binding shadows, mirroring dict assignment), and the ordered
gate list (Python class `Circuit`). -/
structure Circuit where
  nextWire : Nat
  wires : Finset Nat
  wires_by_name : List (Str × Wire)
  gates : List Gate
deriving DecidableEq

/-- `Circuit()`. -/
def Circuit.empty : Circuit := ⟨0, ∅, [], []⟩

/-- First-match lookup in an association list (dict lookup; most recently
consed binding wins). -/
def lookupName : List (Str × Wire) → Str → Option Wire
  | [], _ => none
  | (n, w) :: rest, name => if n = name then some w else lookupName rest name

/-- The nameless branch of `Circuit.get_wire`: allocate a brand-new wire
object and insert it into the wire set. -/
def Circuit.fresh_wire (c : Circuit) : Wire × Circuit :=
  (c.nextWire, { c with nextWire := c.nextWire + 1, wires := insert c.nextWire c.wires })

/-- `Circuit.get_wire(name=None)`: without a name allocate a fresh wire; with
a name return the registered wire, registering a fresh one on first use. -/
def Circuit.get_wire (c : Circuit) : Option Str → Wire × Circuit
  | none => c.fresh_wire
  | some name =>
    match lookupName c.wires_by_name name with
    | some w => (w, c)
    | none =>
      let p := c.fresh_wire
      (p.1, { p.2 with wires_by_name := (name, p.1) :: p.2.wires_by_name })

/-- `Circuit.expand_name`: a name `pre::N` expands to `pre_0 .. pre_(N-1)`
(empty for `N ≤ 0`, `ValueError` when the part after the last `::` is not an
int); a plain name expands to itself. -/
def expand_name (name : Str) : Except String (List Str)  :=
  match rsplitColons name with
  | none => .ok [name]
  | some (pre, sizeStr) =>
    match pyInt sizeStr with
    | none => .error "ValueError: invalid literal for int"
    | some size => .ok ((List.range size.toNat).map fun i => pre ++ '_' :: renderNat i)

mutual
/-- A wire-specification value as accepted by `Circuit.convert_to_wires`: a
single wire, a string name, a (nested) list, a `Component` (which contributes
its output wire list), or any other Python value (`other`, rejected with
`ValueError`).  `SpecList` unfolds `List Spec` so the conversion recursion is
structural. -/
inductive Spec : Type where
  | wire (w : Wire)
  | str (s : Str)
  | list (l : SpecList)
  | comp (out : List Wire)
  | other
inductive SpecList : Type where
  | nil
  | cons (s : Spec) (rest : SpecList)
end

/-- Resolve a list of names through `get_wire`, left to right. -/
def get_wires_named (c : Circuit) : List Str → List Wire × Circuit
  | [] => ([], c)
  | n :: ns =>
    let p := c.get_wire (some n)
    let q := get_wires_named p.2 ns
    (p.1 :: q.1, q.2)

/-- `SpecList.toList`, for stating membership conveniently. -/
def SpecList.toList : SpecList → List Spec
  | .nil => []
  | .cons s rest => s :: rest.toList

mutual
/-- `Circuit.convert_to_wires(spec)`: normalize a specification to an ordered
wire list, allocating named wires on demand.  A `Component` contributes its
output wire list (`convert_to_wires(spec.output)` where `output` is a list of
wires, which flattens back to that same list without touching the circuit). -/
def Circuit.convert_to_wires (c : Circuit) : Spec → Except String (List Wire × Circuit)
  | .wire w => .ok ([w], c)
  | .str s =>
    match expand_name s with
    | .error e => .error e
    | .ok names => .ok (get_wires_named c names)
  | .list l => Circuit.convert_many c l
  | .comp out => .ok (out, c)
  | .other => .error "ValueError: Bad spec"

/-- `sum(map(self.convert_to_wires, spec), [])`: convert the members left to
right, threading the circuit, and concatenate. -/
def Circuit.convert_many (c : Circuit) : SpecList → Except String (List Wire × Circuit)
  | .nil => .ok ([], c)
  | .cons s rest =>
    match Circuit.convert_to_wires c s with
    | .error e => .error e
    | .ok (ws, c1) =>
      match Circuit.convert_many c1 rest with
      | .error e => .error e
      | .ok (ws2, c2) => .ok (ws ++ ws2, c2)
end

/-! ## Wire numbering and serialization (`Circuit.build_description`) -/

/-- The serialization-time numbering state: the `wire_numbers` dict (consed
assoc list, first match wins) and the `counter` cell. -/
structure NumSt where
  numbers : List (Wire × Int)
  counter : Nat
deriving DecidableEq

/-- Lookup in `wire_numbers`. -/
def numLookup : List (Wire × Int) → Wire → Option Int
  | [], _ => none
  | (v, k) :: rest, w => if v = w then some k else numLookup rest w

/-- The local `wire_num(w)` closure: assert membership in the circuit's wire
set, then lazily assign the next counter value on first reference. -/
def wire_num (wires : Finset Nat) (st : NumSt) (w : Wire) : Except String (Int × NumSt) :=
  if w ∈ wires then
    match numLookup st.numbers w with
    | some k => .ok (k, st)
    | none => .ok ((st.counter : Int), ⟨(w, (st.counter : Int)) :: st.numbers, st.counter + 1⟩)
  else .error "AssertionError: wire not in self.wires"

/-- `for i, w in enumerate(ws): wire_num(w)` (result discarded). -/
def number_list (wires : Finset Nat) (st : NumSt) : List Wire → Except String NumSt
  | [] => .ok st
  | w :: ws =>
    match wire_num wires st w with
    | .error e => .error e
    | .ok (_, st1) => number_list wires st1 ws

/-- Number a list of wires, collecting the assigned ids. -/
def number_all (wires : Finset Nat) (st : NumSt) : List Wire → Except String (List Int × NumSt)
  | [] => .ok ([], st)
  | w :: ws =>
    match wire_num wires st w with
    | .error e => .error e
    | .ok (k, st1) =>
      match number_all wires st1 ws with
      | .error e => .error e
      | .ok (ks, st2) => .ok (k :: ks, st2)

/-- `for i, w in enumerate(output_wires): wire_numbers[w] = base + i` with
`base = len(self.wires) - len(output_wires)`: direct dict assignment, no
membership assertion, no counter bump; later iterations shadow earlier
bindings exactly as dict assignment overwrites. -/
def assignOutsAux (base : Int) : Nat → List Wire → List (Wire × Int) → List (Wire × Int)
  | _, [], ns => ns
  | i, w :: ws, ns => assignOutsAux base (i + 1) ws ((w, base + (i : Int)) :: ns)

/-- The text of one gate line, given the ids of its wires:
`"%i %i %s %s %s" % (len(inputs), 1, " ".join(ids), out_id, operation)`. -/
def gate_line (g : Gate) (ids : List Int) (oid : Int) : Str :=
  renderNat g.input_wires.length ++ ' ' :: renderNat 1 ++ ' ' ::
    joinSep [' '] (ids.map renderInt) ++ ' ' :: renderInt oid ++ ' ' :: g.operation

/-- `Gate.build(wire_num)`: number the input wires (left to right, the join
of the inputs string is evaluated first), then the output wire, and render
the line. -/
def Gate.build (wires : Finset Nat) (st : NumSt) (g : Gate) : Except String (Str × NumSt) :=
  match number_all wires st g.input_wires with
  | .error e => .error e
  | .ok (ids, st1) =>
    match wire_num wires st1 g.output_wire with
    | .error e => .error e
    | .ok (oid, st2) => .ok (gate_line g ids oid, st2)

/-- Render each gate's line in gate-list order, threading the numbering
state (the generator inside `"\n".join(...)`). -/
def build_lines (wires : Finset Nat) (st : NumSt) : List Gate → Except String (List Str × NumSt)
  | [] => .ok ([], st)
  | g :: gs =>
    match Gate.build wires st g with
    | .error e => .error e
    | .ok (line, st1) =>
      match build_lines wires st1 gs with
      | .error e => .error e
      | .ok (lines, st2) => .ok (line :: lines, st2)

/-- The numbering-and-rendering core of `build_description`, applied to the
already-converted wire lists: assign ids to left inputs, right inputs,
pre-reserve the output ids, walk the gate list, and format
`"%i %i\n%i %i %i\n\n%s\n"`.  Also returns the final numbering state. -/
def number_and_render (wires : Finset Nat) (lw rw ow : List Wire) (gates : List Gate) :
    Except String (Str × NumSt) :=
  match number_list wires ⟨[], 0⟩ lw with
  | .error e => .error e
  | .ok st1 =>
    match number_list wires st1 rw with
    | .error e => .error e
    | .ok st2 =>
      let base : Int := (wires.card : Int) - (ow.length : Int)
      let st3 : NumSt := ⟨assignOutsAux base 0 ow st2.numbers, st2.counter⟩
      match build_lines wires st3 gates with
      | .error e => .error e
      | .ok (lines, st4) =>
        .ok (renderNat gates.length ++ ' ' :: renderNat wires.card ++ '\n' ::
              (renderNat lw.length ++ ' ' :: renderNat rw.length ++ ' ' :: renderNat ow.length) ++
              '\n' :: '\n' :: (joinSep ['\n'] lines ++ ['\n']), st4)

/-- `Circuit.build_description(left_inputs, right_inputs, outputs)`: convert
the three specifications (mutating the circuit), then number and render.
Returns the text together with the possibly-enlarged circuit. -/
def Circuit.build_description (c : Circuit) (li ri outs : Spec) :
    Except String (Str × Circuit) :=
  match c.convert_to_wires li with
  | .error e => .error e
  | .ok (lw, c1) =>
    match c1.convert_to_wires ri with
    | .error e => .error e
    | .ok (rw, c2) =>
      match c2.convert_to_wires outs with
      | .error e => .error e
      | .ok (ow, c3) =>
        match number_and_render c3.wires lw rw ow c3.gates with
        | .error e => .error e
        | .ok (text, _) => .ok (text, c3)

/-! ## Components -/

/-- Convert each input specification in turn (`map(circuit.convert_to_wires,
inputs)` evaluates left to right, threading the circuit). -/
def convert_inputs (c : Circuit) : List Spec → Except String (List (List Wire) × Circuit)
  | [] => .ok ([], c)
  | s :: rest =>
    match c.convert_to_wires s with
    | .error e => .error e
    | .ok (ws, c1) =>
      match convert_inputs c1 rest with
      | .error e => .error e
      | .ok (wss, c2) => .ok (ws :: wss, c2)

/-- `[circuit.get_wire() for _ in xrange(n)]`. -/
def alloc_wires (c : Circuit) : Nat → List Wire × Circuit
  | 0 => ([], c)
  | n + 1 =>
    let p := c.fresh_wire
    let q := alloc_wires p.2 n
    (p.1 :: q.1, q.2)

/-- The shared part of `Component.__init__`: convert the inputs, assert the
arity (`len(self.inputs) == len(self.input_sizes)`), assert each converted
width against the declared `input_sizes`, then allocate `output_size` fresh
output wires (`xrange` of a nonpositive int is empty).  The concrete
variant's `produce_gates` runs afterwards. -/
def component_init (c : Circuit) (specs : List Spec) (input_sizes : List Int)
    (output_size : Int) : Except String (List (List Wire) × List Wire × Circuit) :=
  match convert_inputs c specs with
  | .error e => .error e
  | .ok (inputs, c1) =>
    if inputs.length = input_sizes.length then
      if (inputs.zip input_sizes).all (fun p => ((p.1.length : Int) == p.2)) then
        let q := alloc_wires c1 output_size.toNat
        .ok (inputs, q.1, q.2)
      else .error "AssertionError: Bad input length!"
    else .error "AssertionError: Wrong number of inputs to component!"

/-- `[i[0] for i in inputs]` (IndexError on an empty member). -/
def heads : List (List Wire) → Except String (List Wire)
  | [] => .ok []
  | [] :: _ => .error "IndexError"
  | (w :: _) :: rest =>
    match heads rest with
    | .error e => .error e
    | .ok ws => .ok (w :: ws)

/-- `PrimitiveGate` construction: the shared `Component.__init__` followed by
`produce_gates`, which appends one gate wiring the first bit of every input
group to the single output bit.  Returns the component's output list and the
mutated circuit. -/
def primitive_init (op : Str) (sizes : List Int) (c : Circuit) (specs : List Spec) :
    Except String (List Wire × Circuit) :=
  match component_init c specs sizes 1 with
  | .error e => .error e
  | .ok (inputs, out, c1) =>
    match heads inputs with
    | .error e => .error e
    | .ok hs =>
      match out with
      | o :: _ => .ok (out, { c1 with gates := c1.gates ++ [⟨op, hs, o⟩] })
      | [] => .error "IndexError"

/-- `ANDGate(circuit, a, b)`. -/
def ANDGate : Circuit → List Spec → Except String (List Wire × Circuit) :=
  primitive_init "AND".toList [1, 1]

/-- `XORGate(circuit, a, b)`. -/
def XORGate : Circuit → List Spec → Except String (List Wire × Circuit) :=
  primitive_init "XOR".toList [1, 1]

/-- `INVGate(circuit, a)`. -/
def INVGate : Circuit → List Spec → Except String (List Wire × Circuit) :=
  primitive_init "INV".toList [1]

/-! ## Bristol templates and subcircuit instantiation -/

/-- The parsed template (`class BristolCircuit`): two header lines of ints
and the whitespace-tokenized gate description lines, in file order. -/
structure BristolCircuit where
  gate_count : Int
  wire_count : Int
  left_input_wire_count : Int
  right_input_wire_count : Int
  output_wire_count : Int
  gate_descriptions : List (List Str)
deriving DecidableEq

/-- The local `get_wire(name)` closure of `Subcircuit.produce_gates`: look
the symbolic index up in `name_to_wire`, allocating a brand-new circuit wire
on first reference. -/
def sc_get_wire (c : Circuit) (tbl : List (Str × Wire)) (n : Str) :
    Wire × List (Str × Wire) × Circuit :=
  match lookupName tbl n with
  | some w => (w, tbl, c)
  | none =>
    let p := c.fresh_wire
    (p.1, (n, p.1) :: tbl, p.2)

/-- `for i, w in enumerate(ws): tbl[str(f(i))] = w` — dict assignment in
ascending `i`, so the latest binding is consed on top. -/
def add_enum (f : Nat → Int) : List Wire → Nat → List (Str × Wire) → List (Str × Wire)
  | [], _, tbl => tbl
  | w :: ws, i, tbl => add_enum f ws (i + 1) ((renderInt (f i), w) :: tbl)

/-- The initial `name_to_wire` mapping of `Subcircuit.produce_gates`: index
`i` for the i-th left input, `L + i` for the i-th right input, and
`wire_count - O + i` for the i-th allocated output. -/
def init_table (p : BristolCircuit) (ins0 ins1 out : List Wire) : List (Str × Wire) :=
  add_enum (fun i => p.wire_count - (out.length : Int) + i) out 0
    (add_enum (fun i => p.left_input_wire_count + i) ins1 0
      (add_enum (fun i => (i : Int)) ins0 0 []))

/-- `map(get_wire, input_names)`, threading table and circuit. -/
def resolve_names (c : Circuit) (tbl : List (Str × Wire)) :
    List Str → List Wire × List (Str × Wire) × Circuit
  | [] => ([], tbl, c)
  | n :: ns =>
    let p := sc_get_wire c tbl n
    let q := resolve_names p.2.2 p.2.1 ns
    (p.1 :: q.1, q.2)

/-- Python negative indexing `l[-k]` (for `k ≥ 1`): `IndexError` when out of
range. -/
def pyNegIdx {α : Type} (l : List α) (k : Nat) : Option α :=
  if 1 ≤ k ∧ k ≤ l.length then l.get? (l.length - k) else none

/-- Process one gate description: `input_names = desc[2:-2]`,
`output_name = desc[-2]`, `operation = desc[-1]` (IndexError first if the
description is too short), resolve the inputs then the output, and append
the gate. -/
def sc_step (c : Circuit) (tbl : List (Str × Wire)) (desc : List Str) :
    Except String (Circuit × List (Str × Wire)) :=
  match pyNegIdx desc 2, pyNegIdx desc 1 with
  | some oname, some opn =>
    let inames := (desc.drop 2).take (desc.length - 4)
    let p := resolve_names c tbl inames
    let q := sc_get_wire p.2.2 p.2.1 oname
    .ok ({ q.2.2 with gates := q.2.2.gates ++ [⟨opn, p.1, q.1⟩] }, q.2.1)
  | _, _ => .error "IndexError"

/-- Walk the template's gate descriptions in order. -/
def sc_fold (c : Circuit) (tbl : List (Str × Wire)) :
    List (List Str) → Except String (Circuit × List (Str × Wire))
  | [] => .ok (c, tbl)
  | d :: ds =>
    match sc_step c tbl d with
    | .error e => .error e
    | .ok (c1, tbl1) => sc_fold c1 tbl1 ds

/-- `Subcircuit(parent, circuit, *inputs)`: the shared `Component.__init__`
with `input_sizes = [parent.left_input_wire_count,
parent.right_input_wire_count]` and `output_size =
parent.output_wire_count`, followed by the macro-expanding
`produce_gates`. -/
def Subcircuit_init (p : BristolCircuit) (c : Circuit) (specs : List Spec) :
    Except String (List Wire × Circuit) :=
  match component_init c specs [p.left_input_wire_count, p.right_input_wire_count]
      p.output_wire_count with
  | .error e => .error e
  | .ok (inputs, out, c1) =>
    match inputs with
    | [ins0, ins1] =>
      match sc_fold c1 (init_table p ins0 ins1 out) p.gate_descriptions with
      | .error e => .error e
      | .ok (c2, _) => .ok (out, c2)
    | _ => .error "IndexError"

/-- Parse a whitespace-separated list of ints (`map(int, line.split())`). -/
def parse_ints : List Str → Option (List Int)
  | [] => some []
  | t :: ts =>
    match pyInt t, parse_ints ts with
    | some i, some is => some (i :: is)
    | _, _ => none

/-- `BristolCircuit.__init__` on the file's text: two header lines (exactly
two and exactly three ints, else `ValueError`), then every remaining
non-blank line is whitespace-tokenized into one gate description; asserts
that the number of gate descriptions equals the declared gate count.  Lines
are modelled without their `'\n'` terminator, which changes neither
`l.split()` nor the blankness test `l.strip()`. -/
def bristol_parse (text : Str) : Except String BristolCircuit :=
  let lines := splitChar '\n' text
  match parse_ints (splitWs (lines.getD 0 [])), parse_ints (splitWs (lines.getD 1 [])) with
  | some [g, w], some [l, r, o] =>
    let descs := ((lines.drop 2).filter (fun s => !(pyStrip s).isEmpty)).map splitWs
    if (descs.length : Int) = g then
      .ok ⟨g, w, l, r, o, descs⟩
    else .error "AssertionError: Bad gate count."
  | some _, some _ => .error "ValueError: unpack"
  | _, _ => .error "ValueError: invalid literal for int"

/-! ## Derived notions used by the specifications -/

/-- The wires referenced by a gate, in the order `Gate.build` numbers them. -/
def gateRefs (g : Gate) : List Wire :=
  g.input_wires ++ [g.output_wire]

/-- First-occurrence order of the members of `l` that are not in `seen`. -/
def dedupFrom (seen : List Wire) : List Wire → List Wire
  | [] => []
  | w :: ws => if w ∈ seen then dedupFrom seen ws else w :: dedupFrom (w :: seen) ws

/-- Arena well-formedness: every live wire handle is below the allocation
cursor (automatic for circuits built through the API). -/
def Circuit.WF (c : Circuit) : Prop :=
  ∀ w ∈ c.wires, w < c.nextWire

/-- Registry extension: every name binding of `c` still holds in `c'`. -/
def Ext (c c' : Circuit) : Prop :=
  ∀ n w, lookupName c.wires_by_name n = some w → lookupName c'.wires_by_name n = some w

/-- The ten decimal digit characters. -/
def decDigits : List Char := ['0', '1', '2', '3', '4', '5', '6', '7', '8', '9']

/-- Facts shared by every circuit-mutating operation that appends no gate:
registry bindings are preserved, wires and the allocation cursor only grow,
and arena well-formedness is preserved. -/
def Step (c c' : Circuit) : Prop :=
  Ext c c' ∧ c'.gates = c.gates ∧ c.wires ⊆ c'.wires ∧ c.nextWire ≤ c'.nextWire ∧
    (c.WF → c'.WF)

/-- Wires referenced by a gate list, in rendering order. -/
def gatesRefs : List Gate → List Wire
  | [] => []
  | g :: gs => gateRefs g ++ gatesRefs gs

/-- The internal wires of a serialization run: wires referenced by the gate
walk that are not converted inputs or outputs, in first-reference order. -/
def internals (lw rw ow : List Wire) (gates : List Gate) : List Wire :=
  dedupFrom (lw ++ rw ++ ow) (gatesRefs gates)

/-- Invariant of the numbering state during the gate walk of
`build_description`, after the input/output phases and with `ns` the
internal wires numbered so far (in first-reference order). -/
structure NumInv (wires : Finset Nat) (lw rw ow ns : List Wire) (st : NumSt) : Prop where
  left : ∀ i (h : i < lw.length),
    numLookup st.numbers (lw.get ⟨i, h⟩) = some ((i : Nat) : Int)
  right : ∀ i (h : i < rw.length),
    numLookup st.numbers (rw.get ⟨i, h⟩) = some ((lw.length + i : Nat) : Int)
  outs : ∀ i (h : i < ow.length),
    numLookup st.numbers (ow.get ⟨i, h⟩) =
      some ((wires.card : Int) - (ow.length : Int) + ((i : Nat) : Int))
  ints : ∀ j (h : j < ns.length),
    numLookup st.numbers (ns.get ⟨j, h⟩) = some ((lw.length + rw.length + j : Nat) : Int)
  cnt : st.counter = lw.length + rw.length + ns.length
  compl : ∀ w k, numLookup st.numbers w = some k → w ∈ lw ∨ w ∈ rw ∨ w ∈ ow ∨ w ∈ ns
  good : ∀ w ∈ ns, w ∈ wires ∧ w ∉ lw ∧ w ∉ rw ∧ w ∉ ow
  nd : ns.Nodup

/-- Relation between the numbering states of two serialization runs that
differ only in the ids pre-assigned to the output wires. -/
def OwRel (ow : List Wire) (st st' : NumSt) : Prop :=
  st.counter = st'.counter ∧
  (∀ w, w ∉ ow → numLookup st.numbers w = numLookup st'.numbers w) ∧
  (∀ w ∈ ow, (numLookup st.numbers w).isSome ∧ (numLookup st'.numbers w).isSome)

end Duplo

namespace Duplo

/-! ## Lemmas: decimal rendering and parsing -/


lemma digitChar_mem (d : Nat) : digitChar d ∈ decDigits := by
  unfold digitChar; split <;> decide

lemma natDigitsAux_mem : ∀ fuel n, ∀ c ∈ natDigitsAux fuel n, c ∈ decDigits := by
  intro fuel
  induction fuel with
  | zero => intro n c h; simp [natDigitsAux] at h
  | succ fuel ih =>
    intro n c h
    unfold natDigitsAux at h
    by_cases hn : n = 0
    · simp [hn] at h
    · simp only [if_neg hn, List.mem_cons] at h
      rcases h with h | h
      · exact h ▸ digitChar_mem _
      · exact ih _ _ h

lemma renderNat_mem {n : Nat} {c : Char} (h : c ∈ renderNat n) : c ∈ decDigits := by
  unfold renderNat at h
  by_cases hn : n = 0
  · simp [hn] at h; simp [h]; decide
  · rw [if_neg hn, List.mem_reverse] at h
    exact natDigitsAux_mem _ _ _ h

lemma decDigit_isDigit {c : Char} (h : c ∈ decDigits) : isDigitCh c = true := by
  fin_cases h <;> decide

lemma decDigit_not_space {c : Char} (h : c ∈ decDigits) : isPySpace c = false := by
  fin_cases h <;> decide

lemma decDigit_ne_nl {c : Char} (h : c ∈ decDigits) : c ≠ '\n' := by
  fin_cases h <;> decide

lemma decDigit_ne_minus {c : Char} (h : c ∈ decDigits) : c ≠ '-' := by
  fin_cases h <;> decide

lemma decDigit_ne_plus {c : Char} (h : c ∈ decDigits) : c ≠ '+' := by
  fin_cases h <;> decide

lemma renderNat_ne_nil (n : Nat) : renderNat n ≠ [] := by
  unfold renderNat
  by_cases hn : n = 0
  · simp [hn]
  · rw [if_neg hn]
    unfold natDigitsAux
    cases n with
    | zero => exact absurd rfl hn
    | succ m => simp

lemma digitsVal_append (xs : Str) (c : Char) :
    digitsVal (xs ++ [c]) = 10 * digitsVal xs + (c.toNat - 48) := by
  simp [digitsVal, List.foldl_append]

lemma digitChar_val {d : Nat} (h : d < 10) : (digitChar d).toNat - 48 = d := by
  interval_cases d <;> decide

lemma digitsVal_natDigitsAux : ∀ fuel n, n ≤ fuel →
    digitsVal ((natDigitsAux fuel n).reverse) = n := by
  intro fuel
  induction fuel with
  | zero =>
    intro n h
    have : n = 0 := Nat.le_zero.mp h
    subst this; rfl
  | succ fuel ih =>
    intro n h
    by_cases hn : n = 0
    · subst hn; rfl
    · unfold natDigitsAux
      rw [if_neg hn, List.reverse_cons, digitsVal_append]
      have hdiv : n / 10 < n := Nat.div_lt_self (Nat.pos_of_ne_zero hn) (by norm_num)
      rw [ih (n / 10) (by omega), digitChar_val (Nat.mod_lt _ (by norm_num))]
      omega

lemma renderNat_digitsVal (n : Nat) : digitsVal (renderNat n) = n := by
  unfold renderNat
  by_cases hn : n = 0
  · subst hn; rfl
  · rw [if_neg hn]; exact digitsVal_natDigitsAux n n le_rfl

lemma dropWhile_eq_self {p : Char → Bool} {s : Str} (h : ∀ c ∈ s, p c = false) :
    s.dropWhile p = s := by
  cases s with
  | nil => rfl
  | cons c cs => simp [List.dropWhile_cons, h c (by simp)]

lemma pyStrip_eq_self {s : Str} (h : ∀ c ∈ s, isPySpace c = false) : pyStrip s = s := by
  unfold pyStrip
  rw [dropWhile_eq_self h, dropWhile_eq_self (fun c hc => h c (List.mem_reverse.mp hc)),
    List.reverse_reverse]

lemma pyIntAux_cons (c : Char) (ds : Str) :
    pyIntAux (c :: ds) =
      if c = '-' then
        if ds ≠ [] ∧ ds.all isDigitCh then some (-(digitsVal ds : Int)) else none
      else if c = '+' then
        if ds ≠ [] ∧ ds.all isDigitCh then some ((digitsVal ds : Int)) else none
      else
        if (c :: ds).all isDigitCh then some ((digitsVal (c :: ds) : Int)) else none := rfl

lemma pyInt_renderNat (n : Nat) : pyInt (renderNat n) = some (n : Int) := by
  unfold pyInt
  rw [pyStrip_eq_self (fun c hc => decDigit_not_space (renderNat_mem hc))]
  rcases hr : renderNat n with _ | ⟨c, cs⟩
  · exact absurd hr (renderNat_ne_nil n)
  · have hcd : c ∈ decDigits := renderNat_mem (by rw [hr]; exact List.mem_cons_self _ _)
    rw [pyIntAux_cons, if_neg (decDigit_ne_minus hcd), if_neg (decDigit_ne_plus hcd)]
    have hall : (c :: cs).all isDigitCh = true := by
      rw [List.all_eq_true]
      intro x hx
      exact decDigit_isDigit (renderNat_mem (by rw [hr]; exact hx))
    rw [if_pos hall, ← hr, renderNat_digitsVal]

lemma pyInt_renderInt (i : Int) : pyInt (renderInt i) = some i := by
  unfold renderInt
  by_cases hi : i < 0
  · rw [if_pos hi]
    unfold pyInt
    have hmem : ∀ c ∈ ('-' :: renderNat (-i).toNat), isPySpace c = false := by
      intro c hc
      rcases List.mem_cons.mp hc with h | h
      · subst h; decide
      · exact decDigit_not_space (renderNat_mem h)
    rw [pyStrip_eq_self hmem, pyIntAux_cons, if_pos rfl, if_pos ⟨renderNat_ne_nil _, by
      rw [List.all_eq_true]; intro x hx; exact decDigit_isDigit (renderNat_mem hx)⟩,
      renderNat_digitsVal]
    congr 1
    omega
  · rw [if_neg hi, pyInt_renderNat]
    congr 1
    omega

lemma renderInt_inj {a b : Int} (h : renderInt a = renderInt b) : a = b := by
  have := pyInt_renderInt a
  rw [h, pyInt_renderInt b] at this
  exact (Option.some_inj.mp this).symm

lemma renderInt_mem {i : Int} {c : Char} (h : c ∈ renderInt i) : c ∈ decDigits ∨ c = '-' := by
  unfold renderInt at h
  by_cases hi : i < 0
  · rw [if_pos hi] at h
    rcases List.mem_cons.mp h with h | h
    · exact Or.inr h
    · exact Or.inl (renderNat_mem h)
  · rw [if_neg hi] at h
    exact Or.inl (renderNat_mem h)

lemma renderInt_not_space {i : Int} {c : Char} (h : c ∈ renderInt i) : isPySpace c = false := by
  rcases renderInt_mem h with h | h
  · exact decDigit_not_space h
  · subst h; decide

lemma renderInt_ne_nl {i : Int} {c : Char} (h : c ∈ renderInt i) : c ≠ '\n' := by
  rcases renderInt_mem h with h | h
  · exact decDigit_ne_nl h
  · subst h; decide

lemma renderInt_ne_nil (i : Int) : renderInt i ≠ [] := by
  unfold renderInt
  by_cases hi : i < 0
  · simp [hi]
  · simp [hi, renderNat_ne_nil]

/-! ## Lemmas: line and token splitting -/

lemma splitChar_cons (sep x : Char) (xs : Str) :
    splitChar sep (x :: xs) =
      if x = sep then [] :: splitChar sep xs
      else (x :: (splitChar sep xs).headI) :: (splitChar sep xs).tail := rfl

lemma splitChar_cons_sep (sep : Char) (xs : Str) :
    splitChar sep (sep :: xs) = [] :: splitChar sep xs := by
  rw [splitChar_cons, if_pos rfl]

lemma splitChar_append_cons {sep : Char} {pre : Str} (hpre : sep ∉ pre) (rest : Str) :
    splitChar sep (pre ++ sep :: rest) = pre :: splitChar sep rest := by
  induction pre with
  | nil => simpa using splitChar_cons_sep sep rest
  | cons x xs ih =>
    have hx : x ≠ sep := fun h => hpre (h ▸ List.mem_cons_self x xs)
    have hxs : sep ∉ xs := fun h => hpre (List.mem_cons_of_mem _ h)
    rw [List.cons_append, splitChar_cons, if_neg hx, ih hxs]
    simp

lemma splitChar_no_sep {sep : Char} {s : Str} (h : sep ∉ s) : splitChar sep s = [s] := by
  induction s with
  | nil => rfl
  | cons x xs ih =>
    have hx : x ≠ sep := fun hh => h (hh ▸ List.mem_cons_self x xs)
    have hxs : sep ∉ xs := fun hh => h (List.mem_cons_of_mem _ hh)
    rw [splitChar_cons, if_neg hx, ih hxs]
    simp

lemma joinSep_cons_cons (sep : Str) (x y : Str) (ys : List Str) :
    joinSep sep (x :: y :: ys) = x ++ sep ++ joinSep sep (y :: ys) := rfl

lemma splitChar_joinSep_terminated {lines : List Str} (hne : lines ≠ [])
    (h : ∀ l ∈ lines, '\n' ∉ l) :
    splitChar '\n' (joinSep ['\n'] lines ++ ['\n']) = lines ++ [[]] := by
  induction lines with
  | nil => exact absurd rfl hne
  | cons x xs ih =>
    rcases xs with _ | ⟨y, ys⟩
    · show splitChar '\n' (x ++ '\n' :: []) = [x, []]
      rw [splitChar_append_cons (h x (by simp)) []]
      rfl
    · rw [joinSep_cons_cons]
      have : x ++ ['\n'] ++ joinSep ['\n'] (y :: ys) ++ ['\n'] =
          x ++ '\n' :: (joinSep ['\n'] (y :: ys) ++ ['\n']) := by simp
      rw [this, splitChar_append_cons (h x (by simp)),
        ih (by simp) (fun l hl => h l (List.mem_cons_of_mem _ hl))]
      rfl

lemma splitWsAux_nil (acc : Str) :
    splitWsAux [] acc = if acc = [] then [] else [acc.reverse] := rfl

lemma splitWsAux_cons (c : Char) (cs acc : Str) :
    splitWsAux (c :: cs) acc =
      if isPySpace c then
        if acc = [] then splitWsAux cs [] else acc.reverse :: splitWsAux cs []
      else splitWsAux cs (c :: acc) := rfl

lemma splitWsAux_skip_token {tok : Str} (hns : ∀ c ∈ tok, isPySpace c = false) :
    ∀ (l acc : Str), splitWsAux (tok ++ l) acc = splitWsAux l (tok.reverse ++ acc) := by
  induction tok with
  | nil => intro l acc; rfl
  | cons c cs ih =>
    intro l acc
    rw [List.cons_append, splitWsAux_cons, hns c (by simp), if_neg (by simp),
      ih (fun x hx => hns x (List.mem_cons_of_mem _ hx)) l (c :: acc)]
    simp

lemma splitWs_token_cons {tok : Str} (hne : tok ≠ []) (hns : ∀ c ∈ tok, isPySpace c = false)
    (rest : Str) : splitWs (tok ++ ' ' :: rest) = tok :: splitWs rest := by
  unfold splitWs
  rw [splitWsAux_skip_token hns, List.append_nil, splitWsAux_cons,
    show isPySpace ' ' = true from rfl, if_pos rfl,
    if_neg (by simpa using hne)]
  simp

lemma splitWs_single {tok : Str} (hne : tok ≠ []) (hns : ∀ c ∈ tok, isPySpace c = false) :
    splitWs tok = [tok] := by
  unfold splitWs
  have h := splitWsAux_skip_token hns [] []
  rw [List.append_nil] at h
  rw [h, List.append_nil, splitWsAux_nil, if_neg (by simpa using hne)]
  simp

lemma dropWhile_eq_nil_all {p : Char → Bool} : ∀ {s : Str}, s.dropWhile p = [] →
    ∀ c ∈ s, p c = true := by
  intro s
  induction s with
  | nil => intro _ c hc; simp at hc
  | cons x xs ih =>
    intro h c hc
    rw [List.dropWhile_cons] at h
    by_cases hx : p x = true
    · rw [if_pos hx] at h
      rcases List.mem_cons.mp hc with rfl | hc
      · exact hx
      · exact ih h c hc
    · rw [if_neg hx] at h
      simp at h
    
lemma mem_dropWhile_of_not {p : Char → Bool} {c : Char} (hc : p c = false) :
    ∀ {s : Str}, c ∈ s → c ∈ s.dropWhile p := by
  intro s
  induction s with
  | nil => intro h; simp at h
  | cons x xs ih =>
    intro h
    rw [List.dropWhile_cons]
    by_cases hx : p x = true
    · rw [if_pos hx]
      rcases List.mem_cons.mp h with rfl | h
      · rw [hx] at hc; simp at hc
      · exact ih h
    · rw [if_neg hx]
      exact h

lemma pyStrip_ne_nil {s : Str} {c : Char} (hc : c ∈ s) (hns : isPySpace c = false) :
    pyStrip s ≠ [] := by
  intro h
  unfold pyStrip at h
  rw [List.reverse_eq_nil_iff] at h
  have h2 := dropWhile_eq_nil_all h c (by
    rw [List.mem_reverse]
    exact mem_dropWhile_of_not hns hc)
  rw [hns] at h2
  simp at h2

end Duplo


namespace Duplo

/-! ## Lemmas: circuit growth, registry extension, conversion stability -/


lemma Step.self (c : Circuit) : Step c c :=
  ⟨fun _ _ h => h, Eq.refl _, Finset.Subset.refl _, Nat.le_refl _, id⟩

lemma Step.chain {a b c : Circuit} (h1 : Step a b) (h2 : Step b c) : Step a c :=
  ⟨fun n w h => h2.1 n w (h1.1 n w h), h2.2.1.trans h1.2.1,
    h1.2.2.1.trans h2.2.2.1, h1.2.2.2.1.trans h2.2.2.2.1,
    fun h => h2.2.2.2.2 (h1.2.2.2.2 h)⟩

lemma Ext.comp {a b c : Circuit} (h1 : Ext a b) (h2 : Ext b c) : Ext a c :=
  fun n w h => h2 n w (h1 n w h)

lemma fresh_wire_step (c : Circuit) : Step c c.fresh_wire.2 := by
  refine ⟨fun _ _ h => h, rfl, Finset.subset_insert _ _, Nat.le_succ _, ?_⟩
  intro hwf w hw
  rcases Finset.mem_insert.mp hw with rfl | hw
  · exact Nat.lt_succ_self _
  · exact Nat.lt_succ_of_lt (hwf w hw)

lemma fresh_wire_fst (c : Circuit) : c.fresh_wire.1 = c.nextWire := rfl

lemma fresh_wire_mem (c : Circuit) : c.fresh_wire.1 ∈ c.fresh_wire.2.wires :=
  Finset.mem_insert_self _ _

lemma fresh_wire_not_mem {c : Circuit} (h : c.WF) : c.fresh_wire.1 ∉ c.wires :=
  fun hm => Nat.lt_irrefl _ (h _ hm)

lemma get_wire_some_eq (c : Circuit) (n : Str) :
    c.get_wire (some n) =
      match lookupName c.wires_by_name n with
      | some w => (w, c)
      | none =>
        (c.nextWire, ⟨c.nextWire + 1, insert c.nextWire c.wires,
          (n, c.nextWire) :: c.wires_by_name, c.gates⟩) := rfl

lemma get_wire_found {c : Circuit} {n : Str} {w : Wire}
    (h : lookupName c.wires_by_name n = some w) : c.get_wire (some n) = (w, c) := by
  rw [get_wire_some_eq]
  simp only [h]

lemma get_wire_binds (c : Circuit) (n : Str) :
    lookupName ((c.get_wire (some n)).2).wires_by_name n = some (c.get_wire (some n)).1 := by
  rw [get_wire_some_eq]
  rcases h : lookupName c.wires_by_name n with _ | w
  · simp [h, lookupName]
  · simpa using h

lemma get_wire_step (c : Circuit) (o : Option Str) : Step c (c.get_wire o).2 := by
  rcases o with _ | n
  · exact fresh_wire_step c
  · rw [get_wire_some_eq]
    rcases h : lookupName c.wires_by_name n with _ | w
    · simp only [h]
      refine ⟨?_, rfl, Finset.subset_insert _ _, Nat.le_succ _, ?_⟩
      · intro k v hk
        show lookupName ((n, _) :: c.wires_by_name) k = some v
        rw [lookupName]
        split
        · next heq => rw [heq] at h; rw [h] at hk; exact absurd hk (by simp)
        · exact hk
      · intro hwf w hw
        rcases Finset.mem_insert.mp hw with rfl | hw
        · exact Nat.lt_succ_self _
        · exact Nat.lt_succ_of_lt (hwf w hw)
    · simp only [h]
      exact Step.self c

lemma get_wires_named_cons (c : Circuit) (n : Str) (ns : List Str) :
    get_wires_named c (n :: ns) =
      ((c.get_wire (some n)).1 :: (get_wires_named (c.get_wire (some n)).2 ns).1,
       (get_wires_named (c.get_wire (some n)).2 ns).2) := rfl

lemma get_wires_named_spec : ∀ (names : List Str) (c : Circuit),
    Step c (get_wires_named c names).2 ∧
    (get_wires_named c names).1.length = names.length ∧
    (∀ c2, Ext (get_wires_named c names).2 c2 →
      get_wires_named c2 names = ((get_wires_named c names).1, c2)) := by
  intro names
  induction names with
  | nil => exact fun c => ⟨Step.self c, rfl, fun c2 _ => rfl⟩
  | cons n ns ih =>
    intro c
    obtain ⟨ihStep, ihLen, ihStab⟩ := ih (c.get_wire (some n)).2
    refine ⟨(get_wire_step c (some n)).chain ihStep,
      by rw [get_wires_named_cons]; simpa using ihLen, ?_⟩
    intro c2 hext
    have hbind : lookupName c2.wires_by_name n = some (c.get_wire (some n)).1 := by
      have h1 := get_wire_binds c n
      have h2 := ihStep.1 _ _ h1
      exact hext _ _ h2
    rw [get_wires_named_cons c2, get_wire_found hbind, get_wires_named_cons c]
    simp only []
    rw [ihStab c2 hext]

end Duplo

namespace Duplo

lemma convert_str_eq (c : Circuit) (s : Str) :
    c.convert_to_wires (.str s) =
      match expand_name s with
      | .error e => .error e
      | .ok names => .ok (get_wires_named c names) := rfl

lemma convert_list_eq (c : Circuit) (l : SpecList) :
    c.convert_to_wires (.list l) = Circuit.convert_many c l := rfl

lemma convert_many_cons_eq (c : Circuit) (s : Spec) (rest : SpecList) :
    Circuit.convert_many c (.cons s rest) =
      match c.convert_to_wires s with
      | .error e => .error e
      | .ok (ws1, c1) =>
        match Circuit.convert_many c1 rest with
        | .error e => .error e
        | .ok (ws2, c2) => .ok (ws1 ++ ws2, c2) := rfl

mutual
lemma convert_spec : ∀ (c : Circuit) (s : Spec) (ws : List Wire) (c1 : Circuit),
    c.convert_to_wires s = .ok (ws, c1) →
    Step c c1 ∧ ∀ c2, Ext c1 c2 → c2.convert_to_wires s = .ok (ws, c2)
  | c, .wire w, ws, c1, h => by
    simp only [Circuit.convert_to_wires, Except.ok.injEq, Prod.mk.injEq] at h
    obtain ⟨rfl, rfl⟩ := h
    exact ⟨Step.self c, fun c2 _ => rfl⟩
  | c, .str s, ws, c1, h => by
    rw [convert_str_eq] at h
    cases he : expand_name s with
    | error e => simp [he] at h
    | ok names =>
      simp only [he, Except.ok.injEq] at h
      have hw : ws = (get_wires_named c names).1 := by rw [h]
      have hc : c1 = (get_wires_named c names).2 := by rw [h]
      subst hw
      subst hc
      obtain ⟨hStep, _, hStab⟩ := get_wires_named_spec names c
      refine ⟨hStep, fun c2 hext => ?_⟩
      rw [convert_str_eq]
      simp only [he]
      rw [hStab c2 hext]
  | c, .list l, ws, c1, h => by
    rw [convert_list_eq] at h
    have hm := convert_many_spec c l ws c1 h
    exact ⟨hm.1, fun c2 hext => by rw [convert_list_eq]; exact hm.2 c2 hext⟩
  | c, .comp out, ws, c1, h => by
    simp only [Circuit.convert_to_wires, Except.ok.injEq, Prod.mk.injEq] at h
    obtain ⟨rfl, rfl⟩ := h
    exact ⟨Step.self c, fun c2 _ => rfl⟩
  | c, .other, ws, c1, h => by
    simp [Circuit.convert_to_wires] at h

lemma convert_many_spec : ∀ (c : Circuit) (l : SpecList) (ws : List Wire) (c1 : Circuit),
    Circuit.convert_many c l = .ok (ws, c1) →
    Step c c1 ∧ ∀ c2, Ext c1 c2 → Circuit.convert_many c2 l = .ok (ws, c2)
  | c, .nil, ws, c1, h => by
    simp only [Circuit.convert_many, Except.ok.injEq, Prod.mk.injEq] at h
    obtain ⟨rfl, rfl⟩ := h
    exact ⟨Step.self c, fun c2 _ => rfl⟩
  | c, .cons s rest, ws, c1, h => by
    rw [convert_many_cons_eq] at h
    cases h1 : c.convert_to_wires s with
    | error e => simp [h1] at h
    | ok p1 =>
      obtain ⟨ws1, ca⟩ := p1
      simp only [h1] at h
      cases h2 : Circuit.convert_many ca rest with
      | error e => simp [h2] at h
      | ok p2 =>
        obtain ⟨ws2, cb⟩ := p2
        simp only [h2] at h
        simp only [Except.ok.injEq, Prod.mk.injEq] at h
        obtain ⟨rfl, rfl⟩ := h
        obtain ⟨S1, stab1⟩ := convert_spec c s ws1 ca h1
        obtain ⟨S2, stab2⟩ := convert_many_spec ca rest ws2 cb h2
        refine ⟨S1.chain S2, fun c2 hext => ?_⟩
        rw [convert_many_cons_eq, stab1 c2 (Ext.comp S2.1 hext)]
        simp only []
        rw [stab2 c2 hext]
end

end Duplo

namespace Duplo

lemma convert_inputs_cons_eq (c : Circuit) (s : Spec) (rest : List Spec) :
    convert_inputs c (s :: rest) =
      match c.convert_to_wires s with
      | .error e => .error e
      | .ok (ws, c1) =>
        match convert_inputs c1 rest with
        | .error e => .error e
        | .ok (wss, c2) => .ok (ws :: wss, c2) := rfl

lemma convert_inputs_spec : ∀ (specs : List Spec) (c : Circuit) (ins : List (List Wire))
    (c1 : Circuit), convert_inputs c specs = .ok (ins, c1) →
    Step c c1 ∧ ins.length = specs.length := by
  intro specs
  induction specs with
  | nil =>
    intro c ins c1 h
    simp only [convert_inputs, Except.ok.injEq, Prod.mk.injEq] at h
    obtain ⟨rfl, rfl⟩ := h
    exact ⟨Step.self c, rfl⟩
  | cons s rest ih =>
    intro c ins c1 h
    rw [convert_inputs_cons_eq] at h
    cases h1 : c.convert_to_wires s with
    | error e => simp [h1] at h
    | ok p1 =>
      obtain ⟨ws, ca⟩ := p1
      simp only [h1] at h
      cases h2 : convert_inputs ca rest with
      | error e => simp [h2] at h
      | ok p2 =>
        obtain ⟨wss, cb⟩ := p2
        simp only [h2, Except.ok.injEq, Prod.mk.injEq] at h
        obtain ⟨rfl, rfl⟩ := h
        obtain ⟨S2, hlen⟩ := ih ca wss cb h2
        exact ⟨((convert_spec c s ws ca h1).1).chain S2, by simp [hlen]⟩

lemma convert_other_error (c : Circuit) : ∃ e, c.convert_to_wires .other = .error e :=
  ⟨_, rfl⟩

lemma convert_inputs_error_of_other : ∀ (specs : List Spec) (c : Circuit),
    Spec.other ∈ specs → ∃ e, convert_inputs c specs = .error e := by
  intro specs
  induction specs with
  | nil => intro c h; simp at h
  | cons s rest ih =>
    intro c h
    rw [convert_inputs_cons_eq]
    rcases List.mem_cons.mp h with rfl | hmem
    · exact ⟨_, rfl⟩
    · cases h1 : c.convert_to_wires s with
      | error e => exact ⟨e, rfl⟩
      | ok p1 =>
        obtain ⟨ws, ca⟩ := p1
        obtain ⟨e, he⟩ := ih ca hmem
        refine ⟨e, ?_⟩
        simp only [he]

lemma alloc_wires_spec : ∀ (n : Nat) (c : Circuit),
    (alloc_wires c n).1 = List.range' c.nextWire n ∧
    (alloc_wires c n).2.nextWire = c.nextWire + n ∧
    Step c (alloc_wires c n).2 ∧
    (∀ w, w ∈ (alloc_wires c n).2.wires ↔ w ∈ c.wires ∨ w ∈ (alloc_wires c n).1) := by
  intro n
  induction n with
  | zero => exact fun c => ⟨rfl, rfl, Step.self c, fun w => by simp [alloc_wires]⟩
  | succ n ih =>
    intro c
    obtain ⟨hr, hn, hS, hw⟩ := ih c.fresh_wire.2
    refine ⟨?_, ?_, (fresh_wire_step c).chain hS, ?_⟩
    · show c.fresh_wire.1 :: (alloc_wires c.fresh_wire.2 n).1 = _
      rw [hr]
      rfl
    · show (alloc_wires c.fresh_wire.2 n).2.nextWire = _
      rw [hn]
      show c.nextWire + 1 + n = c.nextWire + (n + 1)
      omega
    · intro w
      show w ∈ (alloc_wires c.fresh_wire.2 n).2.wires ↔
        w ∈ c.wires ∨ w ∈ c.fresh_wire.1 :: (alloc_wires c.fresh_wire.2 n).1
      rw [hw w]
      constructor
      · rintro (hmem | hmem)
        · rcases Finset.mem_insert.mp hmem with rfl | hmem
          · exact Or.inr (List.mem_cons_self _ _)
          · exact Or.inl hmem
        · exact Or.inr (List.mem_cons_of_mem _ hmem)
      · rintro (hmem | hmem)
        · exact Or.inl (Finset.mem_insert_of_mem hmem)
        · rcases List.mem_cons.mp hmem with rfl | hmem
          · exact Or.inl (Finset.mem_insert_self _ _)
          · exact Or.inr hmem

lemma component_init_eq (c : Circuit) (specs : List Spec) (input_sizes : List Int)
    (output_size : Int) :
    component_init c specs input_sizes output_size =
      match convert_inputs c specs with
      | .error e => .error e
      | .ok (inputs, c1) =>
        if inputs.length = input_sizes.length then
          if (inputs.zip input_sizes).all (fun p => ((p.1.length : Int) == p.2)) then
            .ok (inputs, (alloc_wires c1 output_size.toNat).1,
              (alloc_wires c1 output_size.toNat).2)
          else .error "AssertionError: Bad input length!"
        else .error "AssertionError: Wrong number of inputs to component!" := rfl

lemma component_init_ok {c : Circuit} {specs : List Spec} {input_sizes : List Int}
    {output_size : Int} {ins : List (List Wire)} {out : List Wire} {c2 : Circuit}
    (h : component_init c specs input_sizes output_size = .ok (ins, out, c2)) :
    ∃ c1, convert_inputs c specs = .ok (ins, c1) ∧
      ins.length = input_sizes.length ∧
      ((ins.zip input_sizes).all fun p => ((p.1.length : Int) == p.2)) = true ∧
      out = (alloc_wires c1 output_size.toNat).1 ∧
      c2 = (alloc_wires c1 output_size.toNat).2 := by
  rw [component_init_eq] at h
  cases h1 : convert_inputs c specs with
  | error e => simp [h1] at h
  | ok p1 =>
    obtain ⟨inputs, c1⟩ := p1
    simp only [h1] at h
    by_cases harr : inputs.length = input_sizes.length
    · rw [if_pos harr] at h
      by_cases hall : ((inputs.zip input_sizes).all fun p => ((p.1.length : Int) == p.2)) = true
      · rw [if_pos hall] at h
        simp only [Except.ok.injEq, Prod.mk.injEq] at h
        obtain ⟨rfl, rfl, rfl⟩ := h
        exact ⟨c1, rfl, harr, hall, rfl, rfl⟩
      · rw [if_neg hall] at h
        simp at h
    · rw [if_neg harr] at h
      simp at h

end Duplo

namespace Duplo

/-! ## Lemmas: wire numbering -/

lemma numLookup_cons (v : Wire) (k : Int) (rest : List (Wire × Int)) (w : Wire) :
    numLookup ((v, k) :: rest) w = if v = w then some k else numLookup rest w := rfl

lemma wire_num_not_mem {wires : Finset Nat} {st : NumSt} {w : Wire} (h : w ∉ wires) :
    wire_num wires st w = .error "AssertionError: wire not in self.wires" := by
  unfold wire_num
  rw [if_neg h]

lemma wire_num_found {wires : Finset Nat} {st : NumSt} {w : Wire} {k : Int}
    (hmem : w ∈ wires) (h : numLookup st.numbers w = some k) :
    wire_num wires st w = .ok (k, st) := by
  unfold wire_num
  rw [if_pos hmem]
  simp only [h]

lemma wire_num_new {wires : Finset Nat} {st : NumSt} {w : Wire} (hmem : w ∈ wires)
    (h : numLookup st.numbers w = none) :
    wire_num wires st w =
      .ok ((st.counter : Int), ⟨(w, (st.counter : Int)) :: st.numbers, st.counter + 1⟩) := by
  unfold wire_num
  rw [if_pos hmem]
  simp only [h]

lemma wire_num_ok_mem {wires : Finset Nat} {st : NumSt} {w : Wire} {k : Int} {st' : NumSt}
    (h : wire_num wires st w = .ok (k, st')) : w ∈ wires := by
  by_contra hmem
  rw [wire_num_not_mem hmem] at h
  exact absurd h (by simp)

lemma number_list_cons_eq (wires : Finset Nat) (st : NumSt) (w : Wire) (ws : List Wire) :
    number_list wires st (w :: ws) =
      match wire_num wires st w with
      | .error e => .error e
      | .ok (_, st1) => number_list wires st1 ws := rfl

lemma number_list_fresh {wires : Finset Nat} : ∀ (ws : List Wire) (st : NumSt),
    ws.Nodup → (∀ w ∈ ws, w ∈ wires) → (∀ w ∈ ws, numLookup st.numbers w = none) →
    ∃ st', number_list wires st ws = .ok st' ∧
      st'.counter = st.counter + ws.length ∧
      (∀ i (h : i < ws.length),
        numLookup st'.numbers (ws.get ⟨i, h⟩) = some ((st.counter + i : Nat) : Int)) ∧
      (∀ w, w ∉ ws → numLookup st'.numbers w = numLookup st.numbers w) ∧
      (∀ w k, numLookup st'.numbers w = some k → w ∈ ws ∨ numLookup st.numbers w = some k) := by
  intro ws
  induction ws with
  | nil =>
    intro st _ _ _
    exact ⟨st, rfl, by simp, fun i h => by simp at h, fun w _ => rfl, fun w k h => Or.inr h⟩
  | cons w ws ih =>
    intro st hnd hmem hfresh
    have hw : w ∈ wires := hmem w (List.mem_cons_self _ _)
    have hwn : numLookup st.numbers w = none := hfresh w (List.mem_cons_self _ _)
    have hwmem : w ∉ ws := (List.nodup_cons.mp hnd).1
    set st1 : NumSt := ⟨(w, (st.counter : Int)) :: st.numbers, st.counter + 1⟩ with hst1
    have hfresh1 : ∀ v ∈ ws, numLookup st1.numbers v = none := by
      intro v hv
      have hwv : w ≠ v := by rintro rfl; exact hwmem hv
      show numLookup ((w, _) :: st.numbers) v = none
      rw [numLookup_cons, if_neg hwv]
      exact hfresh v (List.mem_cons_of_mem _ hv)
    obtain ⟨st', hok, hcnt, hidx, hunch, hcompl⟩ :=
      ih st1 (List.nodup_cons.mp hnd).2 (fun v hv => hmem v (List.mem_cons_of_mem _ hv)) hfresh1
    refine ⟨st', ?_, ?_, ?_, ?_, ?_⟩
    · rw [number_list_cons_eq]
      simp only [wire_num_new hw hwn]
      exact hok
    · rw [hcnt]
      show st.counter + 1 + ws.length = st.counter + (ws.length + 1)
      omega
    · intro i h
      cases i with
      | zero =>
        show numLookup st'.numbers w = some ((st.counter + 0 : Nat) : Int)
        rw [hunch w hwmem]
        show numLookup ((w, ((st.counter : Nat) : Int)) :: st.numbers) w =
          some ((st.counter + 0 : Nat) : Int)
        rw [numLookup_cons, if_pos rfl]
        norm_num
      | succ i =>
        have hi : i < ws.length := by simpa using h
        have := hidx i hi
        simp only [List.get_cons_succ]
        rw [this]
        congr 1
        show ((st.counter + 1 + i : Nat) : Int) = ((st.counter + (i + 1) : Nat) : Int)
        congr 1
        omega
    · intro v hv
      have hv1 : v ∉ ws := fun hh => hv (List.mem_cons_of_mem _ hh)
      have hv2 : v ≠ w := fun hh => hv (hh ▸ List.mem_cons_self _ _)
      rw [hunch v hv1]
      show numLookup ((w, _) :: st.numbers) v = _
      rw [numLookup_cons, if_neg (fun hh => hv2 hh.symm)]
    · intro v k hv
      rcases hcompl v k hv with hmem2 | hlook
      · exact Or.inl (List.mem_cons_of_mem _ hmem2)
      · rcases Decidable.em (w = v) with rfl | hne
        · exact Or.inl (List.mem_cons_self _ _)
        · right
          rw [numLookup_cons, if_neg hne] at hlook
          exact hlook

lemma assignOutsAux_miss {base : Int} {w : Wire} : ∀ (ws : List Wire) (i : Nat)
    (ns : List (Wire × Int)), w ∉ ws →
    numLookup (assignOutsAux base i ws ns) w = numLookup ns w := by
  intro ws
  induction ws with
  | nil => intro i ns _; rfl
  | cons v ws ih =>
    intro i ns hw
    have hvw : v ≠ w := by rintro rfl; exact hw (List.mem_cons_self _ _)
    show numLookup (assignOutsAux base (i + 1) ws ((v, base + (i : Int)) :: ns)) w = _
    rw [ih (i + 1) _ (fun hh => hw (List.mem_cons_of_mem _ hh)), numLookup_cons, if_neg hvw]

lemma assignOutsAux_hit {base : Int} : ∀ (ws : List Wire) (i : Nat) (ns : List (Wire × Int)),
    ws.Nodup → ∀ j (h : j < ws.length),
    numLookup (assignOutsAux base i ws ns) (ws.get ⟨j, h⟩) = some (base + ((i + j : Nat) : Int)) := by
  intro ws
  induction ws with
  | nil => intro i ns _ j h; simp at h
  | cons v ws ih =>
    intro i ns hnd j h
    cases j with
    | zero =>
      show numLookup (assignOutsAux base (i + 1) ws ((v, base + (i : Int)) :: ns)) v =
        some (base + ((i + 0 : Nat) : Int))
      rw [assignOutsAux_miss ws (i + 1) _ (List.nodup_cons.mp hnd).1, numLookup_cons, if_pos rfl]
      norm_num
    | succ j =>
      have hj : j < ws.length := by simpa using h
      simp only [List.get_cons_succ]
      show numLookup (assignOutsAux base (i + 1) ws ((v, base + (i : Int)) :: ns)) _ = _
      rw [ih (i + 1) _ (List.nodup_cons.mp hnd).2 j hj]
      congr 2
      omega

lemma assignOutsAux_complete {base : Int} : ∀ (ws : List Wire) (i : Nat)
    (ns : List (Wire × Int)) (w : Wire) (k : Int),
    numLookup (assignOutsAux base i ws ns) w = some k →
    (∃ j, ∃ h : j < ws.length, w = ws.get ⟨j, h⟩ ∧ k = base + ((i + j : Nat) : Int)) ∨
      numLookup ns w = some k := by
  intro ws
  induction ws with
  | nil => intro i ns w k h; exact Or.inr h
  | cons v ws ih =>
    intro i ns w k h
    replace h : numLookup (assignOutsAux base (i + 1) ws ((v, base + (i : Int)) :: ns)) w =
      some k := h
    rcases ih (i + 1) _ w k h with ⟨j, hj, rfl, hk⟩ | hlook
    · refine Or.inl ⟨j + 1, by simpa using hj, by simp, ?_⟩
      rw [hk]
      congr 2
      omega
    · rw [numLookup_cons] at hlook
      by_cases hv : v = w
      · rw [if_pos hv] at hlook
        refine Or.inl ⟨0, by simp, by simp [hv], ?_⟩
        simp only [Option.some_inj] at hlook
        rw [← hlook]
        simp
      · rw [if_neg hv] at hlook
        exact Or.inr hlook

/-! ## Lemmas: first-reference order -/

lemma dedupFrom_cons (s : List Wire) (w : Wire) (ws : List Wire) :
    dedupFrom s (w :: ws) =
      if w ∈ s then dedupFrom s ws else w :: dedupFrom (w :: s) ws := rfl

lemma dedupFrom_congr : ∀ (l : List Wire) (s t : List Wire), (∀ x, x ∈ s ↔ x ∈ t) →
    dedupFrom s l = dedupFrom t l := by
  intro l
  induction l with
  | nil => intro s t _; rfl
  | cons w ws ih =>
    intro s t hst
    unfold dedupFrom
    by_cases hw : w ∈ s
    · rw [if_pos hw, if_pos ((hst w).mp hw)]
      exact ih s t hst
    · rw [if_neg hw, if_neg (fun hh => hw ((hst w).mpr hh))]
      rw [ih (w :: s) (w :: t) (fun x => by simp [hst x])]

lemma dedupFrom_append : ∀ (a : List Wire) (s b : List Wire),
    dedupFrom s (a ++ b) = dedupFrom s a ++ dedupFrom (s ++ dedupFrom s a) b := by
  intro a
  induction a with
  | nil =>
    intro s b
    simp only [List.nil_append, dedupFrom]
    exact dedupFrom_congr b s (s ++ []) (by simp)
  | cons x a ih =>
    intro s b
    rw [List.cons_append, dedupFrom_cons s x (a ++ b), dedupFrom_cons s x a]
    by_cases hx : x ∈ s
    · rw [if_pos hx, if_pos hx]
      exact ih s b
    · rw [if_neg hx, if_neg hx, ih (x :: s) b, List.cons_append]
      congr 2
      exact dedupFrom_congr b _ _ (fun y => by simp; tauto)

lemma dedupFrom_single (s : List Wire) (w : Wire) :
    dedupFrom s [w] = if w ∈ s then [] else [w] := by
  unfold dedupFrom
  by_cases hw : w ∈ s <;> simp [hw, dedupFrom]

lemma dedupFrom_subset : ∀ (l s : List Wire) (x : Wire), x ∈ dedupFrom s l → x ∈ l := by
  intro l
  induction l with
  | nil => intro s x h; simp [dedupFrom] at h
  | cons w ws ih =>
    intro s x h
    unfold dedupFrom at h
    by_cases hw : w ∈ s
    · rw [if_pos hw] at h
      exact List.mem_cons_of_mem _ (ih s x h)
    · rw [if_neg hw] at h
      rcases List.mem_cons.mp h with rfl | h
      · exact List.mem_cons_self _ _
      · exact List.mem_cons_of_mem _ (ih _ x h)

lemma dedupFrom_not_seen : ∀ (l s : List Wire) (x : Wire), x ∈ dedupFrom s l → x ∉ s := by
  intro l
  induction l with
  | nil => intro s x h; simp [dedupFrom] at h
  | cons w ws ih =>
    intro s x h
    unfold dedupFrom at h
    by_cases hw : w ∈ s
    · rw [if_pos hw] at h
      exact ih s x h
    · rw [if_neg hw] at h
      rcases List.mem_cons.mp h with rfl | h
      · exact hw
      · exact fun hh => ih _ x h (List.mem_cons_of_mem _ hh)

lemma dedupFrom_nodup : ∀ (l s : List Wire), (dedupFrom s l).Nodup := by
  intro l
  induction l with
  | nil => intro s; simp [dedupFrom]
  | cons w ws ih =>
    intro s
    unfold dedupFrom
    by_cases hw : w ∈ s
    · rw [if_pos hw]; exact ih s
    · rw [if_neg hw]
      refine List.nodup_cons.mpr ⟨?_, ih (w :: s)⟩
      intro hmem
      exact dedupFrom_not_seen ws (w :: s) w hmem (List.mem_cons_self _ _)

lemma length_le_card {l : List Nat} {s : Finset Nat} (hnd : l.Nodup)
    (hsub : ∀ x ∈ l, x ∈ s) : l.length ≤ s.card := by
  classical
  have hsubset : l.toFinset ⊆ s := fun x hx => hsub x (List.mem_toFinset.mp hx)
  have := Finset.card_le_card hsubset
  rwa [List.toFinset_card_of_nodup hnd] at this

end Duplo

namespace Duplo


lemma wire_num_inv {wires : Finset Nat} {lw rw ow ns : List Wire} {st : NumSt}
    {w : Wire} {k : Int} {st' : NumSt}
    (inv : NumInv wires lw rw ow ns st)
    (h : wire_num wires st w = .ok (k, st')) :
    NumInv wires lw rw ow (ns ++ dedupFrom (lw ++ rw ++ ow ++ ns) [w]) st' ∧
    (∀ v q, numLookup st.numbers v = some q → numLookup st'.numbers v = some q) ∧
    numLookup st'.numbers w = some k := by
  have hmem := wire_num_ok_mem h
  cases hlook : numLookup st.numbers w with
  | some k0 =>
    rw [wire_num_found hmem hlook] at h
    simp only [Except.ok.injEq, Prod.mk.injEq] at h
    obtain ⟨rfl, rfl⟩ := h
    have hseen : w ∈ lw ++ rw ++ ow ++ ns := by
      rcases inv.compl w k0 hlook with hh | hh | hh | hh <;> simp [hh]
    rw [dedupFrom_single, if_pos hseen, List.append_nil]
    exact ⟨inv, fun v q hv => hv, hlook⟩
  | none =>
    rw [wire_num_new hmem hlook] at h
    simp only [Except.ok.injEq, Prod.mk.injEq] at h
    obtain ⟨hk, hst⟩ := h
    have hnl : w ∉ lw := by
      intro hw
      obtain ⟨⟨i, hi⟩, hget⟩ := List.mem_iff_get.mp hw
      have hv := inv.left i hi
      rw [hget, hlook] at hv
      exact absurd hv (by simp)
    have hnr : w ∉ rw := by
      intro hw
      obtain ⟨⟨i, hi⟩, hget⟩ := List.mem_iff_get.mp hw
      have hv := inv.right i hi
      rw [hget, hlook] at hv
      exact absurd hv (by simp)
    have hno : w ∉ ow := by
      intro hw
      obtain ⟨⟨i, hi⟩, hget⟩ := List.mem_iff_get.mp hw
      have hv := inv.outs i hi
      rw [hget, hlook] at hv
      exact absurd hv (by simp)
    have hnn : w ∉ ns := by
      intro hw
      obtain ⟨⟨i, hi⟩, hget⟩ := List.mem_iff_get.mp hw
      have hv := inv.ints i hi
      rw [hget, hlook] at hv
      exact absurd hv (by simp)
    have hseen : w ∉ lw ++ rw ++ ow ++ ns := by simp [hnl, hnr, hno, hnn]
    rw [dedupFrom_single, if_neg hseen]
    subst hst
    have hmono : ∀ v q, numLookup st.numbers v = some q →
        numLookup ((w, ((st.counter : Nat) : Int)) :: st.numbers) v = some q := by
      intro v q hv
      have hwv : w ≠ v := by rintro rfl; rw [hlook] at hv; exact absurd hv (by simp)
      rw [numLookup_cons, if_neg hwv]
      exact hv
    refine ⟨?_, hmono, ?_⟩
    · refine ⟨?_, ?_, ?_, ?_, ?_, ?_, ?_, ?_⟩
      · intro i hi
        exact hmono _ _ (inv.left i hi)
      · intro i hi
        exact hmono _ _ (inv.right i hi)
      · intro i hi
        exact hmono _ _ (inv.outs i hi)
      · intro j hj
        rcases Nat.lt_or_ge j ns.length with hlt | hge
        · have hg : (ns ++ [w]).get ⟨j, hj⟩ = ns.get ⟨j, hlt⟩ := List.get_append j hlt
          rw [hg]
          exact hmono _ _ (inv.ints j hlt)
        · have hje : j = ns.length := by
            have := hj
            simp only [List.length_append, List.length_cons, List.length_nil] at this
            omega
          subst hje
          have hg : (ns ++ [w]).get ⟨ns.length, hj⟩ = w := by
            have h1 := List.get?_eq_get (l := ns ++ [w]) (n := ns.length)
              (by simp)
            rw [List.get?_concat_length] at h1
            exact (Option.some_inj.mp h1).symm
          rw [hg, numLookup_cons, if_pos rfl, inv.cnt]
      · show st.counter + 1 = lw.length + rw.length + (ns ++ [w]).length
        rw [inv.cnt, List.length_append, List.length_singleton]
        omega
      · intro v q hv
        rw [numLookup_cons] at hv
        by_cases hwv : w = v
        · subst hwv
          right; right; right
          simp
        · rw [if_neg hwv] at hv
          rcases inv.compl v q hv with hh | hh | hh | hh
          · exact Or.inl hh
          · exact Or.inr (Or.inl hh)
          · exact Or.inr (Or.inr (Or.inl hh))
          · exact Or.inr (Or.inr (Or.inr (List.mem_append_left _ hh)))
      · intro v hv
        rcases List.mem_append.mp hv with hh | hh
        · exact inv.good v hh
        · rcases List.mem_singleton.mp hh with rfl
          exact ⟨hmem, hnl, hnr, hno⟩
      · rw [List.nodup_append]
        exact ⟨inv.nd, List.nodup_singleton w,
          fun x hx hx1 => hnn ((List.mem_singleton.mp hx1) ▸ hx)⟩
    · rw [numLookup_cons, if_pos rfl, ← hk]

lemma number_all_cons_eq (wires : Finset Nat) (st : NumSt) (w : Wire) (ws : List Wire) :
    number_all wires st (w :: ws) =
      match wire_num wires st w with
      | .error e => .error e
      | .ok (k, st1) =>
        match number_all wires st1 ws with
        | .error e => .error e
        | .ok (ks, st2) => .ok (k :: ks, st2) := rfl

lemma number_all_inv {wires : Finset Nat} {lw rw ow : List Wire} :
    ∀ (ws : List Wire) (st : NumSt) (ns : List Wire) (ids : List Int) (st' : NumSt),
    NumInv wires lw rw ow ns st →
    number_all wires st ws = .ok (ids, st') →
    NumInv wires lw rw ow (ns ++ dedupFrom (lw ++ rw ++ ow ++ ns) ws) st' ∧
    (∀ v q, numLookup st.numbers v = some q → numLookup st'.numbers v = some q) ∧
    ids.length = ws.length ∧
    (∀ i (h : i < ws.length) (h' : i < ids.length),
      numLookup st'.numbers (ws.get ⟨i, h⟩) = some (ids.get ⟨i, h'⟩)) := by
  intro ws
  induction ws with
  | nil =>
    intro st ns ids st' inv h
    simp only [number_all, Except.ok.injEq, Prod.mk.injEq] at h
    obtain ⟨rfl, rfl⟩ := h
    refine ⟨?_, fun v q hv => hv, rfl, fun i h _ => by simp at h⟩
    show NumInv wires lw rw ow (ns ++ []) st
    rw [List.append_nil]
    exact inv
  | cons w ws ih =>
    intro st ns ids st' inv h
    rw [number_all_cons_eq] at h
    cases h1 : wire_num wires st w with
    | error e => simp [h1] at h
    | ok p1 =>
      obtain ⟨k, st1⟩ := p1
      simp only [h1] at h
      cases h2 : number_all wires st1 ws with
      | error e => simp [h2] at h
      | ok p2 =>
        obtain ⟨ids', st2⟩ := p2
        simp only [h2, Except.ok.injEq, Prod.mk.injEq] at h
        obtain ⟨rfl, rfl⟩ := h
        obtain ⟨inv1, mono1, hwk⟩ := wire_num_inv inv h1
        obtain ⟨inv2, mono2, hlen, hidx⟩ :=
          ih st1 (ns ++ dedupFrom (lw ++ rw ++ ow ++ ns) [w]) ids' st2 inv1 h2
        have hns : ns ++ dedupFrom (lw ++ rw ++ ow ++ ns) (w :: ws) =
            (ns ++ dedupFrom (lw ++ rw ++ ow ++ ns) [w]) ++
              dedupFrom (lw ++ rw ++ ow ++ (ns ++ dedupFrom (lw ++ rw ++ ow ++ ns) [w])) ws := by
          rw [dedupFrom_cons, dedupFrom_single]
          by_cases hw : w ∈ lw ++ rw ++ ow ++ ns
          · rw [if_pos hw, if_pos hw, List.append_nil]
          · rw [if_neg hw, if_neg hw, List.append_assoc ns [w]]
            congr 2
            · exact dedupFrom_congr ws _ _ (fun x => by
                constructor
                · intro hx
                  rcases List.mem_cons.mp hx with rfl | hx
                  · simp
                  · simp at hx ⊢; tauto
                · intro hx
                  simp at hx
                  rcases hx with hx | hx | hx | hx | rfl
                  · exact List.mem_cons_of_mem _ (by simp [hx])
                  · exact List.mem_cons_of_mem _ (by simp [hx])
                  · exact List.mem_cons_of_mem _ (by simp [hx])
                  · exact List.mem_cons_of_mem _ (by simp [hx])
                  · exact List.mem_cons_self _ _)
        rw [hns]
        refine ⟨inv2, fun v q hv => mono2 v q (mono1 v q hv), by simp [hlen], ?_⟩
        intro i h h'
        cases i with
        | zero =>
          show numLookup st2.numbers w = some k
          exact mono2 _ _ hwk
        | succ i =>
          have hi : i < ws.length := by simpa using h
          have hi' : i < ids'.length := by simpa using h'
          simp only [List.get_cons_succ]
          exact hidx i hi hi'

end Duplo

namespace Duplo

lemma ns_extend (lw rw ow ns a b : List Wire) :
    ns ++ dedupFrom (lw ++ rw ++ ow ++ ns) (a ++ b) =
      (ns ++ dedupFrom (lw ++ rw ++ ow ++ ns) a) ++
        dedupFrom (lw ++ rw ++ ow ++ (ns ++ dedupFrom (lw ++ rw ++ ow ++ ns) a)) b := by
  rw [dedupFrom_append, ← List.append_assoc]
  congr 1
  all_goals exact dedupFrom_congr b _ _ (fun x => by simp only [List.mem_append]; tauto)

lemma gate_build_eq (wires : Finset Nat) (st : NumSt) (g : Gate) :
    Gate.build wires st g =
      match number_all wires st g.input_wires with
      | .error e => .error e
      | .ok (ids, st1) =>
        match wire_num wires st1 g.output_wire with
        | .error e => .error e
        | .ok (oid, st2) => .ok (gate_line g ids oid, st2) := rfl

lemma gate_build_inv {wires : Finset Nat} {lw rw ow ns : List Wire} {st : NumSt}
    {g : Gate} {line : Str} {st' : NumSt}
    (inv : NumInv wires lw rw ow ns st)
    (h : Gate.build wires st g = .ok (line, st')) :
    NumInv wires lw rw ow (ns ++ dedupFrom (lw ++ rw ++ ow ++ ns) (gateRefs g)) st' ∧
    (∀ v q, numLookup st.numbers v = some q → numLookup st'.numbers v = some q) ∧
    ∃ ids oid, ids.length = g.input_wires.length ∧
      (∀ i (hi : i < g.input_wires.length) (hi' : i < ids.length),
        numLookup st'.numbers (g.input_wires.get ⟨i, hi⟩) = some (ids.get ⟨i, hi'⟩)) ∧
      numLookup st'.numbers g.output_wire = some oid ∧
      line = gate_line g ids oid := by
  rw [gate_build_eq] at h
  cases hn : number_all wires st g.input_wires with
  | error e => simp [hn] at h
  | ok p1 =>
    obtain ⟨ids, st1⟩ := p1
    simp only [hn] at h
    cases ho : wire_num wires st1 g.output_wire with
    | error e => simp [ho] at h
    | ok p2 =>
      obtain ⟨oid, st2⟩ := p2
      simp only [ho, Except.ok.injEq, Prod.mk.injEq] at h
      obtain ⟨rfl, rfl⟩ := h
      obtain ⟨inv1, mono1, hlen, hidx⟩ := number_all_inv g.input_wires st ns ids st1 inv hn
      obtain ⟨inv2, mono2, hout⟩ := wire_num_inv inv1 ho
      have hns : ns ++ dedupFrom (lw ++ rw ++ ow ++ ns) (gateRefs g) =
          (ns ++ dedupFrom (lw ++ rw ++ ow ++ ns) g.input_wires) ++
            dedupFrom (lw ++ rw ++ ow ++
              (ns ++ dedupFrom (lw ++ rw ++ ow ++ ns) g.input_wires)) [g.output_wire] := by
        rw [show gateRefs g = g.input_wires ++ [g.output_wire] from rfl]
        exact ns_extend lw rw ow ns g.input_wires [g.output_wire]
      rw [hns]
      refine ⟨inv2, fun v q hv => mono2 v q (mono1 v q hv), ids, oid, hlen, ?_, hout, rfl⟩
      intro i hi hi'
      exact mono2 _ _ (hidx i hi hi')

lemma build_lines_cons_eq (wires : Finset Nat) (st : NumSt) (g : Gate) (gs : List Gate) :
    build_lines wires st (g :: gs) =
      match Gate.build wires st g with
      | .error e => .error e
      | .ok (line, st1) =>
        match build_lines wires st1 gs with
        | .error e => .error e
        | .ok (lines, st2) => .ok (line :: lines, st2) := rfl

lemma gatesRefs_cons (g : Gate) (gs : List Gate) :
    gatesRefs (g :: gs) = gateRefs g ++ gatesRefs gs := rfl

lemma build_lines_inv {wires : Finset Nat} {lw rw ow : List Wire} :
    ∀ (gs : List Gate) (st : NumSt) (ns : List Wire) (lines : List Str) (st' : NumSt),
    NumInv wires lw rw ow ns st →
    build_lines wires st gs = .ok (lines, st') →
    NumInv wires lw rw ow (ns ++ dedupFrom (lw ++ rw ++ ow ++ ns) (gatesRefs gs)) st' ∧
    (∀ v q, numLookup st.numbers v = some q → numLookup st'.numbers v = some q) ∧
    lines.length = gs.length ∧
    (∀ j (hj : j < gs.length) (hj' : j < lines.length), ∃ ids oid,
      ids.length = (gs.get ⟨j, hj⟩).input_wires.length ∧
      (∀ i (hi : i < (gs.get ⟨j, hj⟩).input_wires.length) (hi' : i < ids.length),
        numLookup st'.numbers ((gs.get ⟨j, hj⟩).input_wires.get ⟨i, hi⟩) =
          some (ids.get ⟨i, hi'⟩)) ∧
      numLookup st'.numbers (gs.get ⟨j, hj⟩).output_wire = some oid ∧
      lines.get ⟨j, hj'⟩ = gate_line (gs.get ⟨j, hj⟩) ids oid) := by
  intro gs
  induction gs with
  | nil =>
    intro st ns lines st' inv h
    simp only [build_lines, Except.ok.injEq, Prod.mk.injEq] at h
    obtain ⟨rfl, rfl⟩ := h
    refine ⟨?_, fun v q hv => hv, rfl, fun j hj _ => by simp at hj⟩
    show NumInv wires lw rw ow (ns ++ dedupFrom (lw ++ rw ++ ow ++ ns) []) st
    rw [show dedupFrom (lw ++ rw ++ ow ++ ns) [] = [] from rfl, List.append_nil]
    exact inv
  | cons g gs ih =>
    intro st ns lines st' inv h
    rw [build_lines_cons_eq] at h
    cases h1 : Gate.build wires st g with
    | error e => simp [h1] at h
    | ok p1 =>
      obtain ⟨line, st1⟩ := p1
      simp only [h1] at h
      cases h2 : build_lines wires st1 gs with
      | error e => simp [h2] at h
      | ok p2 =>
        obtain ⟨lines', st2⟩ := p2
        simp only [h2, Except.ok.injEq, Prod.mk.injEq] at h
        obtain ⟨rfl, rfl⟩ := h
        obtain ⟨inv1, mono1, ids, oid, hlen1, hidx1, hout1, hline1⟩ := gate_build_inv inv h1
        obtain ⟨inv2, mono2, hlen2, hidx2⟩ :=
          ih st1 (ns ++ dedupFrom (lw ++ rw ++ ow ++ ns) (gateRefs g)) lines' st2 inv1 h2
        rw [gatesRefs_cons, ns_extend lw rw ow ns (gateRefs g) (gatesRefs gs)]
        refine ⟨inv2, fun v q hv => mono2 v q (mono1 v q hv), by simp [hlen2], ?_⟩
        intro j hj hj'
        cases j with
        | zero =>
          refine ⟨ids, oid, ?_, ?_, ?_, ?_⟩
          · exact hlen1
          · intro i hi hi'
            exact mono2 _ _ (hidx1 i hi hi')
          · exact mono2 _ _ hout1
          · exact hline1
        | succ j =>
          have hj2 : j < gs.length := by simpa using hj
          have hj2' : j < lines'.length := by simpa using hj'
          exact hidx2 j hj2 hj2'

end Duplo

namespace Duplo

lemma initial_inv {wires : Finset Nat} {lw rw ow : List Wire} {st1 st2 : NumSt}
    (hall : (lw ++ rw ++ ow).Nodup)
    (hmem : ∀ w ∈ lw ++ rw ++ ow, w ∈ wires)
    (h1 : number_list wires ⟨[], 0⟩ lw = .ok st1)
    (h2 : number_list wires st1 rw = .ok st2) :
    NumInv wires lw rw ow []
      ⟨assignOutsAux ((wires.card : Int) - (ow.length : Int)) 0 ow st2.numbers,
        st2.counter⟩ := by
  rw [List.nodup_append] at hall
  obtain ⟨hndlr, hndo, hdisjo⟩ := hall
  rw [List.nodup_append] at hndlr
  obtain ⟨hndl, hndr, hdisjlr⟩ := hndlr
  have hml : ∀ w ∈ lw, w ∈ wires := fun w hw => hmem w (by simp [hw])
  have hmr : ∀ w ∈ rw, w ∈ wires := fun w hw => hmem w (by simp [hw])
  obtain ⟨st1', hok1, hc1, hi1, hu1, hk1⟩ :=
    @number_list_fresh wires lw ⟨[], 0⟩ hndl hml (fun w _ => rfl)
  rw [hok1] at h1
  have hst1 : st1' = st1 := Except.ok.inj h1
  subst hst1
  have hfresh2 : ∀ v ∈ rw, numLookup st1'.numbers v = none := by
    intro v hv
    have hvl : v ∉ lw := fun hh => hdisjlr hh hv
    rw [hu1 v hvl]
    rfl
  obtain ⟨st2', hok2, hc2, hi2, hu2, hk2⟩ :=
    @number_list_fresh wires rw st1' hndr hmr hfresh2
  rw [hok2] at h2
  have hst2 : st2' = st2 := Except.ok.inj h2
  subst hst2
  refine ⟨?_, ?_, ?_, ?_, ?_, ?_, ?_, ?_⟩
  · intro i hi
    have hwl : lw.get ⟨i, hi⟩ ∈ lw := List.get_mem lw i hi
    have hwo : lw.get ⟨i, hi⟩ ∉ ow := fun hh => hdisjo (List.mem_append_left rw hwl) hh
    have hwr : lw.get ⟨i, hi⟩ ∉ rw := fun hh => hdisjlr hwl hh
    show numLookup (assignOutsAux _ 0 ow st2'.numbers) _ = _
    rw [assignOutsAux_miss ow 0 _ hwo, hu2 _ hwr, hi1 i hi]
    norm_num
  · intro i hi
    have hwr : rw.get ⟨i, hi⟩ ∈ rw := List.get_mem rw i hi
    have hwo : rw.get ⟨i, hi⟩ ∉ ow := fun hh => hdisjo (List.mem_append_right lw hwr) hh
    show numLookup (assignOutsAux _ 0 ow st2'.numbers) _ = _
    rw [assignOutsAux_miss ow 0 _ hwo, hi2 i hi]
    congr 1
    rw [hc1]
    norm_num
  · intro i hi
    show numLookup (assignOutsAux _ 0 ow st2'.numbers) _ = _
    rw [assignOutsAux_hit ow 0 _ hndo i hi]
    norm_num
  · intro j hj
    simp at hj
  · show st2'.counter = lw.length + rw.length + ([] : List Wire).length
    rw [hc2, hc1]
    simp
  · intro w k hw
    rcases assignOutsAux_complete ow 0 _ w k hw with ⟨j, hj, rfl, _⟩ | hlook
    · exact Or.inr (Or.inr (Or.inl (List.get_mem ow j hj)))
    · rcases hk2 w k hlook with hh | hlook2
      · exact Or.inr (Or.inl hh)
      · rcases hk1 w k hlook2 with hh | hlook3
        · exact Or.inl hh
        · exact absurd hlook3 (by simp [numLookup])
  · intro w hw
    simp at hw
  · exact List.nodup_nil

lemma nr_eq (wires : Finset Nat) (lw rw ow : List Wire) (gates : List Gate) :
    number_and_render wires lw rw ow gates =
      match number_list wires ⟨[], 0⟩ lw with
      | .error e => .error e
      | .ok st1 =>
        match number_list wires st1 rw with
        | .error e => .error e
        | .ok st2 =>
          match build_lines wires
              ⟨assignOutsAux ((wires.card : Int) - (ow.length : Int)) 0 ow st2.numbers,
                st2.counter⟩ gates with
          | .error e => .error e
          | .ok (lines, st4) =>
            .ok (renderNat gates.length ++ ' ' :: renderNat wires.card ++ '\n' ::
                  (renderNat lw.length ++ ' ' :: renderNat rw.length ++ ' ' ::
                    renderNat ow.length) ++
                  '\n' :: '\n' :: (joinSep ['\n'] lines ++ ['\n']), st4) := rfl

lemma nr_master {wires : Finset Nat} {lw rw ow : List Wire} {gates : List Gate}
    {text : Str} {st : NumSt}
    (hall : (lw ++ rw ++ ow).Nodup)
    (hmem : ∀ w ∈ lw ++ rw ++ ow, w ∈ wires)
    (h : number_and_render wires lw rw ow gates = .ok (text, st)) :
    NumInv wires lw rw ow (internals lw rw ow gates) st ∧
    lw.length + rw.length + ow.length + (internals lw rw ow gates).length ≤ wires.card ∧
    ∃ lines, lines.length = gates.length ∧
      text = renderNat gates.length ++ ' ' :: renderNat wires.card ++ '\n' ::
        (renderNat lw.length ++ ' ' :: renderNat rw.length ++ ' ' :: renderNat ow.length) ++
        '\n' :: '\n' :: (joinSep ['\n'] lines ++ ['\n']) ∧
      (∀ j (hj : j < gates.length) (hj' : j < lines.length), ∃ ids oid,
        ids.length = (gates.get ⟨j, hj⟩).input_wires.length ∧
        (∀ i (hi : i < (gates.get ⟨j, hj⟩).input_wires.length) (hi' : i < ids.length),
          numLookup st.numbers ((gates.get ⟨j, hj⟩).input_wires.get ⟨i, hi⟩) =
            some (ids.get ⟨i, hi'⟩)) ∧
        numLookup st.numbers (gates.get ⟨j, hj⟩).output_wire = some oid ∧
        lines.get ⟨j, hj'⟩ = gate_line (gates.get ⟨j, hj⟩) ids oid) := by
  rw [nr_eq] at h
  cases h1 : number_list wires ⟨[], 0⟩ lw with
  | error e => simp [h1] at h
  | ok st1 =>
    simp only [h1] at h
    cases h2 : number_list wires st1 rw with
    | error e => simp [h2] at h
    | ok st2 =>
      simp only [h2] at h
      cases h3 : build_lines wires
          ⟨assignOutsAux ((wires.card : Int) - (ow.length : Int)) 0 ow st2.numbers,
            st2.counter⟩ gates with
      | error e => simp [h3] at h
      | ok p =>
        obtain ⟨lines, st4⟩ := p
        simp only [h3, Except.ok.injEq, Prod.mk.injEq] at h
        obtain ⟨rfl, rfl⟩ := h
        have inv0 := initial_inv hall hmem h1 h2
        obtain ⟨invF, _, hlen, hidx⟩ := build_lines_inv gates _ [] lines st4 inv0 h3
        have hns : ([] : List Wire) ++
            dedupFrom (lw ++ rw ++ ow ++ []) (gatesRefs gates) =
            internals lw rw ow gates := by
          rw [List.nil_append, List.append_nil]
          rfl
        rw [hns] at invF
        refine ⟨invF, ?_, lines, hlen, rfl, hidx⟩
        have hnd4 : (lw ++ rw ++ ow ++ internals lw rw ow gates).Nodup := by
          rw [List.nodup_append]
          exact ⟨hall, dedupFrom_nodup _ _,
            fun x hx hx2 => dedupFrom_not_seen _ _ x hx2 hx⟩
        have hmem4 : ∀ x ∈ lw ++ rw ++ ow ++ internals lw rw ow gates, x ∈ wires := by
          intro x hx
          rcases List.mem_append.mp hx with hx | hx
          · exact hmem x hx
          · exact (invF.good x hx).1
        have hcard := length_le_card hnd4 hmem4
        simp only [List.length_append] at hcard
        omega
  
end Duplo

namespace Duplo

lemma renderNat_no_nl {n : Nat} : ('\n' : Char) ∉ renderNat n :=
  fun h => decDigit_ne_nl (renderNat_mem h) rfl

lemma no_nl_two (a b : Nat) : ('\n' : Char) ∉ renderNat a ++ ' ' :: renderNat b := by
  intro h
  rcases List.mem_append.mp h with h | h
  · exact renderNat_no_nl h
  · rcases List.mem_cons.mp h with h | h
    · exact absurd h (by decide)
    · exact renderNat_no_nl h

lemma no_nl_three (a b c : Nat) :
    ('\n' : Char) ∉ renderNat a ++ ' ' :: renderNat b ++ ' ' :: renderNat c := by
  intro h
  rcases List.mem_append.mp h with h | h
  · exact no_nl_two a b h
  · rcases List.mem_cons.mp h with h | h
    · exact absurd h (by decide)
    · exact renderNat_no_nl h

lemma header_split (g total L R O : Nat) (tail : Str) :
    splitChar '\n' (renderNat g ++ ' ' :: renderNat total ++ '\n' ::
        (renderNat L ++ ' ' :: renderNat R ++ ' ' :: renderNat O) ++ '\n' :: '\n' :: tail) =
      (renderNat g ++ ' ' :: renderNat total) ::
        (renderNat L ++ ' ' :: renderNat R ++ ' ' :: renderNat O) ::
          [] :: splitChar '\n' tail := by
  have e1 : renderNat g ++ ' ' :: renderNat total ++ '\n' ::
      (renderNat L ++ ' ' :: renderNat R ++ ' ' :: renderNat O) ++ '\n' :: '\n' :: tail =
      (renderNat g ++ ' ' :: renderNat total) ++ '\n' ::
        ((renderNat L ++ ' ' :: renderNat R ++ ' ' :: renderNat O) ++
          '\n' :: '\n' :: tail) := by
    simp
  rw [e1, splitChar_append_cons (no_nl_two g total),
    splitChar_append_cons (no_nl_three L R O), splitChar_cons_sep]

lemma mem_dedupFrom : ∀ (l s : List Wire) (x : Wire), x ∈ l → x ∉ s → x ∈ dedupFrom s l := by
  intro l
  induction l with
  | nil => intro s x h _; simp at h
  | cons w ws ih =>
    intro s x hx hs
    rw [dedupFrom_cons]
    by_cases hw : w ∈ s
    · rw [if_pos hw]
      rcases List.mem_cons.mp hx with rfl | hx
      · exact absurd hw hs
      · exact ih s x hx hs
    · rw [if_neg hw]
      rcases List.mem_cons.mp hx with rfl | hx
      · exact List.mem_cons_self _ _
      · by_cases hxw : x = w
        · subst hxw; exact List.mem_cons_self _ _
        · exact List.mem_cons_of_mem _ (ih (w :: s) x hx (by simp [hxw, hs]))

lemma build_description_eq (c : Circuit) (li ri outs : Spec) :
    c.build_description li ri outs =
      match c.convert_to_wires li with
      | .error e => .error e
      | .ok (lw, c1) =>
        match c1.convert_to_wires ri with
        | .error e => .error e
        | .ok (rw, c2) =>
          match c2.convert_to_wires outs with
          | .error e => .error e
          | .ok (ow, c3) =>
            match number_and_render c3.wires lw rw ow c3.gates with
            | .error e => .error e
            | .ok (text, _) => .ok (text, c3) := rfl

lemma build_description_ok_of {c c1 c2 c3 : Circuit} {li ri outs : Spec}
    {lw rw ow : List Wire} {text : Str} {st : NumSt}
    (hl : c.convert_to_wires li = .ok (lw, c1))
    (hr : c1.convert_to_wires ri = .ok (rw, c2))
    (ho : c2.convert_to_wires outs = .ok (ow, c3))
    (hok : number_and_render c3.wires lw rw ow c3.gates = .ok (text, st)) :
    c.build_description li ri outs = .ok (text, c3) := by
  rw [build_description_eq]
  simp only [hl, hr, ho, hok]

end Duplo

namespace Duplo

lemma number_list_ok_mem {wires : Finset Nat} : ∀ (ws : List Wire) (st st' : NumSt),
    number_list wires st ws = .ok st' → ∀ w ∈ ws, w ∈ wires := by
  intro ws
  induction ws with
  | nil => intro st st' _ w hw; simp at hw
  | cons v ws ih =>
    intro st st' h w hw
    rw [number_list_cons_eq] at h
    cases h1 : wire_num wires st v with
    | error e => simp [h1] at h
    | ok p =>
      obtain ⟨k, st1⟩ := p
      simp only [h1] at h
      rcases List.mem_cons.mp hw with rfl | hw
      · exact wire_num_ok_mem h1
      · exact ih st1 st' h w hw

lemma number_all_ok_mem {wires : Finset Nat} : ∀ (ws : List Wire) (st : NumSt)
    (ids : List Int) (st' : NumSt),
    number_all wires st ws = .ok (ids, st') → ∀ w ∈ ws, w ∈ wires := by
  intro ws
  induction ws with
  | nil => intro st ids st' _ w hw; simp at hw
  | cons v ws ih =>
    intro st ids st' h w hw
    rw [number_all_cons_eq] at h
    cases h1 : wire_num wires st v with
    | error e => simp [h1] at h
    | ok p =>
      obtain ⟨k, st1⟩ := p
      simp only [h1] at h
      cases h2 : number_all wires st1 ws with
      | error e => simp [h2] at h
      | ok p2 =>
        obtain ⟨ids', st2⟩ := p2
        rcases List.mem_cons.mp hw with rfl | hw
        · exact wire_num_ok_mem h1
        · exact ih st1 ids' st2 h2 w hw

lemma gate_build_ok_mem {wires : Finset Nat} {st : NumSt} {g : Gate} {line : Str}
    {st' : NumSt} (h : Gate.build wires st g = .ok (line, st')) :
    ∀ w ∈ gateRefs g, w ∈ wires := by
  rw [gate_build_eq] at h
  cases h1 : number_all wires st g.input_wires with
  | error e => simp [h1] at h
  | ok p1 =>
    obtain ⟨ids, st1⟩ := p1
    simp only [h1] at h
    cases h2 : wire_num wires st1 g.output_wire with
    | error e => simp [h2] at h
    | ok p2 =>
      intro w hw
      rcases List.mem_append.mp hw with hw | hw
      · exact number_all_ok_mem _ _ _ _ h1 w hw
      · rcases List.mem_singleton.mp hw with rfl
        exact wire_num_ok_mem h2

lemma build_lines_ok_mem {wires : Finset Nat} : ∀ (gs : List Gate) (st : NumSt)
    (lines : List Str) (st' : NumSt),
    build_lines wires st gs = .ok (lines, st') →
    ∀ g ∈ gs, ∀ w ∈ gateRefs g, w ∈ wires := by
  intro gs
  induction gs with
  | nil => intro st lines st' _ g hg; simp at hg
  | cons g0 gs ih =>
    intro st lines st' h g hg
    rw [build_lines_cons_eq] at h
    cases h1 : Gate.build wires st g0 with
    | error e => simp [h1] at h
    | ok p1 =>
      obtain ⟨line, st1⟩ := p1
      simp only [h1] at h
      cases h2 : build_lines wires st1 gs with
      | error e => simp [h2] at h
      | ok p2 =>
        obtain ⟨lines', st2⟩ := p2
        rcases List.mem_cons.mp hg with rfl | hg
        · exact gate_build_ok_mem h1
        · exact ih st1 lines' st2 h2 g hg

lemma nr_ok_mem {wires : Finset Nat} {lw rw ow : List Wire} {gates : List Gate}
    {text : Str} {st : NumSt}
    (h : number_and_render wires lw rw ow gates = .ok (text, st)) :
    (∀ w ∈ lw, w ∈ wires) ∧ (∀ w ∈ rw, w ∈ wires) ∧
    (∀ g ∈ gates, ∀ w ∈ gateRefs g, w ∈ wires) := by
  rw [nr_eq] at h
  cases h1 : number_list wires ⟨[], 0⟩ lw with
  | error e => simp [h1] at h
  | ok st1 =>
    simp only [h1] at h
    cases h2 : number_list wires st1 rw with
    | error e => simp [h2] at h
    | ok st2 =>
      simp only [h2] at h
      cases h3 : build_lines wires
          ⟨assignOutsAux ((wires.card : Int) - (ow.length : Int)) 0 ow st2.numbers,
            st2.counter⟩ gates with
      | error e => simp [h3] at h
      | ok p =>
        exact ⟨number_list_ok_mem lw _ _ h1, number_list_ok_mem rw _ _ h2,
          build_lines_ok_mem gates _ _ _ h3⟩

/-! ## Lemmas: the effect of an unreferenced wire (two-run comparison) -/


lemma wire_num_rel {wiresA wiresB : Finset Nat} {ow : List Wire} {st st' : NumSt}
    {w : Wire} {k : Int} {stA : NumSt}
    (hw : w ∈ wiresA ↔ w ∈ wiresB) (rel : OwRel ow st st')
    (h : wire_num wiresA st w = .ok (k, stA)) :
    ∃ k' stB, wire_num wiresB st' w = .ok (k', stB) ∧ OwRel ow stA stB ∧
      (w ∉ ow → k' = k) := by
  obtain ⟨hcnt, hoff, hsome⟩ := rel
  have hmemA := wire_num_ok_mem h
  have hmemB : w ∈ wiresB := hw.mp hmemA
  by_cases how : w ∈ ow
  · obtain ⟨hsA, hsB⟩ := hsome w how
    obtain ⟨kA, hkA⟩ := Option.isSome_iff_exists.mp hsA
    obtain ⟨kB, hkB⟩ := Option.isSome_iff_exists.mp hsB
    rw [wire_num_found hmemA hkA] at h
    simp only [Except.ok.injEq, Prod.mk.injEq] at h
    obtain ⟨rfl, rfl⟩ := h
    exact ⟨kB, st', wire_num_found hmemB hkB, ⟨hcnt, hoff, hsome⟩,
      fun hh => absurd how hh⟩
  · cases hlk : numLookup st.numbers w with
    | some k0 =>
      rw [wire_num_found hmemA hlk] at h
      simp only [Except.ok.injEq, Prod.mk.injEq] at h
      obtain ⟨rfl, rfl⟩ := h
      have hlk' : numLookup st'.numbers w = some k0 := by rw [← hoff w how]; exact hlk
      exact ⟨k0, st', wire_num_found hmemB hlk', ⟨hcnt, hoff, hsome⟩, fun _ => rfl⟩
    | none =>
      rw [wire_num_new hmemA hlk] at h
      simp only [Except.ok.injEq, Prod.mk.injEq] at h
      obtain ⟨hk, hstA⟩ := h
      have hlk' : numLookup st'.numbers w = none := by rw [← hoff w how]; exact hlk
      refine ⟨(st'.counter : Int), _, wire_num_new hmemB hlk', ?_, fun _ => by omega⟩
      subst hstA
      refine ⟨by simp [hcnt], ?_, ?_⟩
      · intro v hv
        show numLookup ((w, _) :: st.numbers) v = numLookup ((w, _) :: st'.numbers) v
        rw [numLookup_cons, numLookup_cons]
        by_cases hwv : w = v
        · rw [if_pos hwv, if_pos hwv, hcnt]
        · rw [if_neg hwv, if_neg hwv]
          exact hoff v hv
      · intro v hv
        obtain ⟨hsA, hsB⟩ := hsome v hv
        constructor
        · show (numLookup ((w, _) :: st.numbers) v).isSome
          rw [numLookup_cons]
          by_cases hwv : w = v
          · simp [hwv]
          · rw [if_neg hwv]; exact hsA
        · show (numLookup ((w, _) :: st'.numbers) v).isSome
          rw [numLookup_cons]
          by_cases hwv : w = v
          · simp [hwv]
          · rw [if_neg hwv]; exact hsB

lemma number_all_rel {wiresA wiresB : Finset Nat} {ow : List Wire} :
    ∀ (ws : List Wire) (st st' : NumSt) (ids : List Int) (stA : NumSt),
    (∀ v ∈ ws, (v ∈ wiresA ↔ v ∈ wiresB)) → OwRel ow st st' →
    number_all wiresA st ws = .ok (ids, stA) →
    ∃ ids' stB, number_all wiresB st' ws = .ok (ids', stB) ∧ OwRel ow stA stB := by
  intro ws
  induction ws with
  | nil =>
    intro st st' ids stA _ rel h
    simp only [number_all, Except.ok.injEq, Prod.mk.injEq] at h
    obtain ⟨rfl, rfl⟩ := h
    exact ⟨[], st', rfl, rel⟩
  | cons w ws ih =>
    intro st st' ids stA hmem rel h
    rw [number_all_cons_eq] at h
    cases h1 : wire_num wiresA st w with
    | error e => simp [h1] at h
    | ok p1 =>
      obtain ⟨k, st1⟩ := p1
      simp only [h1] at h
      cases h2 : number_all wiresA st1 ws with
      | error e => simp [h2] at h
      | ok p2 =>
        obtain ⟨ids0, st2⟩ := p2
        simp only [h2, Except.ok.injEq, Prod.mk.injEq] at h
        obtain ⟨rfl, rfl⟩ := h
        obtain ⟨k', stB1, hB1, rel1, _⟩ :=
          wire_num_rel (hmem w (List.mem_cons_self _ _)) rel h1
        obtain ⟨ids', stB2, hB2, rel2⟩ :=
          ih st1 stB1 ids0 st2 (fun v hv => hmem v (List.mem_cons_of_mem _ hv)) rel1 h2
        refine ⟨k' :: ids', stB2, ?_, rel2⟩
        rw [number_all_cons_eq, hB1]
        simp only [hB2]

lemma gate_build_rel {wiresA wiresB : Finset Nat} {ow : List Wire} {st st' : NumSt}
    {g : Gate} {line : Str} {stA : NumSt}
    (hmem : ∀ v ∈ gateRefs g, (v ∈ wiresA ↔ v ∈ wiresB)) (rel : OwRel ow st st')
    (h : Gate.build wiresA st g = .ok (line, stA)) :
    ∃ line' stB, Gate.build wiresB st' g = .ok (line', stB) ∧ OwRel ow stA stB := by
  rw [gate_build_eq] at h
  cases h1 : number_all wiresA st g.input_wires with
  | error e => simp [h1] at h
  | ok p1 =>
    obtain ⟨ids, st1⟩ := p1
    simp only [h1] at h
    cases h2 : wire_num wiresA st1 g.output_wire with
    | error e => simp [h2] at h
    | ok p2 =>
      obtain ⟨oid, st2⟩ := p2
      simp only [h2, Except.ok.injEq, Prod.mk.injEq] at h
      obtain ⟨rfl, rfl⟩ := h
      obtain ⟨ids', stB1, hB1, rel1⟩ := number_all_rel g.input_wires st st' ids st1
        (fun v hv => hmem v (List.mem_append_left _ hv)) rel h1
      obtain ⟨oid', stB2, hB2, rel2, _⟩ := wire_num_rel
        (hmem g.output_wire (List.mem_append_right _ (List.mem_singleton_self _))) rel1 h2
      refine ⟨gate_line g ids' oid', stB2, ?_, rel2⟩
      rw [gate_build_eq, hB1]
      simp only [hB2]

lemma build_lines_rel {wiresA wiresB : Finset Nat} {ow : List Wire} :
    ∀ (gs : List Gate) (st st' : NumSt) (lines : List Str) (stA : NumSt),
    (∀ g ∈ gs, ∀ v ∈ gateRefs g, (v ∈ wiresA ↔ v ∈ wiresB)) → OwRel ow st st' →
    build_lines wiresA st gs = .ok (lines, stA) →
    ∃ lines' stB, build_lines wiresB st' gs = .ok (lines', stB) ∧ OwRel ow stA stB := by
  intro gs
  induction gs with
  | nil =>
    intro st st' lines stA _ rel h
    simp only [build_lines, Except.ok.injEq, Prod.mk.injEq] at h
    obtain ⟨rfl, rfl⟩ := h
    exact ⟨[], st', rfl, rel⟩
  | cons g gs ih =>
    intro st st' lines stA hmem rel h
    rw [build_lines_cons_eq] at h
    cases h1 : Gate.build wiresA st g with
    | error e => simp [h1] at h
    | ok p1 =>
      obtain ⟨line, st1⟩ := p1
      simp only [h1] at h
      cases h2 : build_lines wiresA st1 gs with
      | error e => simp [h2] at h
      | ok p2 =>
        obtain ⟨lines0, st2⟩ := p2
        simp only [h2, Except.ok.injEq, Prod.mk.injEq] at h
        obtain ⟨rfl, rfl⟩ := h
        obtain ⟨line', stB1, hB1, rel1⟩ :=
          gate_build_rel (hmem g (List.mem_cons_self _ _)) rel h1
        obtain ⟨lines', stB2, hB2, rel2⟩ :=
          ih st1 stB1 lines0 st2 (fun g0 hg => hmem g0 (List.mem_cons_of_mem _ hg)) rel1 h2
        refine ⟨line' :: lines', stB2, ?_, rel2⟩
        rw [build_lines_cons_eq, hB1]
        simp only [hB2]

lemma wire_num_congr {wiresA wiresB : Finset Nat} {st : NumSt} {w : Wire}
    (hw : w ∈ wiresA ↔ w ∈ wiresB) : wire_num wiresA st w = wire_num wiresB st w := by
  unfold wire_num
  by_cases hm : w ∈ wiresA
  · rw [if_pos hm, if_pos (hw.mp hm)]
  · rw [if_neg hm, if_neg (fun hh => hm (hw.mpr hh))]

lemma number_list_congr {wiresA wiresB : Finset Nat} : ∀ (ws : List Wire) (st : NumSt),
    (∀ w ∈ ws, (w ∈ wiresA ↔ w ∈ wiresB)) →
    number_list wiresA st ws = number_list wiresB st ws := by
  intro ws
  induction ws with
  | nil => intro st _; rfl
  | cons w ws ih =>
    intro st hmem
    rw [number_list_cons_eq, number_list_cons_eq,
      ← @wire_num_congr _ _ st _ (hmem w (List.mem_cons_self _ _))]
    cases h1 : wire_num wiresA st w with
    | error e => rfl
    | ok p =>
      simp only []
      exact ih p.2 (fun v hv => hmem v (List.mem_cons_of_mem _ hv))

end Duplo

namespace Duplo

/-! ## Lemmas: subcircuit instantiation -/

lemma lookupName_cons (m : Str) (v : Wire) (rest : List (Str × Wire)) (k : Str) :
    lookupName ((m, v) :: rest) k = if m = k then some v else lookupName rest k := rfl

lemma lookupName_mem : ∀ (tbl : List (Str × Wire)) (n : Str) (w : Wire),
    lookupName tbl n = some w → (n, w) ∈ tbl := by
  intro tbl
  induction tbl with
  | nil => intro n w h; simp [lookupName] at h
  | cons p rest ih =>
    intro n w h
    obtain ⟨m, v⟩ := p
    rw [lookupName_cons] at h
    by_cases hm : m = n
    · rw [if_pos hm] at h
      simp only [Option.some_inj] at h
      subst hm
      subst h
      exact List.mem_cons_self _ _
    · rw [if_neg hm] at h
      exact List.mem_cons_of_mem _ (ih n w h)

lemma sc_get_wire_def (c : Circuit) (tbl : List (Str × Wire)) (n : Str) :
    sc_get_wire c tbl n =
      match lookupName tbl n with
      | some w => (w, tbl, c)
      | none => (c.nextWire, (n, c.nextWire) :: tbl, c.fresh_wire.2) := rfl

lemma sc_get_wire_spec (c : Circuit) (tbl : List (Str × Wire)) (n : Str) :
    (n, (sc_get_wire c tbl n).1) ∈ (sc_get_wire c tbl n).2.1 ∧
    (∀ m v, lookupName tbl m = some v → lookupName (sc_get_wire c tbl n).2.1 m = some v) ∧
    (∀ p ∈ tbl, p ∈ (sc_get_wire c tbl n).2.1) ∧
    (∀ p ∈ (sc_get_wire c tbl n).2.1,
      p ∈ tbl ∨ (c.nextWire ≤ p.2 ∧ p.2 ∈ (sc_get_wire c tbl n).2.2.wires)) ∧
    c.wires ⊆ (sc_get_wire c tbl n).2.2.wires ∧
    c.nextWire ≤ (sc_get_wire c tbl n).2.2.nextWire ∧
    (c.WF → (sc_get_wire c tbl n).2.2.WF) ∧
    (sc_get_wire c tbl n).2.2.gates = c.gates := by
  rw [sc_get_wire_def]
  cases hlk : lookupName tbl n with
  | some w =>
    simp only []
    exact ⟨lookupName_mem tbl n w hlk, fun m v hv => hv, fun p hp => hp,
      fun p hp => Or.inl hp, Finset.Subset.refl _, Nat.le_refl _, id, by trivial⟩
  | none =>
    simp only []
    refine ⟨List.mem_cons_self _ _, ?_, fun p hp => List.mem_cons_of_mem _ hp, ?_,
      (fresh_wire_step c).2.2.1, (fresh_wire_step c).2.2.2.1,
      (fresh_wire_step c).2.2.2.2, by trivial⟩
    · intro m v hv
      show lookupName ((n, c.nextWire) :: tbl) m = some v
      rw [lookupName_cons]
      split
      · next heq => rw [heq] at hlk; rw [hlk] at hv; exact absurd hv (by simp)
      · exact hv
    · intro p hp
      rcases List.mem_cons.mp hp with rfl | hp
      · exact Or.inr ⟨Nat.le_refl _, Finset.mem_insert_self _ _⟩
      · exact Or.inl hp

lemma resolve_names_spec : ∀ (names : List Str) (c : Circuit) (tbl : List (Str × Wire)),
    (resolve_names c tbl names).1.length = names.length ∧
    (∀ w ∈ (resolve_names c tbl names).1, ∃ m, (m, w) ∈ (resolve_names c tbl names).2.1) ∧
    (∀ m v, lookupName tbl m = some v →
      lookupName (resolve_names c tbl names).2.1 m = some v) ∧
    (∀ p ∈ tbl, p ∈ (resolve_names c tbl names).2.1) ∧
    (∀ p ∈ (resolve_names c tbl names).2.1,
      p ∈ tbl ∨ (c.nextWire ≤ p.2 ∧ p.2 ∈ (resolve_names c tbl names).2.2.wires)) ∧
    c.wires ⊆ (resolve_names c tbl names).2.2.wires ∧
    c.nextWire ≤ (resolve_names c tbl names).2.2.nextWire ∧
    (c.WF → (resolve_names c tbl names).2.2.WF) ∧
    (resolve_names c tbl names).2.2.gates = c.gates := by
  intro names
  induction names with
  | nil =>
    intro c tbl
    exact ⟨rfl, fun w hw => by simp [resolve_names] at hw, fun m v hv => hv,
      fun p hp => hp, fun p hp => Or.inl hp, Finset.Subset.refl _, Nat.le_refl _, id, rfl⟩
  | cons n ns ih =>
    intro c tbl
    obtain ⟨hg1, hg2, hg3, hg4, hg5, hg6, hg7, hg8⟩ := sc_get_wire_spec c tbl n
    obtain ⟨ih1, ih2, ih3, ih4, ih5, ih6, ih7, ih8, ih9⟩ :=
      ih (sc_get_wire c tbl n).2.2 (sc_get_wire c tbl n).2.1
    refine ⟨by simp [resolve_names, ih1], ?_, ?_, ?_, ?_, subset_trans hg5 ih6,
      le_trans hg6 ih7, fun hwf => ih8 (hg7 hwf), by rw [show (resolve_names c tbl
        (n :: ns)).2.2 = (resolve_names (sc_get_wire c tbl n).2.2
        (sc_get_wire c tbl n).2.1 ns).2.2 from rfl, ih9, hg8]⟩
    · intro w hw
      rcases List.mem_cons.mp hw with rfl | hw
      · exact ⟨n, ih4 _ hg1⟩
      · exact ih2 w hw
    · intro m v hv
      exact ih3 m v (hg2 m v hv)
    · intro p hp
      exact ih4 p (hg3 p hp)
    · intro p hp
      rcases ih5 p hp with hp2 | ⟨hle, hmem⟩
      · rcases hg4 p hp2 with hp3 | ⟨hle, hmem⟩
        · exact Or.inl hp3
        · exact Or.inr ⟨hle, ih6 hmem⟩
      · exact Or.inr ⟨le_trans hg6 hle, hmem⟩

lemma pyNegIdx_some {α : Type} {l : List α} {k : Nat} (h1 : 1 ≤ k) (h2 : k ≤ l.length) :
    ∃ a, pyNegIdx l k = some a := by
  unfold pyNegIdx
  rw [if_pos ⟨h1, h2⟩]
  have hlt : l.length - k < l.length := by omega
  exact ⟨l.get ⟨l.length - k, hlt⟩, List.get?_eq_get hlt⟩

lemma sc_step_spec {c : Circuit} {tbl : List (Str × Wire)} {desc : List Str}
    {c1 : Circuit} {tbl1 : List (Str × Wire)}
    (h : sc_step c tbl desc = .ok (c1, tbl1)) :
    (∃ g, c1.gates = c.gates ++ [g] ∧ pyNegIdx desc 1 = some g.operation ∧
      g.input_wires.length = desc.length - 4 ∧
      (∀ w ∈ gateRefs g, ∃ m, (m, w) ∈ tbl1)) ∧
    (∀ m v, lookupName tbl m = some v → lookupName tbl1 m = some v) ∧
    (∀ p ∈ tbl, p ∈ tbl1) ∧
    (∀ p ∈ tbl1, p ∈ tbl ∨ (c.nextWire ≤ p.2 ∧ p.2 ∈ c1.wires)) ∧
    c.wires ⊆ c1.wires ∧ c.nextWire ≤ c1.nextWire ∧ (c.WF → c1.WF) := by
  cases ho : pyNegIdx desc 2 with
  | none => unfold sc_step at h; rw [ho] at h; simp at h
  | some oname =>
    cases hop : pyNegIdx desc 1 with
    | none => unfold sc_step at h; rw [ho, hop] at h; simp at h
    | some opn =>
      obtain ⟨hr1, hr2, hr3, hr4, hr5, hr6, hr7, hr8, hr9⟩ :=
        resolve_names_spec ((desc.drop 2).take (desc.length - 4)) c tbl
      obtain ⟨hg1, hg2, hg3, hg4, hg5, hg6, hg7, hg8⟩ :=
        sc_get_wire_spec (resolve_names c tbl ((desc.drop 2).take (desc.length - 4))).2.2
          (resolve_names c tbl ((desc.drop 2).take (desc.length - 4))).2.1 oname
      have h' : sc_step c tbl desc =
          .ok ({ (sc_get_wire (resolve_names c tbl
                ((desc.drop 2).take (desc.length - 4))).2.2
              (resolve_names c tbl ((desc.drop 2).take (desc.length - 4))).2.1 oname).2.2 with
            gates := (sc_get_wire (resolve_names c tbl
                ((desc.drop 2).take (desc.length - 4))).2.2
              (resolve_names c tbl ((desc.drop 2).take (desc.length - 4))).2.1 oname).2.2.gates
              ++ [⟨opn, (resolve_names c tbl ((desc.drop 2).take (desc.length - 4))).1,
                (sc_get_wire (resolve_names c tbl
                    ((desc.drop 2).take (desc.length - 4))).2.2
                  (resolve_names c tbl
                    ((desc.drop 2).take (desc.length - 4))).2.1 oname).1⟩] },
            (sc_get_wire (resolve_names c tbl
                ((desc.drop 2).take (desc.length - 4))).2.2
              (resolve_names c tbl ((desc.drop 2).take (desc.length - 4))).2.1 oname).2.1) := by
        unfold sc_step
        rw [ho, hop]
      rw [h'] at h
      simp only [Except.ok.injEq, Prod.mk.injEq] at h
      obtain ⟨hc1, htbl1⟩ := h
      subst hc1
      subst htbl1
      refine ⟨?_, ?_, ?_, ?_, ?_, ?_, ?_⟩
      · refine ⟨⟨opn, (resolve_names c tbl ((desc.drop 2).take (desc.length - 4))).1,
          (sc_get_wire (resolve_names c tbl ((desc.drop 2).take (desc.length - 4))).2.2
            (resolve_names c tbl ((desc.drop 2).take (desc.length - 4))).2.1 oname).1⟩,
          ?_, rfl, ?_, ?_⟩
        · show _ ++ _ = c.gates ++ _
          rw [hg8, hr9]
        · show (resolve_names c tbl ((desc.drop 2).take (desc.length - 4))).1.length = _
          rw [hr1, List.length_take, List.length_drop]
          omega
        · intro w hw
          rcases List.mem_append.mp hw with hw | hw
          · obtain ⟨m, hm⟩ := hr2 w hw
            exact ⟨m, hg3 _ hm⟩
          · rcases List.mem_singleton.mp hw with rfl
            exact ⟨oname, hg1⟩
      · intro m v hv
        exact hg2 m v (hr3 m v hv)
      · intro p hp
        exact hg3 p (hr4 p hp)
      · intro p hp
        rcases hg4 p hp with hp2 | ⟨hle, hmem⟩
        · rcases hr5 p hp2 with hp3 | ⟨hle, hmem⟩
          · exact Or.inl hp3
          · exact Or.inr ⟨hle, hg5 hmem⟩
        · exact Or.inr ⟨le_trans hr7 hle, hmem⟩
      · exact subset_trans hr6 hg5
      · exact le_trans hr7 hg6
      · exact fun hwf => hg7 (hr8 hwf)

end Duplo

namespace Duplo

lemma sc_fold_cons_eq (c : Circuit) (tbl : List (Str × Wire)) (d : List Str)
    (ds : List (List Str)) :
    sc_fold c tbl (d :: ds) =
      match sc_step c tbl d with
      | .error e => .error e
      | .ok (c1, tbl1) => sc_fold c1 tbl1 ds := rfl

lemma sc_fold_spec : ∀ (descs : List (List Str)) (c : Circuit) (tbl : List (Str × Wire))
    (c' : Circuit) (tbl' : List (Str × Wire)),
    sc_fold c tbl descs = .ok (c', tbl') →
    (∃ new, c'.gates = c.gates ++ new ∧ new.length = descs.length ∧
      (∀ j (hj : j < descs.length) (hj' : j < new.length),
        pyNegIdx (descs.get ⟨j, hj⟩) 1 = some (new.get ⟨j, hj'⟩).operation ∧
        (new.get ⟨j, hj'⟩).input_wires.length = (descs.get ⟨j, hj⟩).length - 4) ∧
      (∀ g ∈ new, ∀ w ∈ gateRefs g, ∃ m, (m, w) ∈ tbl')) ∧
    (∀ m v, lookupName tbl m = some v → lookupName tbl' m = some v) ∧
    (∀ p ∈ tbl, p ∈ tbl') ∧
    (∀ p ∈ tbl', p ∈ tbl ∨ (c.nextWire ≤ p.2 ∧ p.2 ∈ c'.wires)) ∧
    c.wires ⊆ c'.wires ∧ c.nextWire ≤ c'.nextWire ∧ (c.WF → c'.WF) := by
  intro descs
  induction descs with
  | nil =>
    intro c tbl c' tbl' h
    simp only [sc_fold, Except.ok.injEq, Prod.mk.injEq] at h
    obtain ⟨rfl, rfl⟩ := h
    exact ⟨⟨[], by simp, rfl, fun j hj _ => by simp at hj, fun g hg => by simp at hg⟩,
      fun m v hv => hv, fun p hp => hp, fun p hp => Or.inl hp,
      Finset.Subset.refl _, Nat.le_refl _, id⟩
  | cons d ds ih =>
    intro c tbl c' tbl' h
    rw [sc_fold_cons_eq] at h
    cases h1 : sc_step c tbl d with
    | error e => simp [h1] at h
    | ok p1 =>
      obtain ⟨c1, tbl1⟩ := p1
      simp only [h1] at h
      obtain ⟨⟨g, hg_gates, hg_op, hg_len, hg_refs⟩, hs2, hs3, hs4, hs5, hs6, hs7⟩ :=
        sc_step_spec h1
      obtain ⟨⟨new, hn_gates, hn_len, hn_idx, hn_refs⟩, hf2, hf3, hf4, hf5, hf6, hf7⟩ :=
        ih c1 tbl1 c' tbl' h
      refine ⟨⟨g :: new, ?_, by simp [hn_len], ?_, ?_⟩, ?_, ?_, ?_, ?_, ?_, ?_⟩
      · rw [hn_gates, hg_gates]
        simp
      · intro j hj hj'
        cases j with
        | zero => exact ⟨hg_op, hg_len⟩
        | succ j =>
          have hj2 : j < ds.length := by simpa using hj
          have hj2' : j < new.length := by simpa using hj'
          exact hn_idx j hj2 hj2'
      · intro g0 hg0 w hw
        rcases List.mem_cons.mp hg0 with rfl | hg0
        · obtain ⟨m, hm⟩ := hg_refs w hw
          exact ⟨m, hf3 _ hm⟩
        · exact hn_refs g0 hg0 w hw
      · intro m v hv
        exact hf2 m v (hs2 m v hv)
      · intro p hp
        exact hf3 p (hs3 p hp)
      · intro p hp
        rcases hf4 p hp with hp2 | ⟨hle, hmem⟩
        · rcases hs4 p hp2 with hp3 | ⟨hle, hmem⟩
          · exact Or.inl hp3
          · exact Or.inr ⟨hle, hf5 hmem⟩
        · exact Or.inr ⟨le_trans hs6 hle, hmem⟩
      · exact subset_trans hs5 hf5
      · exact le_trans hs6 hf6
      · exact fun hwf => hf7 (hs7 hwf)

lemma sc_step_ok_of_len {c : Circuit} {tbl : List (Str × Wire)} {desc : List Str}
    (hlen : 2 ≤ desc.length) : ∃ c1 tbl1, sc_step c tbl desc = .ok (c1, tbl1) ∧
      c1.gates.length = c.gates.length + 1 := by
  obtain ⟨oname, ho⟩ := pyNegIdx_some (l := desc) (k := 2) (by omega) hlen
  obtain ⟨opn, hop⟩ := pyNegIdx_some (l := desc) (k := 1) (by omega) (by omega)
  have h' : ∃ c1 tbl1, sc_step c tbl desc = .ok (c1, tbl1) := by
    unfold sc_step
    rw [ho, hop]
    exact ⟨_, _, rfl⟩
  obtain ⟨c1, tbl1, h1⟩ := h'
  obtain ⟨⟨g, hg, _, _, _⟩, _⟩ := sc_step_spec h1
  exact ⟨c1, tbl1, h1, by rw [hg]; simp⟩

lemma sc_fold_ok_of_len : ∀ (descs : List (List Str)) (c : Circuit) (tbl : List (Str × Wire)),
    (∀ d ∈ descs, 2 ≤ d.length) →
    ∃ c' tbl', sc_fold c tbl descs = .ok (c', tbl') ∧
      c'.gates.length = c.gates.length + descs.length := by
  intro descs
  induction descs with
  | nil => intro c tbl _; exact ⟨c, tbl, rfl, by simp⟩
  | cons d ds ih =>
    intro c tbl hlen
    obtain ⟨c1, tbl1, h1, hc1⟩ := @sc_step_ok_of_len c tbl d
      (hlen d (List.mem_cons_self _ _))
    obtain ⟨c', tbl', h2, hc2⟩ := ih c1 tbl1 (fun d0 hd => hlen d0 (List.mem_cons_of_mem _ hd))
    refine ⟨c', tbl', ?_, ?_⟩
    · rw [sc_fold_cons_eq, h1]
      exact h2
    · rw [hc2, hc1]
      simp [Nat.add_assoc, Nat.add_comm 1 ds.length]

/-! ## Lemmas: the initial symbolic-index table -/

lemma add_enum_mem : ∀ (ws : List Wire) (f : Nat → Int) (i : Nat)
    (tbl : List (Str × Wire)) (p), p ∈ add_enum f ws i tbl → p ∈ tbl ∨ p.2 ∈ ws := by
  intro ws
  induction ws with
  | nil => intro f i tbl p hp; exact Or.inl hp
  | cons w ws ih =>
    intro f i tbl p hp
    rcases ih f (i + 1) _ p hp with hp2 | hp2
    · rcases List.mem_cons.mp hp2 with rfl | hp3
      · exact Or.inr (List.mem_cons_self _ _)
      · exact Or.inl hp3
    · exact Or.inr (List.mem_cons_of_mem _ hp2)

lemma add_enum_lookup_miss {f : Nat → Int} : ∀ (ws : List Wire) (i : Nat)
    (tbl : List (Str × Wire)) (k : Str),
    (∀ j, j < ws.length → k ≠ renderInt (f (i + j))) →
    lookupName (add_enum f ws i tbl) k = lookupName tbl k := by
  intro ws
  induction ws with
  | nil => intro i tbl k _; rfl
  | cons w ws ih =>
    intro i tbl k hk
    show lookupName (add_enum f ws (i + 1) ((renderInt (f i), w) :: tbl)) k = _
    rw [ih (i + 1) _ k (fun j hj => by
      have := hk (j + 1) (by simpa using hj)
      rwa [show i + (j + 1) = i + 1 + j by omega] at this)]
    rw [lookupName_cons, if_neg ?_]
    intro hh
    exact hk 0 (by simp) (by rw [Nat.add_zero]; exact hh.symm)

lemma add_enum_lookup_hit {f : Nat → Int} (hinj : ∀ a b, f a = f b → a = b) :
    ∀ (ws : List Wire) (i : Nat) (tbl : List (Str × Wire)) (j : Nat) (hj : j < ws.length),
    lookupName (add_enum f ws i tbl) (renderInt (f (i + j))) = some (ws.get ⟨j, hj⟩) := by
  intro ws
  induction ws with
  | nil => intro i tbl j hj; simp at hj
  | cons w ws ih =>
    intro i tbl j hj
    cases j with
    | zero =>
      show lookupName (add_enum f ws (i + 1) ((renderInt (f i), w) :: tbl)) _ = _
      rw [add_enum_lookup_miss ws (i + 1) _ _ (fun j hj hh => by
        have heq := renderInt_inj hh
        have := hinj _ _ heq
        omega)]
      rw [show i + 0 = i by omega, lookupName_cons, if_pos rfl]
      simp
    | succ j =>
      have hj2 : j < ws.length := by simpa using hj
      show lookupName (add_enum f ws (i + 1) ((renderInt (f i), w) :: tbl)) _ = _
      rw [show i + (j + 1) = (i + 1) + j by omega]
      rw [ih (i + 1) _ j hj2]
      simp

end Duplo

namespace Duplo

lemma init_table_out {p : BristolCircuit} {ins0 ins1 out : List Wire} :
    ∀ j (hj : j < out.length),
    lookupName (init_table p ins0 ins1 out)
      (renderInt (p.wire_count - (out.length : Int) + (j : Int))) = some (out.get ⟨j, hj⟩) := by
  intro j hj
  unfold init_table
  have h := add_enum_lookup_hit (f := fun i => p.wire_count - (out.length : Int) + (i : Int))
    (fun a b hab => by simp only [] at hab; omega) out 0
    (add_enum (fun i => p.left_input_wire_count + (i : Int)) ins1 0
      (add_enum (fun i => ((i : Nat) : Int)) ins0 0 [])) j hj
  rw [Nat.zero_add] at h
  exact h

lemma init_table_right {p : BristolCircuit} {ins0 ins1 out : List Wire}
    (hR : (ins1.length : Int) = p.right_input_wire_count)
    (hsep : p.left_input_wire_count + p.right_input_wire_count + (out.length : Int) ≤
      p.wire_count) :
    ∀ i (hi : i < ins1.length),
    lookupName (init_table p ins0 ins1 out)
      (renderInt (p.left_input_wire_count + (i : Int))) = some (ins1.get ⟨i, hi⟩) := by
  intro i hi
  unfold init_table
  rw [add_enum_lookup_miss out 0 _ _ ?_]
  · have h := add_enum_lookup_hit (f := fun i => p.left_input_wire_count + (i : Int))
      (fun a b hab => by simp only [] at hab; omega) ins1 0
      (add_enum (fun i => ((i : Nat) : Int)) ins0 0 []) i hi
    rw [Nat.zero_add] at h
    exact h
  · intro j hj hh
    have heq := renderInt_inj hh
    simp only [] at heq
    have hiR : (i : Int) < p.right_input_wire_count := by
      rw [← hR]
      exact_mod_cast hi
    omega

lemma init_table_left {p : BristolCircuit} {ins0 ins1 out : List Wire}
    (hL : (ins0.length : Int) = p.left_input_wire_count)
    (hsep : p.left_input_wire_count + p.right_input_wire_count + (out.length : Int) ≤
      p.wire_count)
    (hRpos : 0 ≤ p.right_input_wire_count) :
    ∀ i (hi : i < ins0.length),
    lookupName (init_table p ins0 ins1 out) (renderInt ((i : Int))) =
      some (ins0.get ⟨i, hi⟩) := by
  intro i hi
  have hiL : (i : Int) < p.left_input_wire_count := by
    rw [← hL]
    exact_mod_cast hi
  unfold init_table
  rw [add_enum_lookup_miss out 0 _ _ ?_]
  · rw [add_enum_lookup_miss ins1 0 _ _ ?_]
    · have h := add_enum_lookup_hit (f := fun i => ((i : Nat) : Int))
        (fun a b hab => by simp only [] at hab; omega) ins0 0 ([]) i hi
      rw [Nat.zero_add] at h
      exact h
    · intro j hj hh
      have heq := renderInt_inj hh
      simp only [] at heq
      omega
  · intro j hj hh
    have heq := renderInt_inj hh
    simp only [] at heq
    omega

lemma Subcircuit_init_eq (p : BristolCircuit) (c : Circuit) (specs : List Spec) :
    Subcircuit_init p c specs =
      match component_init c specs [p.left_input_wire_count, p.right_input_wire_count]
          p.output_wire_count with
      | .error e => .error e
      | .ok (inputs, out, c1) =>
        match inputs with
        | [ins0, ins1] =>
          match sc_fold c1 (init_table p ins0 ins1 out) p.gate_descriptions with
          | .error e => .error e
          | .ok (c2, _) => .ok (out, c2)
        | _ => .error "IndexError" := rfl

lemma Subcircuit_init_ok {p : BristolCircuit} {c : Circuit} {specs : List Spec}
    {outR : List Wire} {cfin : Circuit}
    (h : Subcircuit_init p c specs = .ok (outR, cfin)) :
    ∃ ins0 ins1 c2 tbl',
      component_init c specs [p.left_input_wire_count, p.right_input_wire_count]
        p.output_wire_count = .ok ([ins0, ins1], outR, c2) ∧
      sc_fold c2 (init_table p ins0 ins1 outR) p.gate_descriptions = .ok (cfin, tbl') := by
  rw [Subcircuit_init_eq] at h
  cases h1 : component_init c specs [p.left_input_wire_count, p.right_input_wire_count]
      p.output_wire_count with
  | error e => simp [h1] at h
  | ok q =>
    obtain ⟨inputs, out, c1⟩ := q
    simp only [h1] at h
    match inputs with
    | [] => simp at h
    | [a] => simp at h
    | a :: b :: d :: rest => simp at h
    | [ins0, ins1] =>
      simp only [] at h
      cases h2 : sc_fold c1 (init_table p ins0 ins1 out) p.gate_descriptions with
      | error e => simp [h2] at h
      | ok q2 =>
        obtain ⟨c2, tbl'⟩ := q2
        simp only [h2, Except.ok.injEq, Prod.mk.injEq] at h
        obtain ⟨rfl, rfl⟩ := h
        exact ⟨ins0, ins1, c1, tbl', by simp [h1], by simp [h2]⟩

end Duplo

namespace Duplo

/-! ## Lemmas: tokenization of rendered gate lines -/

lemma joinSep_single (sep : Str) (s : Str) : joinSep sep [s] = s := rfl

lemma mem_joinSep {sep : Str} {c : Char} : ∀ {l : List Str}, c ∈ joinSep sep l →
    c ∈ sep ∨ ∃ s ∈ l, c ∈ s := by
  intro l
  induction l with
  | nil => intro h; simp [joinSep] at h
  | cons x xs ih =>
    intro h
    rcases xs with _ | ⟨y, ys⟩
    · exact Or.inr ⟨x, by simp, h⟩
    · rw [joinSep_cons_cons] at h
      rcases List.mem_append.mp h with h | h
      · rcases List.mem_append.mp h with h | h
        · exact Or.inr ⟨x, by simp, h⟩
        · exact Or.inl h
      · rcases ih h with h | ⟨s, hs, hcs⟩
        · exact Or.inl h
        · exact Or.inr ⟨s, List.mem_cons_of_mem _ hs, hcs⟩

lemma gate_line_no_nl {g : Gate} (ids : List Int) (oid : Int)
    (hop : ∀ ch ∈ g.operation, ch ≠ '\n') :
    ('\n' : Char) ∉ gate_line g ids oid := by
  intro h
  unfold gate_line at h
  rcases List.mem_append.mp h with h | h
  · rcases List.mem_append.mp h with h | h
    · rcases List.mem_append.mp h with h | h
      · rcases List.mem_append.mp h with h | h
        · exact renderNat_no_nl h
        · rcases List.mem_cons.mp h with h | h
          · exact absurd h (by decide)
          · exact renderNat_no_nl h
      · rcases List.mem_cons.mp h with h | h
        · exact absurd h (by decide)
        · rcases mem_joinSep h with h | ⟨s, hs, hcs⟩
          · exact absurd h (by decide)
          · obtain ⟨i, _, rfl⟩ := List.mem_map.mp hs
            exact renderInt_ne_nl hcs rfl
    · rcases List.mem_cons.mp h with h | h
      · exact absurd h (by decide)
      · exact renderInt_ne_nl h rfl
  · rcases List.mem_cons.mp h with h | h
    · exact absurd h (by decide)
    · exact hop _ h rfl

lemma gate_line_nonblank (g : Gate) (ids : List Int) (oid : Int) :
    pyStrip (gate_line g ids oid) ≠ [] := by
  obtain ⟨ch, hch⟩ := List.exists_mem_of_ne_nil _ (renderNat_ne_nil g.input_wires.length)
  have hmem : ch ∈ gate_line g ids oid := by
    unfold gate_line
    exact List.mem_append_left _ (List.mem_append_left _ (List.mem_append_left _
      (List.mem_append_left _ hch)))
  exact pyStrip_ne_nil hmem (decDigit_not_space (renderNat_mem hch))

lemma gate_line_tokens (g : Gate) (ids : List Int) (oid : Int) :
    splitWs (gate_line g ids oid) =
      renderNat g.input_wires.length :: renderNat 1 ::
        splitWs (joinSep [' '] (ids.map renderInt) ++
          ' ' :: renderInt oid ++ ' ' :: g.operation) := by
  have e : gate_line g ids oid =
      renderNat g.input_wires.length ++ ' ' :: (renderNat 1 ++ ' ' ::
        (joinSep [' '] (ids.map renderInt) ++ ' ' :: renderInt oid ++ ' ' :: g.operation)) := by
    unfold gate_line
    simp [List.append_assoc]
  rw [e,
    splitWs_token_cons (renderNat_ne_nil _) (fun c hc => decDigit_not_space (renderNat_mem hc)),
    splitWs_token_cons (renderNat_ne_nil _) (fun c hc => decDigit_not_space (renderNat_mem hc))]

lemma gate_line_tokens_len (g : Gate) (ids : List Int) (oid : Int) :
    2 ≤ (splitWs (gate_line g ids oid)).length := by
  rw [gate_line_tokens]
  simp only [List.length_cons]
  omega

end Duplo

namespace Duplo

/-! ## Lemmas: parsing the rendered description -/

lemma bristol_parse_eq (text : Str) :
    bristol_parse text =
      match parse_ints (splitWs ((splitChar '\n' text).getD 0 [])),
            parse_ints (splitWs ((splitChar '\n' text).getD 1 [])) with
      | some [g, w], some [l, r, o] =>
        if (((((splitChar '\n' text).drop 2).filter
              (fun s => !(pyStrip s).isEmpty)).map splitWs).length : Int) = g then
          .ok ⟨g, w, l, r, o, (((splitChar '\n' text).drop 2).filter
            (fun s => !(pyStrip s).isEmpty)).map splitWs⟩
        else .error "AssertionError: Bad gate count."
      | some _, some _ => .error "ValueError: unpack"
      | _, _ => .error "ValueError: invalid literal for int" := rfl

lemma parse_ints_two (a b : Nat) :
    parse_ints [renderNat a, renderNat b] = some [(a : Int), (b : Int)] := by
  simp [parse_ints, pyInt_renderNat]

lemma parse_ints_three (a b c : Nat) :
    parse_ints [renderNat a, renderNat b, renderNat c] =
      some [(a : Int), (b : Int), (c : Int)] := by
  simp [parse_ints, pyInt_renderNat]

lemma header_line_two (a b : Nat) :
    splitWs (renderNat a ++ ' ' :: renderNat b) = [renderNat a, renderNat b] := by
  rw [splitWs_token_cons (renderNat_ne_nil _)
      (fun c hc => decDigit_not_space (renderNat_mem hc)),
    splitWs_single (renderNat_ne_nil _) (fun c hc => decDigit_not_space (renderNat_mem hc))]

lemma header_line_three (a b c : Nat) :
    splitWs (renderNat a ++ ' ' :: renderNat b ++ ' ' :: renderNat c) =
      [renderNat a, renderNat b, renderNat c] := by
  have e : renderNat a ++ ' ' :: renderNat b ++ ' ' :: renderNat c =
      renderNat a ++ ' ' :: (renderNat b ++ ' ' :: renderNat c) := by simp
  rw [e, splitWs_token_cons (renderNat_ne_nil _)
      (fun c hc => decDigit_not_space (renderNat_mem hc)),
    header_line_two]

lemma bristol_parse_render {lines : List Str} (G T L R O : Nat)
    (hnl : ∀ l ∈ lines, ('\n' : Char) ∉ l)
    (hnb : ∀ l ∈ lines, pyStrip l ≠ [])
    (hG : lines.length = G) :
    bristol_parse (renderNat G ++ ' ' :: renderNat T ++ '\n' ::
        (renderNat L ++ ' ' :: renderNat R ++ ' ' :: renderNat O) ++
        '\n' :: '\n' :: (joinSep ['\n'] lines ++ ['\n'])) =
      .ok ⟨(G : Int), (T : Int), (L : Int), (R : Int), (O : Int), lines.map splitWs⟩ := by
  rw [bristol_parse_eq, header_split]
  by_cases hemp : lines = []
  · subst hemp
    simp only [List.length_nil] at hG
    subst hG
    show (match parse_ints (splitWs (renderNat 0 ++ ' ' :: renderNat T)),
        parse_ints (splitWs (renderNat L ++ ' ' :: renderNat R ++ ' ' :: renderNat O)) with
      | some [g, w], some [l, r, o] => _ | some _, some _ => _ | _, _ => _) = _
    rw [header_line_two, header_line_three, parse_ints_two, parse_ints_three]
    show (if ((((([] : Str) :: splitChar '\n' (joinSep ['\n'] ([] : List Str) ++ ['\n'])).filter
        (fun s => !(pyStrip s).isEmpty)).map splitWs).length : Int) = ((0 : Nat) : Int)
      then _ else _) = _
    norm_num
    rfl
  · rw [splitChar_joinSep_terminated hemp hnl]
    show (match parse_ints (splitWs (renderNat G ++ ' ' :: renderNat T)),
        parse_ints (splitWs (renderNat L ++ ' ' :: renderNat R ++ ' ' :: renderNat O)) with
      | some [g, w], some [l, r, o] => _ | some _, some _ => _ | _, _ => _) = _
    rw [header_line_two, header_line_three, parse_ints_two, parse_ints_three]
    have hfilter : (([] :: (lines ++ [[]])).filter (fun s => !(pyStrip s).isEmpty)) = lines := by
      rw [List.filter_cons_of_neg (by simp [pyStrip]), List.filter_append,
        List.filter_cons_of_neg (by simp [pyStrip]), List.filter_nil, List.append_nil,
        List.filter_eq_self.mpr]
      intro l hl
      simp only [Bool.not_eq_true']
      rw [List.isEmpty_eq_false_iff_exists_mem]
      obtain ⟨ch, hch⟩ := List.exists_mem_of_ne_nil _ (hnb l hl)
      exact ⟨ch, hch⟩
    show (if (((([] :: (lines ++ [[]])).filter (fun s => !(pyStrip s).isEmpty)).map
        splitWs).length : Int) = ((G : Nat) : Int)
      then Except.ok (⟨((G : Nat) : Int), ((T : Nat) : Int), ((L : Nat) : Int), ((R : Nat) : Int),
        ((O : Nat) : Int), (([] :: (lines ++ [[]])).filter
          (fun s => !(pyStrip s).isEmpty)).map splitWs⟩ : BristolCircuit)
      else Except.error "AssertionError: Bad gate count.") = _
    rw [hfilter, if_pos (by rw [List.length_map, hG])]

end Duplo

namespace Duplo

lemma nr_parse {wires : Finset Nat} {lw rw ow : List Wire} {gates : List Gate}
    {text : Str} {st : NumSt}
    (hall : (lw ++ rw ++ ow).Nodup)
    (hmem : ∀ w ∈ lw ++ rw ++ ow, w ∈ wires)
    (hops : ∀ g ∈ gates, g.operation ≠ [] ∧
      ∀ ch ∈ g.operation, isPySpace ch = false ∧ ch ≠ '\n')
    (h : number_and_render wires lw rw ow gates = .ok (text, st)) :
    ∃ descs, bristol_parse text = .ok ⟨(gates.length : Int), (wires.card : Int),
        (lw.length : Int), (rw.length : Int), (ow.length : Int), descs⟩ ∧
      descs.length = gates.length ∧ ∀ d ∈ descs, 2 ≤ d.length := by
  obtain ⟨inv, hcard, lines, hlen, htext, hidx⟩ := nr_master hall hmem h
  have hline : ∀ l ∈ lines, ∃ g ids oid, g ∈ gates ∧ l = gate_line g ids oid := by
    intro l hl
    obtain ⟨⟨j, hj'⟩, hget⟩ := List.mem_iff_get.mp hl
    have hj : j < gates.length := by rw [← hlen]; exact hj'
    obtain ⟨ids, oid, _, _, _, hgl⟩ := hidx j hj hj'
    exact ⟨gates.get ⟨j, hj⟩, ids, oid, List.get_mem _ _ _, by rw [← hget, hgl]⟩
  subst htext
  refine ⟨lines.map splitWs, ?_, by simp [hlen], ?_⟩
  · exact bristol_parse_render gates.length wires.card lw.length rw.length ow.length
      (fun l hl => by
        obtain ⟨g, ids, oid, hg, rfl⟩ := hline l hl
        exact gate_line_no_nl ids oid (fun ch hch => ((hops g hg).2 ch hch).2))
      (fun l hl => by
        obtain ⟨g, ids, oid, hg, rfl⟩ := hline l hl
        exact gate_line_nonblank g ids oid)
      hlen
  · intro d hd
    obtain ⟨l, hl, rfl⟩ := List.mem_map.mp hd
    obtain ⟨g, ids, oid, hg, rfl⟩ := hline l hl
    exact gate_line_tokens_len g ids oid

end Duplo

namespace Duplo

/-! ## Lemmas: totality of the numbering walk on member wires, and failure on
non-member wires -/

lemma wire_num_total {wires : Finset Nat} {w : Wire} (st : NumSt) (h : w ∈ wires) :
    ∃ k st', wire_num wires st w = .ok (k, st') := by
  unfold wire_num
  rw [if_pos h]
  cases numLookup st.numbers w <;> exact ⟨_, _, rfl⟩

lemma number_list_total {wires : Finset Nat} : ∀ (ws : List Wire) (st : NumSt),
    (∀ w ∈ ws, w ∈ wires) → ∃ st', number_list wires st ws = .ok st' := by
  intro ws
  induction ws with
  | nil => exact fun st _ => ⟨st, rfl⟩
  | cons w ws ih =>
    intro st hmem
    obtain ⟨k, st1, h1⟩ := wire_num_total st (hmem w (List.mem_cons_self _ _))
    obtain ⟨st', h2⟩ := ih st1 (fun v hv => hmem v (List.mem_cons_of_mem _ hv))
    refine ⟨st', ?_⟩
    rw [number_list_cons_eq, h1]
    exact h2

lemma number_all_total {wires : Finset Nat} : ∀ (ws : List Wire) (st : NumSt),
    (∀ w ∈ ws, w ∈ wires) → ∃ ids st', number_all wires st ws = .ok (ids, st') := by
  intro ws
  induction ws with
  | nil => exact fun st _ => ⟨[], st, rfl⟩
  | cons w ws ih =>
    intro st hmem
    obtain ⟨k, st1, h1⟩ := wire_num_total st (hmem w (List.mem_cons_self _ _))
    obtain ⟨ids, st', h2⟩ := ih st1 (fun v hv => hmem v (List.mem_cons_of_mem _ hv))
    refine ⟨k :: ids, st', ?_⟩
    rw [number_all_cons_eq, h1]
    simp only [h2]

lemma gate_build_total {wires : Finset Nat} {g : Gate} (st : NumSt)
    (hmem : ∀ w ∈ gateRefs g, w ∈ wires) :
    ∃ line st', Gate.build wires st g = .ok (line, st') := by
  obtain ⟨ids, st1, h1⟩ := number_all_total g.input_wires st
    (fun w hw => hmem w (List.mem_append_left _ hw))
  obtain ⟨k, st2, h2⟩ := wire_num_total st1
    (hmem g.output_wire (List.mem_append_right _ (List.mem_singleton_self _)))
  refine ⟨gate_line g ids k, st2, ?_⟩
  rw [gate_build_eq, h1]
  simp only [h2]

lemma build_lines_total {wires : Finset Nat} : ∀ (gs : List Gate) (st : NumSt),
    (∀ g ∈ gs, ∀ w ∈ gateRefs g, w ∈ wires) →
    ∃ lines st', build_lines wires st gs = .ok (lines, st') := by
  intro gs
  induction gs with
  | nil => exact fun st _ => ⟨[], st, rfl⟩
  | cons g gs ih =>
    intro st hmem
    obtain ⟨line, st1, h1⟩ := gate_build_total st (hmem g (List.mem_cons_self _ _))
    obtain ⟨lines, st', h2⟩ := ih st1 (fun g0 hg => hmem g0 (List.mem_cons_of_mem _ hg))
    refine ⟨line :: lines, st', ?_⟩
    rw [build_lines_cons_eq, h1]
    simp only [h2]

lemma nr_total {wires : Finset Nat} {lw rw ow : List Wire} {gates : List Gate}
    (hlw : ∀ w ∈ lw, w ∈ wires) (hrw : ∀ w ∈ rw, w ∈ wires)
    (hg : ∀ g ∈ gates, ∀ w ∈ gateRefs g, w ∈ wires) :
    ∃ text st, number_and_render wires lw rw ow gates = .ok (text, st) := by
  obtain ⟨st1, h1⟩ := number_list_total lw ⟨[], 0⟩ hlw
  obtain ⟨st2, h2⟩ := number_list_total rw st1 hrw
  obtain ⟨lines, st4, h3⟩ := build_lines_total gates
    ⟨assignOutsAux ((wires.card : Int) - (ow.length : Int)) 0 ow st2.numbers, st2.counter⟩ hg
  refine ⟨renderNat gates.length ++ ' ' :: renderNat wires.card ++ '\n' ::
    (renderNat lw.length ++ ' ' :: renderNat rw.length ++ ' ' :: renderNat ow.length) ++
    '\n' :: '\n' :: (joinSep ['\n'] lines ++ ['\n']), st4, ?_⟩
  rw [nr_eq, h1]
  simp only [h2, h3]

lemma number_list_err {wires : Finset Nat} {w : Wire} (hw : w ∉ wires) :
    ∀ (ws : List Wire) (st : NumSt), w ∈ ws →
    ∃ e, number_list wires st ws = .error e := by
  intro ws
  induction ws with
  | nil => intro st h; simp at h
  | cons v ws ih =>
    intro st h
    rw [number_list_cons_eq]
    rcases List.mem_cons.mp h with rfl | h
    · rw [wire_num_not_mem hw]
      exact ⟨_, rfl⟩
    · cases h1 : wire_num wires st v with
      | error e => exact ⟨e, rfl⟩
      | ok p =>
        obtain ⟨e, he⟩ := ih p.2 h
        refine ⟨e, ?_⟩
        simp only []
        exact he

lemma number_all_err {wires : Finset Nat} {w : Wire} (hw : w ∉ wires) :
    ∀ (ws : List Wire) (st : NumSt), w ∈ ws →
    ∃ e, number_all wires st ws = .error e := by
  intro ws
  induction ws with
  | nil => intro st h; simp at h
  | cons v ws ih =>
    intro st h
    rw [number_all_cons_eq]
    rcases List.mem_cons.mp h with rfl | h
    · rw [wire_num_not_mem hw]
      exact ⟨_, rfl⟩
    · cases h1 : wire_num wires st v with
      | error e => exact ⟨e, rfl⟩
      | ok p =>
        obtain ⟨e, he⟩ := ih p.2 h
        refine ⟨e, ?_⟩
        simp only [he]

lemma gate_build_err {wires : Finset Nat} {g : Gate} {w : Wire} (hw : w ∉ wires)
    (hmem : w ∈ gateRefs g) (st : NumSt) : ∃ e, Gate.build wires st g = .error e := by
  rw [gate_build_eq]
  rcases List.mem_append.mp hmem with hm | hm
  · obtain ⟨e, he⟩ := number_all_err hw g.input_wires st hm
    rw [he]
    exact ⟨e, rfl⟩
  · rcases List.mem_singleton.mp hm with rfl
    cases h1 : number_all wires st g.input_wires with
    | error e => exact ⟨e, rfl⟩
    | ok p =>
      obtain ⟨ids, st1⟩ := p
      simp only []
      rw [wire_num_not_mem hw]
      exact ⟨_, rfl⟩

lemma build_lines_err {wires : Finset Nat} {g : Gate} {w : Wire} (hw : w ∉ wires)
    (hmem : w ∈ gateRefs g) : ∀ (gs : List Gate) (st : NumSt), g ∈ gs →
    ∃ e, build_lines wires st gs = .error e := by
  intro gs
  induction gs with
  | nil => intro st h; simp at h
  | cons g0 gs ih =>
    intro st h
    rw [build_lines_cons_eq]
    rcases List.mem_cons.mp h with rfl | h
    · obtain ⟨e, he⟩ := gate_build_err hw hmem st
      rw [he]
      exact ⟨e, rfl⟩
    · cases h1 : Gate.build wires st g0 with
      | error e => exact ⟨e, rfl⟩
      | ok p =>
        obtain ⟨e, he⟩ := ih p.2 h
        refine ⟨e, ?_⟩
        simp only [he]

lemma nr_err {wires : Finset Nat} {lw rw ow : List Wire} {gates : List Gate} {w : Wire}
    (hw : w ∉ wires)
    (hocc : w ∈ lw ∨ w ∈ rw ∨ ∃ g ∈ gates, w ∈ gateRefs g) :
    ∃ e, number_and_render wires lw rw ow gates = .error e := by
  rw [nr_eq]
  rcases hocc with hm | hm | ⟨g, hg, hm⟩
  · obtain ⟨e, he⟩ := number_list_err hw lw ⟨[], 0⟩ hm
    rw [he]
    exact ⟨e, rfl⟩
  · cases h1 : number_list wires ⟨[], 0⟩ lw with
    | error e => exact ⟨e, rfl⟩
    | ok st1 =>
      simp only []
      obtain ⟨e, he⟩ := number_list_err hw rw st1 hm
      rw [he]
      exact ⟨e, rfl⟩
  · cases h1 : number_list wires ⟨[], 0⟩ lw with
    | error e => exact ⟨e, rfl⟩
    | ok st1 =>
      simp only []
      cases h2 : number_list wires st1 rw with
      | error e => exact ⟨e, rfl⟩
      | ok st2 =>
        simp only []
        obtain ⟨e, he⟩ := build_lines_err hw hm gates
          ⟨assignOutsAux ((wires.card : Int) - (ow.length : Int)) 0 ow st2.numbers,
            st2.counter⟩ hg
        rw [he]
        exact ⟨e, rfl⟩

end Duplo

namespace Duplo

/-- The effect of a successful shared `Component.__init__`: the circuit only
grows (no gate is added), the output list has the declared size, and its
wires are fresh. -/
lemma component_init_step {c : Circuit} {specs : List Spec} {szs : List Int} {o : Int}
    {ins : List (List Wire)} {out : List Wire} {c2 : Circuit}
    (h : component_init c specs szs o = .ok (ins, out, c2)) :
    Step c c2 ∧ out.length = o.toNat ∧ (∀ w ∈ out, c.nextWire ≤ w) ∧
      ins.length = szs.length ∧
      ((ins.zip szs).all fun p => ((p.1.length : Int) == p.2)) = true := by
  obtain ⟨c1, hconv, hlen, hwid, hout, hc2⟩ := component_init_ok h
  obtain ⟨S1, _⟩ := convert_inputs_spec specs c ins c1 hconv
  obtain ⟨hr, hn, hS, hwires⟩ := alloc_wires_spec o.toNat c1
  subst hout
  subst hc2
  refine ⟨S1.chain hS, by rw [hr]; simp, ?_, hlen, hwid⟩
  intro w hw
  rw [hr] at hw
  have := List.mem_range'_1.mp hw
  have hle := S1.2.2.2.1
  omega

end Duplo

namespace Duplo

lemma mem_gatesRefs {g : Gate} : ∀ {gs : List Gate}, g ∈ gs → ∀ w ∈ gateRefs g,
    w ∈ gatesRefs gs := by
  intro gs
  induction gs with
  | nil => intro h; simp at h
  | cons g0 gs ih =>
    intro h w hw
    rw [gatesRefs_cons]
    rcases List.mem_cons.mp h with rfl | h
    · exact List.mem_append_left _ hw
    · exact List.mem_append_right _ (ih h w hw)

end Duplo

namespace Duplo

/-! ## The claims -/

/-- C9: named-wire lookup is idempotent: a second `get_wire(name)` call on the
circuit returned by the first returns the identical wire and leaves the
circuit (wire set, name registry, gates, allocation cursor) unchanged. -/
theorem C9_get_wire_idempotent (c : Circuit) (n : Str) :
    (c.get_wire (some n)).2.get_wire (some n) =
      ((c.get_wire (some n)).1, (c.get_wire (some n)).2) :=
  get_wire_found (get_wire_binds c n)

/-- C10: although `build_description` may mutate the circuit (converting the
specifications can allocate and register new wires), calling it a second time
on the resulting circuit with the same arguments returns the identical
description text (and the identical circuit). -/
theorem C10_build_description_idempotent {c c1 c2 c3 : Circuit} {li ri outs : Spec}
    {lw rw ow : List Wire} {text : Str} {st : NumSt}
    (hl : c.convert_to_wires li = .ok (lw, c1))
    (hr : c1.convert_to_wires ri = .ok (rw, c2))
    (ho : c2.convert_to_wires outs = .ok (ow, c3))
    (hnr : number_and_render c3.wires lw rw ow c3.gates = .ok (text, st)) :
    c.build_description li ri outs = .ok (text, c3) ∧
    c3.build_description li ri outs = .ok (text, c3) := by
  obtain ⟨S1, stab1⟩ := convert_spec c li lw c1 hl
  obtain ⟨S2, stab2⟩ := convert_spec c1 ri rw c2 hr
  obtain ⟨S3, stab3⟩ := convert_spec c2 outs ow c3 ho
  refine ⟨build_description_ok_of hl hr ho hnr, ?_⟩
  exact build_description_ok_of (stab1 c3 (Ext.comp S2.1 S3.1)) (stab2 c3 S3.1)
    (stab3 c3 (fun _ _ h => h)) hnr

theorem C10_witness :
    Circuit.empty.build_description (.str "a".toList) (.str "b".toList) (.str "c".toList) =
      .ok ("0 3\n1 1 1\n\n\n".toList, ⟨3, insert 2 (insert 1 (insert 0 ∅)),
        [("c".toList, 2), ("b".toList, 1), ("a".toList, 0)], []⟩) ∧
    (⟨3, insert 2 (insert 1 (insert 0 ∅)),
        [("c".toList, 2), ("b".toList, 1), ("a".toList, 0)], []⟩ :
        Circuit).build_description (.str "a".toList) (.str "b".toList) (.str "c".toList) =
      .ok ("0 3\n1 1 1\n\n\n".toList, ⟨3, insert 2 (insert 1 (insert 0 ∅)),
        [("c".toList, 2), ("b".toList, 1), ("a".toList, 0)], []⟩) := by
  have hl : Circuit.empty.convert_to_wires (Spec.str "a".toList) =
      .ok ([0], (⟨1, insert 0 ∅, [("a".toList, 0)], []⟩ : Circuit)) := by rfl
  have hr : (⟨1, insert 0 ∅, [("a".toList, 0)], []⟩ : Circuit).convert_to_wires
      (Spec.str "b".toList) = .ok ([1], ⟨2, insert 1 (insert 0 ∅),
        [("b".toList, 1), ("a".toList, 0)], []⟩) := by rfl
  have ho : (⟨2, insert 1 (insert 0 ∅), [("b".toList, 1), ("a".toList, 0)], []⟩ :
      Circuit).convert_to_wires (Spec.str "c".toList) = .ok ([2], ⟨3,
        insert 2 (insert 1 (insert 0 ∅)),
        [("c".toList, 2), ("b".toList, 1), ("a".toList, 0)], []⟩) := by rfl
  have hnr : number_and_render (insert 2 (insert 1 (insert 0 (∅ : Finset Nat))))
      [0] [1] [2] [] = .ok ("0 3\n1 1 1\n\n\n".toList,
        ⟨[(2, 2), (1, 1), (0, 0)], 2⟩) := by rfl
  exact C10_build_description_idempotent hl hr ho hnr

/-- C1 (amended): for a successful `build_description` whose converted wire
lists are pairwise-distinct members of the wire set, the SECOND header line
(not the third, which is blank) is `L R O`, and the id ranges `[0,L)`,
`[L,L+R)` and `[total-O,total)` are exactly the left inputs, right inputs and
outputs in order, with no overlap (`L+R+O ≤ total`). -/
theorem C1_header_and_ranges {c c1 c2 c3 : Circuit} {li ri outs : Spec}
    {lw rw ow : List Wire} {text : Str} {st : NumSt}
    (hl : c.convert_to_wires li = .ok (lw, c1))
    (hr : c1.convert_to_wires ri = .ok (rw, c2))
    (ho : c2.convert_to_wires outs = .ok (ow, c3))
    (hall : (lw ++ rw ++ ow).Nodup)
    (hmem : ∀ w ∈ lw ++ rw ++ ow, w ∈ c3.wires)
    (hnr : number_and_render c3.wires lw rw ow c3.gates = .ok (text, st)) :
    c.build_description li ri outs = .ok (text, c3) ∧
    (splitChar '\n' text).getD 1 [] =
      renderNat lw.length ++ ' ' :: renderNat rw.length ++ ' ' :: renderNat ow.length ∧
    lw.length + rw.length + ow.length ≤ c3.wires.card ∧
    (∀ i, ∀ hi : i < lw.length,
      numLookup st.numbers (lw.get ⟨i, hi⟩) = some ((i : Nat) : Int)) ∧
    (∀ i, ∀ hi : i < rw.length,
      numLookup st.numbers (rw.get ⟨i, hi⟩) = some ((lw.length + i : Nat) : Int)) ∧
    (∀ i, ∀ hi : i < ow.length,
      numLookup st.numbers (ow.get ⟨i, hi⟩) =
        some ((c3.wires.card : Int) - (ow.length : Int) + ((i : Nat) : Int))) ∧
    (∀ w k, numLookup st.numbers w = some k →
      (k < (lw.length : Int) →
        ∃ i, ∃ hi : i < lw.length, k = ((i : Nat) : Int) ∧ w = lw.get ⟨i, hi⟩) ∧
      ((lw.length : Int) ≤ k ∧ k < (lw.length : Int) + (rw.length : Int) →
        ∃ i, ∃ hi : i < rw.length, k = ((lw.length + i : Nat) : Int) ∧ w = rw.get ⟨i, hi⟩) ∧
      ((c3.wires.card : Int) - (ow.length : Int) ≤ k →
        ∃ i, ∃ hi : i < ow.length,
          k = (c3.wires.card : Int) - (ow.length : Int) + ((i : Nat) : Int) ∧
          w = ow.get ⟨i, hi⟩)) := by
  obtain ⟨inv, hcard, lines, hlen, htext, hidx⟩ := nr_master hall hmem hnr
  subst htext
  refine ⟨build_description_ok_of hl hr ho hnr, ?_, by omega, inv.left, inv.right,
    inv.outs, ?_⟩
  · rw [header_split]
    rfl
  · intro w k hk
    have hcase : (∃ i, ∃ hi : i < lw.length, w = lw.get ⟨i, hi⟩ ∧ k = ((i : Nat) : Int)) ∨
        (∃ i, ∃ hi : i < rw.length, w = rw.get ⟨i, hi⟩ ∧
          k = ((lw.length + i : Nat) : Int)) ∨
        (∃ i, ∃ hi : i < ow.length, w = ow.get ⟨i, hi⟩ ∧
          k = (c3.wires.card : Int) - (ow.length : Int) + ((i : Nat) : Int)) ∨
        (∃ j, ∃ hj : j < (internals lw rw ow c3.gates).length,
          k = ((lw.length + rw.length + j : Nat) : Int)) := by
      rcases inv.compl w k hk with hm | hm | hm | hm
      · obtain ⟨⟨i, hi⟩, hget⟩ := List.mem_iff_get.mp hm
        have hv := inv.left i hi
        rw [hget, hk] at hv
        exact Or.inl ⟨i, hi, hget.symm, Option.some.inj hv⟩
      · obtain ⟨⟨i, hi⟩, hget⟩ := List.mem_iff_get.mp hm
        have hv := inv.right i hi
        rw [hget, hk] at hv
        exact Or.inr (Or.inl ⟨i, hi, hget.symm, Option.some.inj hv⟩)
      · obtain ⟨⟨i, hi⟩, hget⟩ := List.mem_iff_get.mp hm
        have hv := inv.outs i hi
        rw [hget, hk] at hv
        exact Or.inr (Or.inr (Or.inl ⟨i, hi, hget.symm, Option.some.inj hv⟩))
      · obtain ⟨⟨j, hj⟩, hget⟩ := List.mem_iff_get.mp hm
        have hv := inv.ints j hj
        rw [hget, hk] at hv
        exact Or.inr (Or.inr (Or.inr ⟨j, hj, Option.some.inj hv⟩))
    refine ⟨?_, ?_, ?_⟩
    · intro hkL
      rcases hcase with ⟨i, hi, hw, hkk⟩ | ⟨i, hi, hw, hkk⟩ | ⟨i, hi, hw, hkk⟩ |
        ⟨j, hj, hkk⟩
      · exact ⟨i, hi, hkk, hw⟩
      · exact absurd hkL (by omega)
      · exact absurd hkL (by omega)
      · exact absurd hkL (by omega)
    · rintro ⟨hk1, hk2⟩
      rcases hcase with ⟨i, hi, hw, hkk⟩ | ⟨i, hi, hw, hkk⟩ | ⟨i, hi, hw, hkk⟩ |
        ⟨j, hj, hkk⟩
      · exact absurd hk1 (by omega)
      · exact ⟨i, hi, hkk, hw⟩
      · exact absurd hk2 (by omega)
      · exact absurd hk2 (by omega)
    · intro hk1
      rcases hcase with ⟨i, hi, hw, hkk⟩ | ⟨i, hi, hw, hkk⟩ | ⟨i, hi, hw, hkk⟩ |
        ⟨j, hj, hkk⟩
      · exact absurd hk1 (by omega)
      · exact absurd hk1 (by omega)
      · exact ⟨i, hi, hkk, hw⟩
      · exact absurd hk1 (by omega)

/-- C1 counterexample: in a successful serialization with `L = R = O = 1` the
THIRD line of the output is blank, not `1 1 1` (the `L R O` line is the
second). -/
theorem C1_counterexample :
    ∃ text c3, Circuit.empty.build_description (.str "a".toList) (.str "b".toList)
        (.str "c".toList) = .ok (text, c3) ∧
      (splitChar '\n' text).getD 2 [] ≠
        renderNat 1 ++ ' ' :: renderNat 1 ++ ' ' :: renderNat 1 ∧
      (splitChar '\n' text).getD 1 [] =
        renderNat 1 ++ ' ' :: renderNat 1 ++ ' ' :: renderNat 1 := by
  refine ⟨"0 3\n1 1 1\n\n\n".toList, ⟨3, insert 2 (insert 1 (insert 0 ∅)),
    [("c".toList, 2), ("b".toList, 1), ("a".toList, 0)], []⟩, by rfl, by decide, by decide⟩

theorem C1_witness :
    Circuit.empty.build_description (.str "a".toList) (.str "b".toList) (.str "c".toList) =
      .ok ("0 3\n1 1 1\n\n\n".toList, ⟨3, insert 2 (insert 1 (insert 0 ∅)),
        [("c".toList, 2), ("b".toList, 1), ("a".toList, 0)], []⟩) ∧
    (splitChar '\n' "0 3\n1 1 1\n\n\n".toList).getD 1 [] =
      renderNat 1 ++ ' ' :: renderNat 1 ++ ' ' :: renderNat 1 := by
  have hl : Circuit.empty.convert_to_wires (Spec.str "a".toList) =
      .ok ([0], (⟨1, insert 0 ∅, [("a".toList, 0)], []⟩ : Circuit)) := by rfl
  have hr : (⟨1, insert 0 ∅, [("a".toList, 0)], []⟩ : Circuit).convert_to_wires
      (Spec.str "b".toList) = .ok ([1], ⟨2, insert 1 (insert 0 ∅),
        [("b".toList, 1), ("a".toList, 0)], []⟩) := by rfl
  have ho : (⟨2, insert 1 (insert 0 ∅), [("b".toList, 1), ("a".toList, 0)], []⟩ :
      Circuit).convert_to_wires (Spec.str "c".toList) = .ok ([2], ⟨3,
        insert 2 (insert 1 (insert 0 ∅)),
        [("c".toList, 2), ("b".toList, 1), ("a".toList, 0)], []⟩) := by rfl
  have hnr : number_and_render (insert 2 (insert 1 (insert 0 (∅ : Finset Nat))))
      [0] [1] [2] [] = .ok ("0 3\n1 1 1\n\n\n".toList,
        ⟨[(2, 2), (1, 1), (0, 0)], 2⟩) := by rfl
  have h := C1_header_and_ranges hl hr ho (by decide) (by decide) hnr
  exact ⟨h.1, h.2.1⟩

end Duplo

namespace Duplo

/-- C2: gate lines are rendered strictly in gate-append order (line `j` of the
body is the rendering of gate `j`); every wire that is not among the converted
input or output wires (the `internals`, in first-reference order of the gate
walk) receives the next unused counter value, starting at `L+R` and staying
below `total-O`; and every occurrence of a wire in any rendered gate line uses
the single id recorded for it in the final numbering state. -/
theorem C2_gate_walk {c c1 c2 c3 : Circuit} {li ri outs : Spec}
    {lw rw ow : List Wire} {text : Str} {st : NumSt}
    (hl : c.convert_to_wires li = .ok (lw, c1))
    (hr : c1.convert_to_wires ri = .ok (rw, c2))
    (ho : c2.convert_to_wires outs = .ok (ow, c3))
    (hall : (lw ++ rw ++ ow).Nodup)
    (hmem : ∀ w ∈ lw ++ rw ++ ow, w ∈ c3.wires)
    (hnr : number_and_render c3.wires lw rw ow c3.gates = .ok (text, st)) :
    c.build_description li ri outs = .ok (text, c3) ∧
    ∃ lines, lines.length = c3.gates.length ∧
      text = renderNat c3.gates.length ++ ' ' :: renderNat c3.wires.card ++ '\n' ::
        (renderNat lw.length ++ ' ' :: renderNat rw.length ++ ' ' :: renderNat ow.length) ++
        '\n' :: '\n' :: (joinSep ['\n'] lines ++ ['\n']) ∧
      (∀ j, ∀ hj : j < c3.gates.length, ∀ hj' : j < lines.length, ∃ ids oid,
        ids.length = (c3.gates.get ⟨j, hj⟩).input_wires.length ∧
        (∀ i, ∀ hi : i < (c3.gates.get ⟨j, hj⟩).input_wires.length, ∀ hi' : i < ids.length,
          numLookup st.numbers ((c3.gates.get ⟨j, hj⟩).input_wires.get ⟨i, hi⟩) =
            some (ids.get ⟨i, hi'⟩)) ∧
        numLookup st.numbers (c3.gates.get ⟨j, hj⟩).output_wire = some oid ∧
        lines.get ⟨j, hj'⟩ = gate_line (c3.gates.get ⟨j, hj⟩) ids oid) ∧
      (∀ j, ∀ hj : j < (internals lw rw ow c3.gates).length,
        numLookup st.numbers ((internals lw rw ow c3.gates).get ⟨j, hj⟩) =
          some ((lw.length + rw.length + j : Nat) : Int)) ∧
      (∀ w ∈ internals lw rw ow c3.gates, w ∉ lw ∧ w ∉ rw ∧ w ∉ ow) ∧
      lw.length + rw.length + (internals lw rw ow c3.gates).length ≤
        c3.wires.card - ow.length := by
  obtain ⟨inv, hcard, lines, hlen, htext, hidx⟩ := nr_master hall hmem hnr
  refine ⟨build_description_ok_of hl hr ho hnr, lines, hlen, htext, hidx, inv.ints,
    fun w hw => (inv.good w hw).2, by omega⟩

theorem C2_witness :
    (⟨3, insert 2 (insert 1 (insert 0 ∅)),
        [("x".toList, 0), ("y".toList, 1), ("z".toList, 2)],
        [⟨"AND".toList, [0, 1], 2⟩]⟩ : Circuit).build_description
      (.str "x".toList) (.str "y".toList) (.str "z".toList) =
      .ok ("1 3\n1 1 1\n\n2 1 0 1 2 AND\n".toList,
        ⟨3, insert 2 (insert 1 (insert 0 ∅)),
          [("x".toList, 0), ("y".toList, 1), ("z".toList, 2)],
          [⟨"AND".toList, [0, 1], 2⟩]⟩) := by
  have hl : (⟨3, insert 2 (insert 1 (insert 0 ∅)),
      [("x".toList, 0), ("y".toList, 1), ("z".toList, 2)],
      [⟨"AND".toList, [0, 1], 2⟩]⟩ : Circuit).convert_to_wires (Spec.str "x".toList) =
      .ok ([0], ⟨3, insert 2 (insert 1 (insert 0 ∅)),
        [("x".toList, 0), ("y".toList, 1), ("z".toList, 2)],
        [⟨"AND".toList, [0, 1], 2⟩]⟩) := by rfl
  have hr : (⟨3, insert 2 (insert 1 (insert 0 ∅)),
      [("x".toList, 0), ("y".toList, 1), ("z".toList, 2)],
      [⟨"AND".toList, [0, 1], 2⟩]⟩ : Circuit).convert_to_wires (Spec.str "y".toList) =
      .ok ([1], ⟨3, insert 2 (insert 1 (insert 0 ∅)),
        [("x".toList, 0), ("y".toList, 1), ("z".toList, 2)],
        [⟨"AND".toList, [0, 1], 2⟩]⟩) := by rfl
  have ho : (⟨3, insert 2 (insert 1 (insert 0 ∅)),
      [("x".toList, 0), ("y".toList, 1), ("z".toList, 2)],
      [⟨"AND".toList, [0, 1], 2⟩]⟩ : Circuit).convert_to_wires (Spec.str "z".toList) =
      .ok ([2], ⟨3, insert 2 (insert 1 (insert 0 ∅)),
        [("x".toList, 0), ("y".toList, 1), ("z".toList, 2)],
        [⟨"AND".toList, [0, 1], 2⟩]⟩) := by rfl
  have hnr : number_and_render (insert 2 (insert 1 (insert 0 (∅ : Finset Nat))))
      [0] [1] [2] [⟨"AND".toList, [0, 1], 2⟩] =
      .ok ("1 3\n1 1 1\n\n2 1 0 1 2 AND\n".toList,
        ⟨[(2, 2), (1, 1), (0, 0)], 2⟩) := by rfl
  exact (C2_gate_walk hl hr ho (by decide) (by decide) hnr).1

end Duplo

namespace Duplo

/-- C3 (amended): an allocated wire `u` that is never referenced still counts
toward the serialized wire count and shifts the reserved output region, is
never itself assigned an id (leaving an integer in `[L+R, total-O)` that is
never printed), and the numbering of every wire OUTSIDE the output list is
unaffected by its presence — but the output wires' ids do shift (they are
`total-O+i`), so the original claim's "every other wire" is too strong. -/
theorem C3_unreferenced_wire {wires : Finset Nat} {lw rw ow : List Wire}
    {gates : List Gate} {textA : Str} {stA : NumSt} {u : Wire}
    (hall : (lw ++ rw ++ ow).Nodup)
    (hmem : ∀ w ∈ lw ++ rw ++ ow, w ∈ wires)
    (hA : number_and_render wires lw rw ow gates = .ok (textA, stA))
    (hu : u ∉ wires) (hul : u ∉ lw) (hur : u ∉ rw) (huo : u ∉ ow)
    (hug : u ∉ gatesRefs gates) :
    (insert u wires).card = wires.card + 1 ∧
    ∃ textB stB, number_and_render (insert u wires) lw rw ow gates = .ok (textB, stB) ∧
      numLookup stB.numbers u = none ∧
      (∀ w, w ∉ ow → numLookup stB.numbers w = numLookup stA.numbers w) ∧
      ∃ k : Int, ((lw.length + rw.length : Nat) : Int) ≤ k ∧
        k < ((insert u wires).card : Int) - ((ow.length : Nat) : Int) ∧
        ∀ w, numLookup stB.numbers w ≠ some k := by
  have hcardB : (insert u wires).card = wires.card + 1 := Finset.card_insert_of_not_mem hu
  obtain ⟨invA, hcardA, _⟩ := nr_master hall hmem hA
  have hiff_l : ∀ w ∈ lw, (w ∈ wires ↔ w ∈ insert u wires) := by
    intro w hw
    refine ⟨fun h => Finset.mem_insert_of_mem h, fun h => ?_⟩
    rcases Finset.mem_insert.mp h with rfl | h
    · exact absurd hw hul
    · exact h
  have hiff_r : ∀ w ∈ rw, (w ∈ wires ↔ w ∈ insert u wires) := by
    intro w hw
    refine ⟨fun h => Finset.mem_insert_of_mem h, fun h => ?_⟩
    rcases Finset.mem_insert.mp h with rfl | h
    · exact absurd hw hur
    · exact h
  have hiff_g : ∀ g ∈ gates, ∀ v ∈ gateRefs g, (v ∈ wires ↔ v ∈ insert u wires) := by
    intro g hg v hv
    refine ⟨fun h => Finset.mem_insert_of_mem h, fun h => ?_⟩
    rcases Finset.mem_insert.mp h with rfl | h
    · exact absurd (mem_gatesRefs hg v hv) hug
    · exact h
  rw [nr_eq] at hA
  cases h1 : number_list wires ⟨[], 0⟩ lw with
  | error e => simp [h1] at hA
  | ok st1 =>
    simp only [h1] at hA
    cases h2 : number_list wires st1 rw with
    | error e => simp [h2] at hA
    | ok st2 =>
      simp only [h2] at hA
      cases h3 : build_lines wires
          ⟨assignOutsAux ((wires.card : Int) - (ow.length : Int)) 0 ow st2.numbers,
            st2.counter⟩ gates with
      | error e => simp [h3] at hA
      | ok p =>
        obtain ⟨lines, st4⟩ := p
        simp only [h3, Except.ok.injEq, Prod.mk.injEq] at hA
        obtain ⟨rfl, rfl⟩ := hA
        have h1B : number_list (insert u wires) ⟨[], 0⟩ lw = .ok st1 := by
          rw [← number_list_congr lw ⟨[], 0⟩ hiff_l]
          exact h1
        have h2B : number_list (insert u wires) st1 rw = .ok st2 := by
          rw [← number_list_congr rw st1 hiff_r]
          exact h2
        have hndo : ow.Nodup := (List.nodup_append.mp hall).2.1
        have relAB : OwRel ow
            ⟨assignOutsAux ((wires.card : Int) - (ow.length : Int)) 0 ow st2.numbers,
              st2.counter⟩
            ⟨assignOutsAux (((insert u wires).card : Int) - (ow.length : Int)) 0 ow
              st2.numbers, st2.counter⟩ := by
          refine ⟨rfl, ?_, ?_⟩
          · intro w hw
            show numLookup (assignOutsAux _ 0 ow st2.numbers) w =
              numLookup (assignOutsAux _ 0 ow st2.numbers) w
            rw [assignOutsAux_miss ow 0 _ hw, assignOutsAux_miss ow 0 _ hw]
          · intro w hw
            obtain ⟨⟨j, hj⟩, hget⟩ := List.mem_iff_get.mp hw
            constructor
            · show (numLookup (assignOutsAux ((wires.card : Int) - (ow.length : Int))
                0 ow st2.numbers) w).isSome
              rw [← hget, assignOutsAux_hit ow 0 st2.numbers hndo j hj]
              rfl
            · show (numLookup (assignOutsAux (((insert u wires).card : Int) -
                (ow.length : Int)) 0 ow st2.numbers) w).isSome
              rw [← hget, assignOutsAux_hit ow 0 st2.numbers hndo j hj]
              rfl
        obtain ⟨linesB, stB, h3B, relF⟩ := build_lines_rel gates _ _ lines st4 hiff_g
          relAB h3
        have hB : number_and_render (insert u wires) lw rw ow gates =
            .ok (renderNat gates.length ++ ' ' :: renderNat (insert u wires).card ++
              '\n' :: (renderNat lw.length ++ ' ' :: renderNat rw.length ++ ' ' ::
                renderNat ow.length) ++
              '\n' :: '\n' :: (joinSep ['\n'] linesB ++ ['\n']), stB) := by
          rw [nr_eq, h1B]
          simp only [h2B, h3B]
        have hmemB : ∀ w ∈ lw ++ rw ++ ow, w ∈ insert u wires :=
          fun w hw => Finset.mem_insert_of_mem (hmem w hw)
        obtain ⟨invB, hcardB2, _⟩ := nr_master hall hmemB hB
        refine ⟨hcardB, _, stB, hB, ?_, ?_, ?_⟩
        · cases hlk : numLookup stB.numbers u with
          | none => rfl
          | some k =>
            exfalso
            rcases invB.compl u k hlk with hm | hm | hm | hm
            · exact hul hm
            · exact hur hm
            · exact huo hm
            · exact hug (dedupFrom_subset _ _ u hm)
        · intro w hw
          exact (relF.2.1 w hw).symm
        · refine ⟨((lw.length + rw.length +
            (internals lw rw ow gates).length : Nat) : Int), by push_cast; omega, ?_, ?_⟩
          · push_cast
            omega
          · intro w hcontra
            rcases invB.compl w _ hcontra with hm | hm | hm | hm
            · obtain ⟨⟨i, hi⟩, hget⟩ := List.mem_iff_get.mp hm
              have hv := invB.left i hi
              rw [hget, hcontra] at hv
              have hvv := Option.some.inj hv
              omega
            · obtain ⟨⟨i, hi⟩, hget⟩ := List.mem_iff_get.mp hm
              have hv := invB.right i hi
              rw [hget, hcontra] at hv
              have hvv := Option.some.inj hv
              omega
            · obtain ⟨⟨i, hi⟩, hget⟩ := List.mem_iff_get.mp hm
              have hv := invB.outs i hi
              rw [hget, hcontra] at hv
              have hvv := Option.some.inj hv
              omega
            · obtain ⟨⟨j, hj⟩, hget⟩ := List.mem_iff_get.mp hm
              have hv := invB.ints j hj
              rw [hget, hcontra] at hv
              have hvv := Option.some.inj hv
              omega

/-- C3 counterexample: adding an unreferenced wire `1` to a circuit whose only
other wire `0` is the single output changes wire `0`'s printed id from `0` to
`1` — the numbering of a wire other than the unreferenced one IS affected. -/
theorem C3_counterexample :
    ∃ tA sA tB sB,
      number_and_render ({0} : Finset Nat) [] [] [0] [] = .ok (tA, sA) ∧
      number_and_render (insert 1 ({0} : Finset Nat)) [] [] [0] [] = .ok (tB, sB) ∧
      (1 : Nat) ∉ ({0} : Finset Nat) ∧ (1 : Wire) ∉ ([0] : List Wire) ∧
      numLookup sA.numbers 0 ≠ numLookup sB.numbers 0 := by
  refine ⟨"0 1\n0 0 1\n\n\n".toList, ⟨[(0, 0)], 0⟩,
    "0 2\n0 0 1\n\n\n".toList, ⟨[(0, 1)], 0⟩, by rfl, by rfl, by decide, by decide, by decide⟩

theorem C3_witness :
    (insert 1 ({0} : Finset Nat)).card = ({0} : Finset Nat).card + 1 ∧
    ∃ textB stB, number_and_render (insert 1 ({0} : Finset Nat)) [] [] [0] [] =
        .ok (textB, stB) ∧
      numLookup stB.numbers 1 = none ∧
      (∀ w, w ∉ ([0] : List Wire) →
        numLookup stB.numbers w = numLookup (⟨[(0, 0)], 0⟩ : NumSt).numbers w) ∧
      ∃ k : Int, ((([] : List Wire).length + ([] : List Wire).length : Nat) : Int) ≤ k ∧
        k < ((insert 1 ({0} : Finset Nat)).card : Int) -
          ((([0] : List Wire).length : Nat) : Int) ∧
        ∀ w, numLookup stB.numbers w ≠ some k := by
  have hA : number_and_render ({0} : Finset Nat) [] [] [0] [] =
      .ok ("0 1\n0 0 1\n\n\n".toList, ⟨[(0, 0)], 0⟩) := by rfl
  exact C3_unreferenced_wire (by decide) (by decide) hA (by decide) (by decide)
    (by decide) (by decide) (by decide)

end Duplo

namespace Duplo

/-- C6 (amended): during the numbering walk, an id request for a wire outside
the circuit's wire set fails the membership assertion whenever the wire occurs
among the left inputs, the right inputs, or any gate's operands — and the
serialization then never completes; but OUTPUT wires are assigned their ids by
direct dictionary write with no membership check, so serialization completes
regardless of the output list whenever inputs and gate operands are members. -/
theorem C6_membership_check :
    (∀ (wires : Finset Nat) (lw rw ow : List Wire) (gates : List Gate) (w : Wire),
      w ∉ wires → w ∈ lw →
      ∃ e, number_and_render wires lw rw ow gates = .error e) ∧
    (∀ (wires : Finset Nat) (lw rw ow : List Wire) (gates : List Gate) (w : Wire),
      w ∉ wires → w ∈ rw →
      ∃ e, number_and_render wires lw rw ow gates = .error e) ∧
    (∀ (wires : Finset Nat) (lw rw ow : List Wire) (gates : List Gate) (g : Gate)
      (w : Wire), w ∉ wires → g ∈ gates → w ∈ gateRefs g →
      ∃ e, number_and_render wires lw rw ow gates = .error e) ∧
    (∀ (wires : Finset Nat) (lw rw ow : List Wire) (gates : List Gate),
      (∀ w ∈ lw, w ∈ wires) → (∀ w ∈ rw, w ∈ wires) →
      (∀ g ∈ gates, ∀ w ∈ gateRefs g, w ∈ wires) →
      ∃ text st, number_and_render wires lw rw ow gates = .ok (text, st)) := by
  refine ⟨?_, ?_, ?_, ?_⟩
  · intro wires lw rw ow gates w hw hm
    exact nr_err hw (Or.inl hm)
  · intro wires lw rw ow gates w hw hm
    exact nr_err hw (Or.inr (Or.inl hm))
  · intro wires lw rw ow gates g w hw hg hm
    exact nr_err hw (Or.inr (Or.inr ⟨g, hg, hm⟩))
  · intro wires lw rw ow gates h1 h2 h3
    exact nr_total h1 h2 h3

/-- C6 counterexample: a wire (`7`) that is NOT a member of the circuit's wire
set but occurs among the converted output wires does not trip any assertion —
serialization completes successfully. -/
theorem C6_counterexample :
    ∃ t s, number_and_render ({0, 1} : Finset Nat) [] [] [7] [] = .ok (t, s) ∧
      (7 : Nat) ∉ ({0, 1} : Finset Nat) := by
  refine ⟨"0 2\n0 0 1\n\n\n".toList, ⟨[(7, 1)], 0⟩, by rfl, by decide⟩

theorem C6_witness :
    (∃ e, number_and_render ({0} : Finset Nat) [5] [] [] [] = .error e) ∧
    (∃ t s, number_and_render ({0} : Finset Nat) [] [] [5] [] = .ok (t, s)) :=
  ⟨C6_membership_check.1 {0} [5] [] [] [] 5 (by decide) (by decide),
   C6_membership_check.2.2.2 {0} [] [] [5] [] (by decide) (by decide) (by decide)⟩

end Duplo

namespace Duplo

lemma component_init_arity_err (c : Circuit) (specs : List Spec) (szs : List Int)
    (o : Int) (hne : specs.length ≠ szs.length) :
    ∃ e, component_init c specs szs o = .error e := by
  rw [component_init_eq]
  cases hc : convert_inputs c specs with
  | error e => exact ⟨e, rfl⟩
  | ok p =>
    obtain ⟨ins, c1⟩ := p
    simp only []
    obtain ⟨_, hlen⟩ := convert_inputs_spec specs c ins c1 hc
    rw [if_neg (by rw [hlen]; exact hne)]
    exact ⟨_, rfl⟩

lemma component_init_width_err {c c1 : Circuit} {specs : List Spec} {szs : List Int}
    {ins : List (List Wire)} (o : Int) {i : Nat} (hi : i < ins.length)
    (hi2 : i < szs.length)
    (hc : convert_inputs c specs = .ok (ins, c1))
    (hbad : ((ins.get ⟨i, hi⟩).length : Int) ≠ szs.get ⟨i, hi2⟩) :
    ∃ e, component_init c specs szs o = .error e := by
  rw [component_init_eq, hc]
  simp only []
  by_cases hlen : ins.length = szs.length
  · rw [if_pos hlen]
    have hfalse : ¬(((ins.zip szs).all fun p => ((p.1.length : Int) == p.2)) = true) := by
      intro hT
      have hzl : i < (ins.zip szs).length := by
        rw [List.length_zip]
        omega
      have hz : (ins.get ⟨i, hi⟩, szs.get ⟨i, hi2⟩) ∈ ins.zip szs := by
        have hq : (ins.zip szs).get ⟨i, hzl⟩ = (ins.get ⟨i, hi⟩, szs.get ⟨i, hi2⟩) := by
          simp [List.get_eq_getElem, List.getElem_zip]
        exact hq ▸ List.get_mem _ _ _
      have := List.all_eq_true.mp hT _ hz
      simp only [beq_iff_eq] at this
      exact hbad this
    rw [if_neg hfalse]
    exact ⟨_, rfl⟩
  · rw [if_neg hlen]
    exact ⟨_, rfl⟩

lemma primitive_init_err {op : Str} {sizes : List Int} {c : Circuit} {specs : List Spec}
    (h : ∃ e, component_init c specs sizes 1 = .error e) :
    ∃ e, primitive_init op sizes c specs = .error e := by
  obtain ⟨e, he⟩ := h
  unfold primitive_init
  rw [he]
  exact ⟨e, rfl⟩

/-- C7: constructing a component fails with a validation error when the number
of input specifications differs from the declared `input_sizes`, when a
converted input group's width differs from its declared size, or when a
specification is not a wire, string, list, or component; the AND gate inherits
both the arity and the width failure (no silent truncation); and a successful
construction allocates exactly `output_size` fresh output wires. -/
theorem C7_component_validation :
    (∀ (c : Circuit) (specs : List Spec) (szs : List Int) (o : Int),
      specs.length ≠ szs.length → ∃ e, component_init c specs szs o = .error e) ∧
    (∀ (c c1 : Circuit) (specs : List Spec) (szs : List Int) (o : Int)
      (ins : List (List Wire)) (i : Nat), ∀ hi : i < ins.length, ∀ hi2 : i < szs.length,
      convert_inputs c specs = .ok (ins, c1) →
      ((ins.get ⟨i, hi⟩).length : Int) ≠ szs.get ⟨i, hi2⟩ →
      ∃ e, component_init c specs szs o = .error e) ∧
    (∀ (c : Circuit) (specs : List Spec) (szs : List Int) (o : Int),
      Spec.other ∈ specs → ∃ e, component_init c specs szs o = .error e) ∧
    (∀ (c c2 : Circuit) (specs : List Spec) (szs : List Int) (o : Int)
      (ins : List (List Wire)) (out : List Wire),
      component_init c specs szs o = .ok (ins, out, c2) →
      out.length = o.toNat ∧ (c.WF → ∀ w ∈ out, w ∉ c.wires)) ∧
    (∀ (c : Circuit) (specs : List Spec), specs.length ≠ 2 →
      ∃ e, ANDGate c specs = .error e) ∧
    (∀ (c c1 : Circuit) (specs : List Spec) (ins : List (List Wire)) (i : Nat),
      ∀ hi : i < ins.length, ∀ hi2 : i < ([1, 1] : List Int).length,
      convert_inputs c specs = .ok (ins, c1) →
      ((ins.get ⟨i, hi⟩).length : Int) ≠ ([1, 1] : List Int).get ⟨i, hi2⟩ →
      ∃ e, ANDGate c specs = .error e) := by
  refine ⟨?_, ?_, ?_, ?_, ?_, ?_⟩
  · intro c specs szs o hne
    exact component_init_arity_err c specs szs o hne
  · intro c c1 specs szs o ins i hi hi2 hc hbad
    exact component_init_width_err o hi hi2 hc hbad
  · intro c specs szs o hother
    obtain ⟨e, he⟩ := convert_inputs_error_of_other specs c hother
    rw [component_init_eq, he]
    exact ⟨e, rfl⟩
  · intro c c2 specs szs o ins out hok
    obtain ⟨S, hlen, hfresh, _, _⟩ := component_init_step hok
    refine ⟨hlen, fun hwf w hw hmem => ?_⟩
    have h1 := hwf w hmem
    have h2 := hfresh w hw
    omega
  · intro c specs hne
    exact primitive_init_err (component_init_arity_err c specs [1, 1] 1 hne)
  · intro c c1 specs ins i hi hi2 hc hbad
    exact primitive_init_err (component_init_width_err 1 hi hi2 hc hbad)

theorem C7_witness :
    (∃ e, component_init Circuit.empty [.str "a".toList] [1, 1] 1 = .error e) ∧
    (∃ e, ANDGate Circuit.empty [.str "a".toList] = .error e) ∧
    (∃ e, ANDGate Circuit.empty [.str "a::2".toList, .str "b".toList] = .error e) ∧
    ([2] : List Wire).length = (1 : Int).toNat := by
  refine ⟨C7_component_validation.1 Circuit.empty [.str "a".toList] [1, 1] 1 (by decide),
    C7_component_validation.2.2.2.2.1 Circuit.empty [.str "a".toList] (by decide),
    ?_, ?_⟩
  · have hc : convert_inputs Circuit.empty [.str "a::2".toList, .str "b".toList] =
        .ok ([[0, 1], [2]], ⟨3, insert 2 (insert 1 (insert 0 ∅)),
          [("b".toList, 2), ("a_1".toList, 1), ("a_0".toList, 0)], []⟩) := by rfl
    exact C7_component_validation.2.2.2.2.2 Circuit.empty _
      [.str "a::2".toList, .str "b".toList] [[0, 1], [2]] 0 (by decide) (by decide)
      hc (by decide)
  · have hok : component_init Circuit.empty [.str "u".toList, .str "v".toList] [1, 1] 1 =
        .ok ([[0], [1]], [2], ⟨3, insert 2 (insert 1 (insert 0 ∅)),
          [("v".toList, 1), ("u".toList, 0)], []⟩) := by rfl
    exact (C7_component_validation.2.2.2.1 Circuit.empty _
      [.str "u".toList, .str "v".toList] [1, 1] 1 [[0], [1]] [2] hok).1

end Duplo

namespace Duplo

/-- C8: given that the two header lines parse as `g w` and `l r o`, the
Bristol reader fails with the bad-gate-count assertion exactly when the number
of non-blank remaining lines differs from `g`, and otherwise succeeds,
recording the counts and the whitespace-tokenized gate descriptions in file
order. -/
theorem C8_bristol_reader {text : Str} {g w l r o : Int}
    (hg : parse_ints (splitWs ((splitChar '\n' text).getD 0 [])) = some [g, w])
    (hh : parse_ints (splitWs ((splitChar '\n' text).getD 1 [])) = some [l, r, o]) :
    (bristol_parse text = .error "AssertionError: Bad gate count." ↔
      (((((splitChar '\n' text).drop 2).filter
        (fun s => !(pyStrip s).isEmpty)).length : Nat) : Int) ≠ g) ∧
    ((((((splitChar '\n' text).drop 2).filter
        (fun s => !(pyStrip s).isEmpty)).length : Nat) : Int) = g →
      bristol_parse text = .ok ⟨g, w, l, r, o,
        (((splitChar '\n' text).drop 2).filter
          (fun s => !(pyStrip s).isEmpty)).map splitWs⟩) := by
  rw [bristol_parse_eq]
  simp only [hg, hh]
  rw [show ((((splitChar '\n' text).drop 2).filter
      (fun s => !(pyStrip s).isEmpty)).map splitWs).length =
      (((splitChar '\n' text).drop 2).filter
        (fun s => !(pyStrip s).isEmpty)).length from List.length_map _ _]
  by_cases hc : (((((splitChar '\n' text).drop 2).filter
      (fun s => !(pyStrip s).isEmpty)).length : Nat) : Int) = g
  · rw [if_pos hc]
    exact ⟨⟨fun habs => absurd habs (by simp), fun hne => absurd hc hne⟩, fun _ => rfl⟩
  · rw [if_neg hc]
    exact ⟨⟨fun _ => hc, fun _ => rfl⟩, fun hceq => absurd hceq hc⟩

theorem C8_witness :
    bristol_parse "1 3\n1 1 1\n\n2 1 0 1 2 AND\n".toList =
      .ok ⟨1, 3, 1, 1, 1, [["2".toList, "1".toList, "0".toList, "1".toList, "2".toList,
        "AND".toList]]⟩ := by
  have hg : parse_ints (splitWs ((splitChar '\n'
      "1 3\n1 1 1\n\n2 1 0 1 2 AND\n".toList).getD 0 [])) = some [1, 3] := by rfl
  have hh : parse_ints (splitWs ((splitChar '\n'
      "1 3\n1 1 1\n\n2 1 0 1 2 AND\n".toList).getD 1 [])) = some [1, 1, 1] := by rfl
  exact (C8_bristol_reader hg hh).2 (by rfl)

end Duplo

namespace Duplo

/-- C4: instantiating a subcircuit template maps index string `i` to the i-th
left input, `L+i` to the i-th right input and `wire_count-O+i` to the i-th
fresh output; every other index referenced by a gate description is
materialized as a brand-new host-circuit wire; exactly one gate per template
description is appended, in template order with the template's operation; and
two instantiations of the same template share no internal wire. -/
theorem C4_subcircuit_mapping {p : BristolCircuit} {c : Circuit} {specs : List Spec}
    {ins0 ins1 out : List Wire} {c1 cfin : Circuit} {tbl' : List (Str × Wire)}
    (hwf : c.WF)
    (hci : component_init c specs [p.left_input_wire_count, p.right_input_wire_count]
      p.output_wire_count = .ok ([ins0, ins1], out, c1))
    (hfold : sc_fold c1 (init_table p ins0 ins1 out) p.gate_descriptions =
      .ok (cfin, tbl'))
    (hL : (ins0.length : Int) = p.left_input_wire_count)
    (hR : (ins1.length : Int) = p.right_input_wire_count)
    (hsep : p.left_input_wire_count + p.right_input_wire_count + (out.length : Int) ≤
      p.wire_count)
    (hRpos : 0 ≤ p.right_input_wire_count) :
    Subcircuit_init p c specs = .ok (out, cfin) ∧
    (∀ i, ∀ hi : i < ins0.length,
      lookupName (init_table p ins0 ins1 out) (renderInt ((i : Nat) : Int)) =
        some (ins0.get ⟨i, hi⟩)) ∧
    (∀ i, ∀ hi : i < ins1.length,
      lookupName (init_table p ins0 ins1 out)
        (renderInt (p.left_input_wire_count + ((i : Nat) : Int))) =
        some (ins1.get ⟨i, hi⟩)) ∧
    (∀ j, ∀ hj : j < out.length,
      lookupName (init_table p ins0 ins1 out)
        (renderInt (p.wire_count - (out.length : Int) + ((j : Nat) : Int))) =
        some (out.get ⟨j, hj⟩)) ∧
    (∀ q ∈ tbl', q ∈ init_table p ins0 ins1 out ∨
      (q.2 ∉ c1.wires ∧ q.2 ∈ cfin.wires)) ∧
    (∃ new, cfin.gates = c1.gates ++ new ∧
      new.length = p.gate_descriptions.length ∧
      (∀ j, ∀ hj : j < p.gate_descriptions.length, ∀ hj' : j < new.length,
        pyNegIdx (p.gate_descriptions.get ⟨j, hj⟩) 1 =
          some ((new.get ⟨j, hj'⟩).operation))) ∧
    c1.gates = c.gates ∧
    (∀ {specs2 : List Spec} {ins0' ins1' out' : List Wire} {c1' cfin' : Circuit}
      {tbl2' : List (Str × Wire)},
      component_init cfin specs2 [p.left_input_wire_count, p.right_input_wire_count]
        p.output_wire_count = .ok ([ins0', ins1'], out', c1') →
      sc_fold c1' (init_table p ins0' ins1' out') p.gate_descriptions =
        .ok (cfin', tbl2') →
      ∀ q ∈ tbl', ∀ q2 ∈ tbl2', q ∉ init_table p ins0 ins1 out →
        q2 ∉ init_table p ins0' ins1' out' → q.2 ≠ q2.2) := by
  obtain ⟨S1, _, _, _, _⟩ := component_init_step hci
  have hwf1 : c1.WF := S1.2.2.2.2 hwf
  obtain ⟨⟨new, hng, hnl, hnidx, _⟩, _, _, hf4, _, _, hfwf⟩ :=
    sc_fold_spec p.gate_descriptions c1 _ cfin tbl' hfold
  refine ⟨?_, init_table_left hL hsep hRpos, init_table_right hR hsep, init_table_out,
    ?_, ⟨new, hng, hnl, fun j hj hj' => (hnidx j hj hj').1⟩, S1.2.1, ?_⟩
  · rw [Subcircuit_init_eq]
    simp only [hci, hfold]
  · intro q hq
    rcases hf4 q hq with hq1 | ⟨hle, hmem⟩
    · exact Or.inl hq1
    · refine Or.inr ⟨fun hmem1 => ?_, hmem⟩
      have := hwf1 _ hmem1
      omega
  · intro specs2 ins0' ins1' out' c1' cfin' tbl2' hci2 hfold2 q hq q2 hq2 hni hni2
    have hq_in : q.2 ∈ cfin.wires := by
      rcases hf4 q hq with hq1 | ⟨_, hmem⟩
      · exact absurd hq1 hni
      · exact hmem
    have hwf_fin : cfin.WF := hfwf hwf1
    obtain ⟨S2, _, _, _, _⟩ := component_init_step hci2
    obtain ⟨_, _, _, hg4, _, _, _⟩ :=
      sc_fold_spec p.gate_descriptions c1' _ cfin' tbl2' hfold2
    rcases hg4 q2 hq2 with hq21 | ⟨hle2, _⟩
    · exact absurd hq21 hni2
    · intro heq
      have hlt := hwf_fin _ hq_in
      have hle3 := S2.2.2.2.1
      rw [heq] at hlt
      omega

theorem C4_witness :
    Subcircuit_init ⟨1, 3, 1, 1, 1, [["2".toList, "1".toList, "0".toList, "1".toList,
        "2".toList, "AND".toList]]⟩ Circuit.empty [.str "a".toList, .str "b".toList] =
      .ok ([2], ⟨3, insert 2 (insert 1 (insert 0 ∅)),
        [("b".toList, 1), ("a".toList, 0)], [⟨"AND".toList, [0, 1], 2⟩]⟩) := by
  have hci : component_init Circuit.empty [.str "a".toList, .str "b".toList] [1, 1] 1 =
      .ok ([[0], [1]], [2], ⟨3, insert 2 (insert 1 (insert 0 ∅)),
        [("b".toList, 1), ("a".toList, 0)], []⟩) := by rfl
  have hfold : sc_fold (⟨3, insert 2 (insert 1 (insert 0 ∅)),
      [("b".toList, 1), ("a".toList, 0)], []⟩ : Circuit)
      (init_table ⟨1, 3, 1, 1, 1, [["2".toList, "1".toList, "0".toList, "1".toList,
        "2".toList, "AND".toList]]⟩ [0] [1] [2])
      [["2".toList, "1".toList, "0".toList, "1".toList, "2".toList, "AND".toList]] =
      .ok (⟨3, insert 2 (insert 1 (insert 0 ∅)),
        [("b".toList, 1), ("a".toList, 0)], [⟨"AND".toList, [0, 1], 2⟩]⟩,
        [("2".toList, 2), ("1".toList, 1), ("0".toList, 0)]) := by rfl
  exact (C4_subcircuit_mapping (fun w hw => absurd hw (Finset.not_mem_empty w)) hci hfold
    (by decide) (by decide) (by decide) (by decide)).1

/-- C5: writing a circuit's description, parsing the text as a template, and
instantiating the template as a subcircuit in a fresh circuit with matching
input widths succeeds, and the resulting gate count is the host circuit's gate
count plus the template's declared `gate_count`. -/
theorem C5_roundtrip {c c1 c2 c3 : Circuit} {li ri outs : Spec} {lw rw ow : List Wire}
    {text : Str} {st : NumSt}
    (hl : c.convert_to_wires li = .ok (lw, c1))
    (hr : c1.convert_to_wires ri = .ok (rw, c2))
    (ho : c2.convert_to_wires outs = .ok (ow, c3))
    (hall : (lw ++ rw ++ ow).Nodup)
    (hmem : ∀ w ∈ lw ++ rw ++ ow, w ∈ c3.wires)
    (hops : ∀ g ∈ c3.gates, g.operation ≠ [] ∧
      ∀ ch ∈ g.operation, isPySpace ch = false ∧ ch ≠ '\n')
    (hnr : number_and_render c3.wires lw rw ow c3.gates = .ok (text, st))
    {d d1 : Circuit} {specs : List Spec} {ins0 ins1 outw : List Wire}
    (hci : component_init d specs [(lw.length : Int), (rw.length : Int)]
      ((ow.length : Nat) : Int) = .ok ([ins0, ins1], outw, d1)) :
    c.build_description li ri outs = .ok (text, c3) ∧
    ∃ p, bristol_parse text = .ok p ∧ p.gate_count = (c3.gates.length : Int) ∧
      ∃ dfin, Subcircuit_init p d specs = .ok (outw, dfin) ∧
        (dfin.gates.length : Int) = (d.gates.length : Int) + p.gate_count := by
  obtain ⟨descs, hparse, hdlen, hd2⟩ := nr_parse hall hmem hops hnr
  obtain ⟨S1, _, _, _, _⟩ := component_init_step hci
  obtain ⟨dfin, tblx, hfold, hglen⟩ := sc_fold_ok_of_len descs d1
    (init_table ⟨(c3.gates.length : Int), (c3.wires.card : Int), (lw.length : Int),
      (rw.length : Int), (ow.length : Int), descs⟩ ins0 ins1 outw) hd2
  refine ⟨build_description_ok_of hl hr ho hnr,
    ⟨(c3.gates.length : Int), (c3.wires.card : Int), (lw.length : Int), (rw.length : Int),
      (ow.length : Int), descs⟩, hparse, rfl, dfin, ?_, ?_⟩
  · rw [Subcircuit_init_eq]
    simp only [hci, hfold]
  · have hd1 : d1.gates = d.gates := S1.2.1
    rw [hd1] at hglen
    show (dfin.gates.length : Int) = (d.gates.length : Int) + (c3.gates.length : Int)
    rw [hglen, hdlen]
    push_cast
    ring

theorem C5_witness :
    (⟨3, insert 2 (insert 1 (insert 0 ∅)),
        [("x".toList, 0), ("y".toList, 1), ("z".toList, 2)],
        [⟨"AND".toList, [0, 1], 2⟩]⟩ : Circuit).build_description
      (.str "x".toList) (.str "y".toList) (.str "z".toList) =
      .ok ("1 3\n1 1 1\n\n2 1 0 1 2 AND\n".toList,
        ⟨3, insert 2 (insert 1 (insert 0 ∅)),
          [("x".toList, 0), ("y".toList, 1), ("z".toList, 2)],
          [⟨"AND".toList, [0, 1], 2⟩]⟩) ∧
    ∃ p, bristol_parse "1 3\n1 1 1\n\n2 1 0 1 2 AND\n".toList = .ok p ∧
      p.gate_count = ((1 : Nat) : Int) ∧
      ∃ dfin, Subcircuit_init p Circuit.empty [.str "u".toList, .str "v".toList] =
        .ok ([2], dfin) ∧
        (dfin.gates.length : Int) = ((0 : Nat) : Int) + p.gate_count := by
  have hl : (⟨3, insert 2 (insert 1 (insert 0 ∅)),
      [("x".toList, 0), ("y".toList, 1), ("z".toList, 2)],
      [⟨"AND".toList, [0, 1], 2⟩]⟩ : Circuit).convert_to_wires (Spec.str "x".toList) =
      .ok ([0], ⟨3, insert 2 (insert 1 (insert 0 ∅)),
        [("x".toList, 0), ("y".toList, 1), ("z".toList, 2)],
        [⟨"AND".toList, [0, 1], 2⟩]⟩) := by rfl
  have hr : (⟨3, insert 2 (insert 1 (insert 0 ∅)),
      [("x".toList, 0), ("y".toList, 1), ("z".toList, 2)],
      [⟨"AND".toList, [0, 1], 2⟩]⟩ : Circuit).convert_to_wires (Spec.str "y".toList) =
      .ok ([1], ⟨3, insert 2 (insert 1 (insert 0 ∅)),
        [("x".toList, 0), ("y".toList, 1), ("z".toList, 2)],
        [⟨"AND".toList, [0, 1], 2⟩]⟩) := by rfl
  have ho : (⟨3, insert 2 (insert 1 (insert 0 ∅)),
      [("x".toList, 0), ("y".toList, 1), ("z".toList, 2)],
      [⟨"AND".toList, [0, 1], 2⟩]⟩ : Circuit).convert_to_wires (Spec.str "z".toList) =
      .ok ([2], ⟨3, insert 2 (insert 1 (insert 0 ∅)),
        [("x".toList, 0), ("y".toList, 1), ("z".toList, 2)],
        [⟨"AND".toList, [0, 1], 2⟩]⟩) := by rfl
  have hnr : number_and_render (insert 2 (insert 1 (insert 0 (∅ : Finset Nat))))
      [0] [1] [2] [⟨"AND".toList, [0, 1], 2⟩] =
      .ok ("1 3\n1 1 1\n\n2 1 0 1 2 AND\n".toList,
        ⟨[(2, 2), (1, 1), (0, 0)], 2⟩) := by rfl
  have hci : component_init Circuit.empty [.str "u".toList, .str "v".toList] [1, 1] 1 =
      .ok ([[0], [1]], [2], ⟨3, insert 2 (insert 1 (insert 0 ∅)),
        [("v".toList, 1), ("u".toList, 0)], []⟩) := by rfl
  exact C5_roundtrip hl hr ho (by decide) (by decide) (by decide) hnr hci

end Duplo
